import Mathlib

/-!
# sym_dump: the two-pass symbol-stream interpreter of `cmd/sym_dump/parse.go`

A shallow embedding of `parse.go` and theorems about it.

Conventions of the embedding.

* Go `uint32` and `int` values are natural numbers; the one place where the
  source relies on wrap-around (the line cursor) reduces modulo `2 ^ 32`.
* A Go `string` is a Lean `String` (a sequence of Unicode code points), so only
  valid UTF-8 is represented; Go's `len` of a string is its UTF-8 byte length,
  `String.utf8ByteSize`, and `strings.Map` maps it rune by rune.
* A Go `map[K]V` is an association list: `m[k]` is `List.lookup k m` and
  `m[k] = v` puts `(k, v)` in front, so the newest binding wins.
* A Go panic is `Except.error`; every function that can panic returns `Except`.
* Go pointers to mutable objects are indices into the list that owns the
  objects: a `*c.Block` is an index into its function's `Blocks`, a
  `*c.FuncDecl` an index into its overlay's `funcs`, an `*Overlay` an
  `OverlayRef`, and a `*c.StructType` (union, enum) an index into the
  parser's `structHeap` (`unionHeap`, `enumHeap`), which model the Go heap.
-/

set_option linter.dupNamespace false

namespace SymDump

/-- Run-time panics of `parse.go`, one constructor per panic site family. -/
inductive Panic
  | unsupportedClass
  | unsupportedSymbol
  | unknownOverlay (id : Nat)
  | unknownFunction (name : String)
  | invalidFuncType
  | unsupportedBase
  | unknownStruct (tag : String)
  | unknownUnion (tag : String)
  | unknownEnum (tag : String)
  | unreachable
  | indexOutOfRange
  | nilDeref
  | emptyPop
  deriving DecidableEq, Repr

/-! ## Package `sym`: the records of the symbol stream -/

namespace sym

/-- Modelled from the spec: `sym.Class`, the storage class code of a definition
record. The constructors are the classes `parse.go` names; `other` stands for
every remaining class of the format. -/
inductive Class
  | AUTO | EXT | STAT | REG | LABEL | MOS | ARG | STRTAG | MOU | UNTAG | TPDEF
  | ENTAG | MOE | REGPARM | FIELD | EOS | other
  deriving DecidableEq, Repr

/-- Modelled from the spec: `sym.Base`, the base type code of a `sym.Type`. The
constructors are the codes `parseBase` names; `other` stands for the rest. -/
inductive Base
  | Null | Void | Char | Short | Int | Long | Struct | Union | Enum
  | UChar | UShort | UInt | ULong | other
  deriving DecidableEq, Repr

/-- Modelled from the spec: `sym.Mod`, a type modifier (`ModPointer`,
`ModFunction`, `ModArray`). -/
inductive Mod
  | Pointer | Function | Array
  deriving DecidableEq, Repr

/-- Modelled from the spec: `sym.Type`, seen through its two accessors `Base()`
and `Mods()` (base code and modifier sequence in encounter order). -/
structure SymType where
  Base : Base
  Mods : List Mod
  deriving DecidableEq, Repr

/-- Modelled from the spec: `sym.FuncStart`, reduced to the fields `parse.go`
reads. -/
structure FuncStart where
  Line : Nat
  Name : String
  deriving DecidableEq, Repr

/-- Modelled from the spec: `sym.Def`, the short definition record. -/
structure Def where
  Class : Class
  Typ : SymType
  Size : Nat
  Name : String
  deriving DecidableEq, Repr

/-- Modelled from the spec: `sym.Def2`, the definition record that also carries
array dimensions and a tag. -/
structure Def2 where
  Class : Class
  Typ : SymType
  Size : Nat
  Dims : List Nat
  Tag : String
  Name : String
  deriving DecidableEq, Repr

/-- Modelled from the spec: `sym.Overlay`, the overlay definition record. -/
structure Overlay where
  Length : Nat
  ID : Nat
  deriving DecidableEq, Repr

/-- Modelled from the spec: the record bodies (`sym.Symbol.Body`) that
`parse.go` dispatches on. -/
inductive Body
  | Name1 (Name : String)
  | Name2 (Name : String)
  | IncSLD
  | IncSLDByte (Inc : Nat)
  | IncSLDWord (Inc : Nat)
  | SetSLD (Line : Nat)
  | SetSLD2 (Line : Nat) (Path : String)
  | EndSLD
  | FuncStart (body : FuncStart)
  | FuncEnd (Line : Nat)
  | BlockStart (Line : Nat)
  | BlockEnd (Line : Nat)
  | Def (body : Def)
  | Def2 (body : Def2)
  | Overlay (body : Overlay)
  | SetOverlay
  deriving DecidableEq, Repr

/-- Modelled from the spec: `sym.Symbol`, a record of the stream: the header's
address/value field `Hdr.Value` and the kind-specific body. -/
structure Symbol where
  Value : Nat
  Body : Body
  deriving DecidableEq, Repr

end sym

/-! ## Package `c`: the C type and declaration model -/

namespace c

/-- Modelled from the spec: `c.StorageClass`. -/
inductive StorageClass
  | Auto | Extern | Static | Register | Typedef
  deriving DecidableEq, Repr

mutual
/-- Modelled from the spec: `c.Type` (section 3, Type). `Struct`, `Union` and
`Enum` hold the pointer to the aggregate object (an index into the parser's
heap of that kind); `Decl` is a `*c.VarDecl` used as a type (the typedefs of the
`types` table) and `nil` is the nil interface value. -/
inductive CType
  | nil
  | Void | Char | Short | Int | Long | UChar | UShort | UInt | ULong
  | Pointer (Elem : CType)
  | Array (Elem : CType) (Len : Nat)
  | Function (RetType : CType) (Params : List Var) (Variadic : Bool)
  | Struct (ref : Nat)
  | Union (ref : Nat)
  | Enum (ref : Nat)
  | Decl (Addr Size : Nat) (StorageClass : StorageClass) (Var : Var)
/-- Modelled from the spec: `c.Var`, a type and a name. -/
inductive Var
  | mk (Typ : CType) (Name : String)
end

/-- The `Type` field of a `c.Var`. -/
def Var.Typ : Var → CType
  | .mk t _ => t

/-- The `Name` field of a `c.Var`. -/
def Var.Name : Var → String
  | .mk _ n => n

/-- Modelled from the spec: `c.FuncType`, the payload of `CType.Function`. -/
structure FuncType where
  RetType : CType
  Params : List Var
  Variadic : Bool

/-- The function type as a `c.Type`. -/
def FuncType.toType (t : FuncType) : CType :=
  .Function t.RetType t.Params t.Variadic

/-- The type assertion `t.(*c.FuncType)`. -/
def CType.asFuncType : CType → Option FuncType
  | .Function r ps v => some ⟨r, ps, v⟩
  | _ => none

/-- Modelled from the spec: `c.Field`, a struct or union member. -/
structure Field where
  Offset : Nat
  Size : Nat
  Var : Var

/-- Modelled from the spec: `c.StructType`. -/
structure StructType where
  Size : Nat
  Tag : String
  Fields : List Field

/-- Modelled from the spec: `c.UnionType`. -/
structure UnionType where
  Size : Nat
  Tag : String
  Fields : List Field

/-- Modelled from the spec: `c.EnumMember`. -/
structure EnumMember where
  Value : Nat
  Name : String
  deriving DecidableEq, Repr

/-- Modelled from the spec: `c.EnumType`. -/
structure EnumType where
  Tag : String
  Members : List EnumMember
  deriving DecidableEq, Repr

/-- Modelled from the spec: `c.VarDecl`. -/
structure VarDecl where
  Addr : Nat
  Size : Nat
  StorageClass : StorageClass
  Var : Var

/-- Modelled from the spec: `c.Block`, a lexical scope. -/
structure Block where
  LineStart : Nat
  LineEnd : Nat
  Locals : List Var

/-- Modelled from the spec: `c.FuncDecl`. -/
structure FuncDecl where
  Addr : Nat
  Size : Nat
  Var : Var
  LineStart : Nat
  LineEnd : Nat
  Blocks : List Block

end c

/-! ## `parse.go`: data -/

/-- Prefix added to duplicate symbols. -/
def duplicatePrefix : String := "_duplicate_"

/-- A Symbol associates a symbol name with an address. -/
structure Symbol where
  Addr : Nat
  Name : String
  deriving DecidableEq, Repr

/-- A Line associates a line number in a source file with an address. -/
structure Line where
  Addr : Nat
  Path : String
  Line : Nat
  deriving DecidableEq, Repr

/-- An Overlay is an overlay appended to the end of the executable. The two
name tables map a name to the index of the declaration in `vars` / `funcs`. -/
structure Overlay where
  Addr : Nat
  ID : Nat
  Length : Nat
  vars : List c.VarDecl
  funcs : List c.FuncDecl
  varNames : List (String × Nat)
  funcNames : List (String × Nat)
  symbols : List Symbol
  lines : List Line

/-- A pointer to an overlay: the default binary or the `i`-th created one. -/
inductive OverlayRef
  | default
  | created (i : Nat)
  deriving DecidableEq, Repr

/-- The parser tracks type information used for parsing. -/
structure parser where
  structHeap : List c.StructType
  unionHeap : List c.UnionType
  enumHeap : List c.EnumType
  structs : List (String × Nat)
  unions : List (String × Nat)
  enums : List (String × Nat)
  types : List (String × c.CType)
  structTags : List String
  unionTags : List String
  enumTags : List String
  typedefs : List c.CType
  uniqueEnumMember : List (String × Bool)
  Overlay : Overlay
  overlays : List SymDump.Overlay
  overlayIDs : List (Nat × Nat)
  curOverlay : OverlayRef

/-- An overlay with empty tables, as `make` and the zero value give it. -/
def emptyOverlay (addr id length : Nat) : Overlay :=
  { Addr := addr, ID := id, Length := length, vars := [], funcs := [],
    varNames := [], funcNames := [], symbols := [], lines := [] }

/-- The function newParser returns a new parser. -/
def newParser : parser :=
  { structHeap := [], unionHeap := [], enumHeap := [],
    structs := [], unions := [], enums := [], types := [],
    structTags := [], unionTags := [], enumTags := [], typedefs := [],
    uniqueEnumMember := [],
    Overlay := emptyOverlay 0 0 0, overlays := [], overlayIDs := [],
    curOverlay := .default }

/-- Dereference an overlay pointer. -/
def parser.getOverlay (p : parser) : OverlayRef → Option SymDump.Overlay
  | .default => some p.Overlay
  | .created i => p.overlays[i]?

/-- Store through an overlay pointer. -/
def parser.setOverlay (p : parser) (r : OverlayRef) (o : SymDump.Overlay) : parser :=
  match r with
  | .default => { p with Overlay := o }
  | .created i => { p with overlays := p.overlays.set i o }

/-- The overlay `p.curOverlay` points to. -/
def parser.cur (p : parser) : Option SymDump.Overlay :=
  p.getOverlay p.curOverlay

/-- Store through `p.curOverlay`. -/
def parser.setCur (p : parser) (o : SymDump.Overlay) : parser :=
  p.setOverlay p.curOverlay o

/-! ## `parse.go`: helper functions -/

/-- The rune map of `validName`: letters and digits are kept, every other rune
becomes an underscore. -/
def validRune (r : Char) : Char :=
  if ('a' ≤ r ∧ r ≤ 'z') ∨ ('A' ≤ r ∧ r ≤ 'Z') ∨ ('0' ≤ r ∧ r ≤ '9') then r else '_'

/-- The function validName returns a valid C identifier based on the given name
(`strings.Map` of `validRune`). -/
def validName (name : String) : String :=
  String.mk (name.data.map validRune)

/-- The upper-case hexadecimal digit of a value below 16. -/
def hexDigit (d : Nat) : Char :=
  "0123456789ABCDEF".data.getD d '0'

/-- The verb `%08X` on a `uint32`: eight upper-case hexadecimal digits. -/
def hex08 (addr : Nat) : List Char :=
  [7, 6, 5, 4, 3, 2, 1, 0].map fun k => hexDigit (addr / 16 ^ k % 16)

/-- The function uniqueName returns a unique name based on the given name and
address: `fmt.Sprintf("%s_addr_%08X", name, addr)`. -/
def uniqueName (name : String) (addr : Nat) : String :=
  name ++ "_addr_" ++ String.mk (hex08 addr)

/-- The function parseClass parses the symbol class into an equivalent C storage
class. -/
def parseClass : sym.Class → Except Panic c.StorageClass
  | .AUTO => .ok .Auto
  | .EXT => .ok .Extern
  | .STAT => .ok .Static
  | .REG => .ok .Register
  | .TPDEF => .ok .Typedef
  | _ => .error .unsupportedClass

/-- A blockStack is a stack of blocks (pointers into the function's `Blocks`). -/
abbrev blockStack := List Nat

/-- The method push pushes the block onto the stack. -/
def blockStack.push (b : blockStack) (block : Nat) : blockStack :=
  b ++ [block]

/-- The method empty reports if the stack is empty. -/
def blockStack.empty (b : blockStack) : Bool :=
  b.length == 0

/-- The method pop pops the block from the stack. -/
def blockStack.pop (b : blockStack) : Except Panic (Nat × blockStack) :=
  match b.getLast? with
  | none => .error .emptyPop
  | some block => .ok (block, b.dropLast)

/-- The function addLocal adds the local variable to the block if not already
present. -/
def addLocal (block : c.Block) (loc : c.Var) : c.Block :=
  if block.Locals.any (fun v => v.Name == loc.Name) then block
  else { block with Locals := block.Locals ++ [loc] }

/-- The function addParam adds the function parameter to the function type if
not already present. -/
def addParam (t : c.FuncType) (param : c.Var) : c.FuncType :=
  if t.Params.any (fun p => p.Name == param.Name) then t
  else { t with Params := t.Params ++ [param] }

/-- The loop of `parseMods`: `i + 1` is the number of modifiers still to visit
(the Go index `i` runs from `len(mods) - 1` down to `0`), `j` the next unused
dimension. -/
def parseModsLoop (mods : List sym.Mod) (dims : List Nat) :
    Nat → c.CType → Nat → Except Panic c.CType
  | 0, t, _ => .ok t
  | i + 1, t, j =>
    match mods[i]? with
    | none => .error .indexOutOfRange
    | some .Pointer => parseModsLoop mods dims i (.Pointer t) j
    | some .Function => parseModsLoop mods dims i (.Function t [] false) j
    | some .Array =>
      match dims[j]? with
      | none => .error .indexOutOfRange
      | some d => parseModsLoop mods dims i (.Array t d) (j + 1)

/-- The function parseMods parses the SYM type modifiers into the equivalent C
type modifiers. -/
def parseMods (t : c.CType) (mods : List sym.Mod) (dims : List Nat) :
    Except Panic c.CType :=
  parseModsLoop mods dims mods.length t 0

/-- The method parseBase parses the SYM base type into the equivalent C type. -/
def parseBase (p : parser) (base : sym.Base) (tag : String) : Except Panic c.CType :=
  let tag := validName tag
  match base with
  | .Null => .ok ((p.types.lookup "bool").getD .nil)
  | .Void => .ok .Void
  | .Char => .ok .Char
  | .Short => .ok .Short
  | .Int => .ok .Int
  | .Long => .ok .Long
  | .Struct =>
    match p.structs.lookup tag with
    | none => .error (.unknownStruct tag)
    | some t => .ok (.Struct t)
  | .Union =>
    match p.unions.lookup tag with
    | none => .error (.unknownUnion tag)
    | some t => .ok (.Union t)
  | .Enum =>
    match p.enums.lookup tag with
    | none => .error (.unknownEnum tag)
    | some t => .ok (.Enum t)
  | .UChar => .ok .UChar
  | .UShort => .ok .UShort
  | .UInt => .ok .UInt
  | .ULong => .ok .ULong
  | .other => .error .unsupportedBase

/-- The method parseType parses the SYM type into the equivalent C type. -/
def parseType (p : parser) (t : sym.SymType) (dims : List Nat) (tag : String) :
    Except Panic c.CType :=
  match parseBase p t.Base tag with
  | .error e => .error e
  | .ok u => parseMods u t.Mods dims

/-! ## `parse.go`: declarations (main pass) -/

/-- The method parseOverlay parses an overlay symbol. -/
def parseOverlay (p : parser) (addr : Nat) (body : sym.Overlay) : parser :=
  let overlay := emptyOverlay addr body.ID body.Length
  { p with
    overlays := p.overlays ++ [overlay]
    overlayIDs := (overlay.ID, p.overlays.length) :: p.overlayIDs }

/-- The name under which `parseDef` registers a definition in the overlay `o`
(its first seven lines): the sanitized name, with the address suffix when a
variable or a function of that name exists. -/
def declName (o : Overlay) (addr : Nat) (name : String) : String :=
  let name := validName name
  -- Duplicate name.
  if (o.varNames.lookup name).isSome then uniqueName name addr
  else if (o.funcNames.lookup name).isSome then uniqueName name addr
  else name

/-- The method parseDef parses a definition symbol. -/
def parseDef (p : parser) (addr size : Nat) (cls : sym.Class) (t : sym.SymType)
    (dims : List Nat) (tag name : String) : Except Panic parser :=
  match p.cur with
  | none => .error .nilDeref
  | some o =>
    let name := declName o addr name
    match parseClass cls with
    | .error e => .error e
    | .ok storageClass =>
      match parseType p t dims tag with
      | .error e => .error e
      | .ok cType =>
        match cType.asFuncType with
        | some funcType =>
          let f : c.FuncDecl :=
            { Addr := addr, Size := size, Var := .mk funcType.toType name,
              LineStart := 0, LineEnd := 0, Blocks := [] }
          .ok (p.setCur { o with
            funcs := o.funcs ++ [f]
            funcNames := (name, o.funcs.length) :: o.funcNames })
        | none =>
          let v : c.VarDecl :=
            { Addr := addr, Size := size, StorageClass := storageClass,
              Var := .mk cType name }
          .ok (p.setCur { o with
            vars := o.vars ++ [v]
            varNames := (name, o.vars.length) :: o.varNames })

/-- Target resolution of `parseFunc` (its first twelve lines): the index in
`funcs` of the declaration the function-start record refers to. -/
def resolveFunc (o : Overlay) (addr : Nat) (rawName : String) : Except Panic Nat :=
  let name := validName rawName
  match o.funcNames.lookup name with
  | none => .error (.unknownFunction name)
  | some i =>
    match o.funcs[i]? with
    | none => .error .nilDeref
    | some f =>
      if f.Addr ≠ addr then
        let name := uniqueName name addr
        match o.funcNames.lookup name with
        | none => .error (.unknownFunction name)
        | some j => .ok j
      else .ok i

/-- The first loop of `parseFunc` (function duplicate): the number of records
up to and including the first function-end record, if there is one. -/
def skipFuncDuplicate : List sym.Symbol → Nat → Option Nat
  | [], _ => none
  | s :: syms, n =>
    match s.Body with
    | .FuncEnd _ => some (n + 1)
    | _ => skipFuncDuplicate syms (n + 1)

/-- The local state of the second loop of `parseFunc`: the declaration `f`, its
function type `funcType` (the object `f.Type` points to), the block stack and
the current block (`none` is the nil pointer). -/
structure funcState where
  f : c.FuncDecl
  funcType : c.FuncType
  blocks : blockStack
  curBlock : Option Nat

/-- Add a variable of a function body: to the current block if there is one,
to the parameters otherwise. -/
def funcState.addVar (st : funcState) (v : c.Var) : Except Panic funcState :=
  match st.curBlock with
  | some b =>
    match st.f.Blocks[b]? with
    | none => .error .nilDeref
    | some block =>
      .ok { st with f := { st.f with Blocks := st.f.Blocks.set b (addLocal block v) } }
  | none => .ok { st with funcType := addParam st.funcType v }

/-- The classes of the definition records `parseFunc` accepts in a body. -/
def isLocalClass : sym.Class → Bool
  | .AUTO | .STAT | .REG | .LABEL | .ARG | .REGPARM => true
  | _ => false

/-- The second loop of `parseFunc`, at index `n` of the records that follow
the function-start record. -/
def parseFuncBody (p : parser) :
    List sym.Symbol → Nat → funcState → Except Panic (Nat × funcState)
  | [], _, _ => .error .unreachable
  | s :: syms, n, st =>
    match s.Body with
    | .FuncEnd line =>
      .ok (n + 1, { st with f := { st.f with LineEnd := line } })
    | .BlockStart line =>
      let blocks :=
        match st.curBlock with
        | some b => st.blocks.push b
        | none => st.blocks
      let block : c.Block := { LineStart := line, LineEnd := 0, Locals := [] }
      parseFuncBody p syms (n + 1)
        { st with
          blocks := blocks
          f := { st.f with Blocks := st.f.Blocks ++ [block] }
          curBlock := some st.f.Blocks.length }
    | .BlockEnd line =>
      match st.curBlock with
      | none => .error .nilDeref
      | some b =>
        match st.f.Blocks[b]? with
        | none => .error .nilDeref
        | some block =>
          let f := { st.f with Blocks := st.f.Blocks.set b { block with LineEnd := line } }
          if ¬ st.blocks.empty then
            match st.blocks.pop with
            | .error e => .error e
            | .ok (top, blocks) =>
              parseFuncBody p syms (n + 1)
                { st with f := f, blocks := blocks, curBlock := some top }
          else parseFuncBody p syms (n + 1) { st with f := f }
    | .Def body =>
      if isLocalClass body.Class then
        match parseType p body.Typ [] "" with
        | .error e => .error e
        | .ok t =>
          match st.addVar (.mk t body.Name) with
          | .error e => .error e
          | .ok st => parseFuncBody p syms (n + 1) st
      else .error .unsupportedClass
    | .Def2 body =>
      if isLocalClass body.Class then
        match parseType p body.Typ body.Dims body.Tag with
        | .error e => .error e
        | .ok t =>
          match st.addVar (.mk t body.Name) with
          | .error e => .error e
          | .ok st => parseFuncBody p syms (n + 1) st
      else .error .unsupportedClass
    | _ => .error .unsupportedSymbol

/-- The method parseFunc parses a function sequence of symbols. It returns the
number of records consumed and the new parser state. -/
def parseFunc (p : parser) (addr : Nat) (body : sym.FuncStart)
    (syms : List sym.Symbol) : Except Panic (Nat × parser) :=
  match p.cur with
  | none => .error .nilDeref
  | some o =>
    match resolveFunc o addr body.Name with
    | .error e => .error e
    | .ok i =>
      match o.funcs[i]? with
      | none => .error .nilDeref
      | some f =>
        match f.Var.Typ.asFuncType with
        | none => .error .invalidFuncType
        | some funcType =>
          -- Ignore function duplicate.
          match (if f.LineStart ≠ 0 then skipFuncDuplicate syms 0 else none) with
          | some n => .ok (n, p)
          | none =>
            let st : funcState :=
              { f := { f with LineStart := body.Line }, funcType := funcType,
                blocks := [], curBlock := none }
            match parseFuncBody p syms 0 st with
            | .error e => .error e
            | .ok (n, st) =>
              let f := { st.f with Var := .mk st.funcType.toType st.f.Var.Name }
              .ok (n, p.setCur { o with funcs := o.funcs.set i f })

/-- Append a symbol to the current overlay (`p.curOverlay.symbols = append(...)`). -/
def parser.addSymbol (p : parser) (symbol : Symbol) : Except Panic parser :=
  match p.cur with
  | none => .error .nilDeref
  | some o => .ok (p.setCur { o with symbols := o.symbols ++ [symbol] })

/-- Append a line to the current overlay (`p.curOverlay.lines = append(...)`). -/
def parser.addLine (p : parser) (line : Line) : Except Panic parser :=
  match p.cur with
  | none => .error .nilDeref
  | some o => .ok (p.setCur { o with lines := o.lines ++ [line] })

/-- The loop of `parseDecls`. The records still to come are the list; `skip`
is the number of them a sub-parse has already consumed (`i += n`), `curLine`
the line cursor. -/
def parseDeclsLoop : List sym.Symbol → Nat → Line → parser → Except Panic parser
  | [], _, _, p => .ok p
  | _ :: syms, skip + 1, curLine, p => parseDeclsLoop syms skip curLine p
  | s :: syms, 0, curLine, p =>
    match s.Body with
    | .Name1 name =>
      match p.addSymbol { Addr := s.Value, Name := name } with
      | .error e => .error e
      | .ok p => parseDeclsLoop syms 0 curLine p
    | .Name2 name =>
      match p.addSymbol { Addr := s.Value, Name := name } with
      | .error e => .error e
      | .ok p => parseDeclsLoop syms 0 curLine p
    | .IncSLD =>
      let curLine := { curLine with Line := (curLine.Line + 1) % 2 ^ 32 }
      match p.addLine { Addr := s.Value, Path := curLine.Path, Line := curLine.Line } with
      | .error e => .error e
      | .ok p => parseDeclsLoop syms 0 curLine p
    | .IncSLDByte inc =>
      let curLine := { curLine with Line := (curLine.Line + inc) % 2 ^ 32 }
      match p.addLine { Addr := s.Value, Path := curLine.Path, Line := curLine.Line } with
      | .error e => .error e
      | .ok p => parseDeclsLoop syms 0 curLine p
    | .IncSLDWord inc =>
      let curLine := { curLine with Line := (curLine.Line + inc) % 2 ^ 32 }
      match p.addLine { Addr := s.Value, Path := curLine.Path, Line := curLine.Line } with
      | .error e => .error e
      | .ok p => parseDeclsLoop syms 0 curLine p
    | .SetSLD line =>
      let curLine := { curLine with Line := line }
      match p.addLine { Addr := s.Value, Path := curLine.Path, Line := curLine.Line } with
      | .error e => .error e
      | .ok p => parseDeclsLoop syms 0 curLine p
    | .SetSLD2 line path =>
      let curLine : Line := { Addr := 0, Path := path, Line := line }
      match p.addLine { Addr := s.Value, Path := curLine.Path, Line := curLine.Line } with
      | .error e => .error e
      | .ok p => parseDeclsLoop syms 0 curLine p
    | .EndSLD => parseDeclsLoop syms 0 { Addr := 0, Path := "", Line := 0 } p
    | .FuncStart body =>
      match parseFunc p s.Value body syms with
      | .error e => .error e
      | .ok (n, p) => parseDeclsLoop syms n curLine p
    | .Def body =>
      match body.Class with
      | .EXT | .STAT =>
        match parseDef p s.Value body.Size body.Class body.Typ [] "" body.Name with
        | .error e => .error e
        | .ok p => parseDeclsLoop syms 0 curLine p
      | .MOS | .STRTAG | .MOU | .UNTAG | .TPDEF | .ENTAG | .MOE | .FIELD =>
        -- nothing to do.
        parseDeclsLoop syms 0 curLine p
      | _ => .error .unsupportedClass
    | .Def2 body =>
      match body.Class with
      | .EXT | .STAT =>
        match parseDef p s.Value body.Size body.Class body.Typ body.Dims body.Tag
            body.Name with
        | .error e => .error e
        | .ok p => parseDeclsLoop syms 0 curLine p
      | .MOS | .MOU | .TPDEF | .MOE | .FIELD | .EOS =>
        -- nothing to do.
        parseDeclsLoop syms 0 curLine p
      | _ => .error .unsupportedClass
    | .Overlay body => parseDeclsLoop syms 0 curLine (parseOverlay p s.Value body)
    | .SetOverlay =>
      match p.overlayIDs.lookup s.Value with
      | none => .error (.unknownOverlay s.Value)
      | some overlay => parseDeclsLoop syms 0 curLine { p with curOverlay := .created overlay }
    | _ => .error .unsupportedSymbol

/-- The method parseDecls parses the SYM symbols into the equivalent C
declarations. -/
def parseDecls (p : parser) (syms : List sym.Symbol) : Except Panic parser :=
  parseDeclsLoop syms 0 { Addr := 0, Path := "", Line := 0 } p

/-! ## `parse.go`: types (type pass) -/

/-- Allocate a struct object and bind `tag` to it (`p.structs[tag] = t`). -/
def parser.newStruct (p : parser) (tag : String) (size : Nat) : parser :=
  { p with
    structHeap := p.structHeap ++ [{ Size := size, Tag := tag, Fields := [] }]
    structs := (tag, p.structHeap.length) :: p.structs }

/-- Allocate a union object and bind `tag` to it (`p.unions[tag] = t`). -/
def parser.newUnion (p : parser) (tag : String) (size : Nat) : parser :=
  { p with
    unionHeap := p.unionHeap ++ [{ Size := size, Tag := tag, Fields := [] }]
    unions := (tag, p.unionHeap.length) :: p.unions }

/-- Allocate an enum object and bind `tag` to it (`p.enums[tag] = t`). -/
def parser.newEnum (p : parser) (tag : String) : parser :=
  { p with
    enumHeap := p.enumHeap ++ [{ Tag := tag, Members := [] }]
    enums := (tag, p.enumHeap.length) :: p.enums }

/-- The three local maps of `initTaggedTypes`. -/
structure uniqueTags where
  uniqueStruct : List (String × Bool)
  uniqueUnion : List (String × Bool)
  uniqueEnum : List (String × Bool)

/-- The loop of `initTaggedTypes` over the records. -/
def initTaggedTypesLoop : List sym.Symbol → uniqueTags → parser → parser
  | [], _, p => p
  | s :: syms, u, p =>
    match s.Body with
    | .Def body =>
      match body.Class with
      | .STRTAG =>
        let tag := validName body.Name
        let tag := if (u.uniqueStruct.lookup tag).getD false then duplicatePrefix ++ tag else tag
        let u := { u with uniqueStruct := (tag, true) :: u.uniqueStruct }
        let p := p.newStruct tag body.Size
        initTaggedTypesLoop syms u { p with structTags := p.structTags ++ [tag] }
      | .UNTAG =>
        let tag := validName body.Name
        let tag := if (u.uniqueUnion.lookup tag).getD false then duplicatePrefix ++ tag else tag
        let u := { u with uniqueUnion := (tag, true) :: u.uniqueUnion }
        let p := p.newUnion tag body.Size
        initTaggedTypesLoop syms u { p with unionTags := p.unionTags ++ [tag] }
      | .ENTAG =>
        let tag := validName body.Name
        let tag := if (u.uniqueEnum.lookup tag).getD false then duplicatePrefix ++ tag else tag
        let u := { u with uniqueEnum := (tag, true) :: u.uniqueEnum }
        let p := p.newEnum tag
        initTaggedTypesLoop syms u { p with enumTags := p.enumTags ++ [tag] }
      | _ => initTaggedTypesLoop syms u p
    | _ => initTaggedTypesLoop syms u p

/-- The method initTaggedTypes adds scaffolding types for structs, unions and
enums. -/
def initTaggedTypes (p : parser) (syms : List sym.Symbol) : parser :=
  let p := p.newStruct "__vtbl_ptr_type" 0
  let p := { p with structTags := p.structTags ++ ["__vtbl_ptr_type"] }
  -- Bool used for NULL type.
  let boolDef : c.CType := .Decl 0 0 .Typedef (.mk .Int "bool")
  let p := { p with types := ("bool", boolDef) :: p.types }
  initTaggedTypesLoop syms { uniqueStruct := [], uniqueUnion := [], uniqueEnum := [] } p

/-- Append a field to the struct object `t` (`t.Fields = append(t.Fields, field)`). -/
def parser.addStructField (p : parser) (t : Nat) (field : c.Field) : Except Panic parser :=
  match p.structHeap[t]? with
  | none => .error .nilDeref
  | some st =>
    .ok { p with structHeap := p.structHeap.set t { st with Fields := st.Fields ++ [field] } }

/-- Append a field to the union object `t`. -/
def parser.addUnionField (p : parser) (t : Nat) (field : c.Field) : Except Panic parser :=
  match p.unionHeap[t]? with
  | none => .error .nilDeref
  | some ut =>
    .ok { p with unionHeap := p.unionHeap.set t { ut with Fields := ut.Fields ++ [field] } }

/-- Append a member to the enum object `t`. -/
def parser.addEnumMember (p : parser) (t : Nat) (member : c.EnumMember) :
    Except Panic parser :=
  match p.enumHeap[t]? with
  | none => .error .nilDeref
  | some et =>
    .ok { p with enumHeap := p.enumHeap.set t { et with Members := et.Members ++ [member] } }

/-- The member loop of `parseClassSTRTAG` for the struct object `t`, at index
`n` of the records that follow the tag record. -/
def parseStructMembers (t : Nat) :
    List sym.Symbol → Nat → parser → Except Panic (Nat × parser)
  | [], _, _ => .error .unreachable
  | s :: syms, n, p =>
    match s.Body with
    | .Def body =>
      match body.Class with
      | .MOS | .FIELD =>
        match parseType p body.Typ [] "" with
        | .error e => .error e
        | .ok ty =>
          match p.addStructField t
              { Offset := s.Value, Size := body.Size, Var := .mk ty (validName body.Name) } with
          | .error e => .error e
          | .ok p => parseStructMembers t syms (n + 1) p
      | _ => .error .unsupportedClass
    | .Def2 body =>
      match body.Class with
      | .MOS =>
        match parseType p body.Typ body.Dims body.Tag with
        | .error e => .error e
        | .ok ty =>
          match p.addStructField t
              { Offset := s.Value, Size := body.Size, Var := .mk ty (validName body.Name) } with
          | .error e => .error e
          | .ok p => parseStructMembers t syms (n + 1) p
      | .EOS => .ok (n + 1, p)
      | _ => .error .unsupportedClass
    | _ => parseStructMembers t syms (n + 1) p

/-- The method parseClassSTRTAG parses a struct tag sequence of symbols. -/
def parseClassSTRTAG (p : parser) (body : sym.Def) (syms : List sym.Symbol) :
    Except Panic (Nat × parser) :=
  if body.Typ.Base ≠ .Struct then .error .unsupportedBase
  else
    let name := validName body.Name
    match p.structs.lookup name with
    | none => .error (.unknownStruct name)
    | some t =>
      match p.structHeap[t]? with
      | none => .error .nilDeref
      | some st =>
        if st.Fields.length > 0 then
          -- duplicate struct tag symbol
          let dupTag := duplicatePrefix ++ name
          parseStructMembers p.structHeap.length syms 0 (p.newStruct dupTag body.Size)
        else parseStructMembers t syms 0 p

/-- The member loop of `parseClassUNTAG` for the union object `t`. -/
def parseUnionMembers (t : Nat) :
    List sym.Symbol → Nat → parser → Except Panic (Nat × parser)
  | [], _, _ => .error .unreachable
  | s :: syms, n, p =>
    match s.Body with
    | .Def body =>
      match body.Class with
      | .MOU =>
        match parseType p body.Typ [] "" with
        | .error e => .error e
        | .ok ty =>
          match p.addUnionField t
              { Offset := s.Value, Size := body.Size, Var := .mk ty (validName body.Name) } with
          | .error e => .error e
          | .ok p => parseUnionMembers t syms (n + 1) p
      | _ => .error .unsupportedClass
    | .Def2 body =>
      match body.Class with
      | .MOU =>
        match parseType p body.Typ body.Dims body.Tag with
        | .error e => .error e
        | .ok ty =>
          match p.addUnionField t
              { Offset := s.Value, Size := body.Size, Var := .mk ty (validName body.Name) } with
          | .error e => .error e
          | .ok p => parseUnionMembers t syms (n + 1) p
      | .EOS => .ok (n + 1, p)
      | _ => .error .unsupportedClass
    | _ => parseUnionMembers t syms (n + 1) p

/-- The method parseClassUNTAG parses a union tag sequence of symbols. -/
def parseClassUNTAG (p : parser) (body : sym.Def) (syms : List sym.Symbol) :
    Except Panic (Nat × parser) :=
  if body.Typ.Base ≠ .Union then .error .unsupportedBase
  else
    let name := validName body.Name
    match p.unions.lookup name with
    | none => .error (.unknownUnion name)
    | some t => parseUnionMembers t syms 0 p

/-- The method parseClassTPDEF parses a typedef symbol. -/
def parseClassTPDEF (p : parser) (t : sym.SymType) (dims : List Nat) (tag name : String) :
    Except Panic parser :=
  let name := validName name
  match parseType p t dims tag with
  | .error e => .error e
  | .ok ty =>
    let d : c.CType := .Decl 0 0 .Typedef (.mk ty name)
    .ok { p with typedefs := p.typedefs ++ [d], types := (name, d) :: p.types }

/-- The string `strings.ToUpper(duplicatePrefix)`. -/
def duplicatePrefixUpper : String := "_DUPLICATE_"

/-- The member loop of `parseClassENTAG` for the enum object `t`. -/
def parseEnumMembers (t : Nat) :
    List sym.Symbol → Nat → parser → Except Panic (Nat × parser)
  | [], _, _ => .error .unreachable
  | s :: syms, n, p =>
    match s.Body with
    | .Def body =>
      match body.Class with
      | .MOE =>
        let name := validName body.Name
        let name :=
          if (p.uniqueEnumMember.lookup name).getD false then duplicatePrefixUpper ++ name
          else name
        let p := { p with uniqueEnumMember := (name, true) :: p.uniqueEnumMember }
        match p.addEnumMember t { Value := s.Value, Name := name } with
        | .error e => .error e
        | .ok p => parseEnumMembers t syms (n + 1) p
      | _ => .error .unsupportedClass
    | .Def2 body =>
      match body.Class with
      | .EOS => .ok (n + 1, p)
      | _ => .error .unsupportedClass
    | _ => parseEnumMembers t syms (n + 1) p

/-- The method parseClassENTAG parses an enum tag sequence of symbols. -/
def parseClassENTAG (p : parser) (body : sym.Def) (syms : List sym.Symbol) :
    Except Panic (Nat × parser) :=
  if body.Typ.Base ≠ .Enum then .error .unsupportedBase
  else
    let name := validName body.Name
    match p.enums.lookup name with
    | none => .error (.unknownEnum name)
    | some t => parseEnumMembers t syms 0 p

/-- The loop of `parseTypes`; `skip` is the number of coming records a
sub-parse has already consumed (`i += n`). -/
def parseTypesLoop : List sym.Symbol → Nat → parser → Except Panic parser
  | [], _, p => .ok p
  | _ :: syms, skip + 1, p => parseTypesLoop syms skip p
  | s :: syms, 0, p =>
    match s.Body with
    | .Def body =>
      match body.Class with
      | .STRTAG =>
        match parseClassSTRTAG p body syms with
        | .error e => .error e
        | .ok (n, p) => parseTypesLoop syms n p
      | .UNTAG =>
        match parseClassUNTAG p body syms with
        | .error e => .error e
        | .ok (n, p) => parseTypesLoop syms n p
      | .TPDEF =>
        match parseClassTPDEF p body.Typ [] "" body.Name with
        | .error e => .error e
        | .ok p => parseTypesLoop syms 0 p
      | .ENTAG =>
        match parseClassENTAG p body syms with
        | .error e => .error e
        | .ok (n, p) => parseTypesLoop syms n p
      | _ => parseTypesLoop syms 0 p
    | .Def2 body =>
      match body.Class with
      | .TPDEF =>
        match parseClassTPDEF p body.Typ body.Dims body.Tag body.Name with
        | .error e => .error e
        | .ok p => parseTypesLoop syms 0 p
      | _ => parseTypesLoop syms 0 p
    | _ => parseTypesLoop syms 0 p

/-- The method parseTypes parses the SYM types into the equivalent C types. -/
def parseTypes (p : parser) (syms : List sym.Symbol) : Except Panic parser :=
  parseTypesLoop syms 0 (initTaggedTypes p syms)

/-! ## Reference definitions written from the spec -/

/-- The reference resolution of a modifier sequence, written from the spec
(section 4.3, step 2), over the modifiers already put in visiting order: a
pointer modifier wraps the current type in a Pointer, a function modifier in a
Function with an empty, non-variadic parameter list, an array modifier in an
Array that consumes the next unused dimension. -/
def applyModsReference : List sym.Mod → c.CType → List Nat → Option c.CType
  | [], t, _ => some t
  | .Pointer :: ms, t, ds => applyModsReference ms (.Pointer t) ds
  | .Function :: ms, t, ds => applyModsReference ms (.Function t [] false) ds
  | .Array :: ms, t, d :: ds => applyModsReference ms (.Array t d) ds
  | .Array :: _, _, [] => none

/-- The reference type resolver of the spec: the modifiers are visited from the
last to the first. -/
def parseModsReference (t : c.CType) (mods : List sym.Mod) (dims : List Nat) :
    Option c.CType :=
  applyModsReference mods.reverse t dims

/-- The result of the reference resolver as a result of the Go function. -/
def ofReference : Option c.CType → Except Panic c.CType
  | some r => .ok r
  | none => .error .indexOutOfRange

/-- The fields of the struct type bound to `tag` in the struct table. -/
def parser.structFields (p : parser) (tag : String) : Option (List c.Field) :=
  match p.structs.lookup tag with
  | none => none
  | some t => (p.structHeap[t]?).map fun st => st.Fields

/-- The fields of the union type bound to `tag` in the union table. -/
def parser.unionFields (p : parser) (tag : String) : Option (List c.Field) :=
  match p.unions.lookup tag with
  | none => none
  | some t => (p.unionHeap[t]?).map fun ut => ut.Fields

/-- A record is a function-end record. -/
def isFuncEnd (s : sym.Symbol) : Bool :=
  match s.Body with
  | .FuncEnd _ => true
  | _ => false

/-- The C type of a scalar base code, if the code is one of the nine scalar
kinds of the spec (section 3, Type). -/
def scalarOf : sym.Base → Option c.CType
  | .Void => some .Void
  | .Char => some .Char
  | .Short => some .Short
  | .Int => some .Int
  | .Long => some .Long
  | .UChar => some .UChar
  | .UShort => some .UShort
  | .UInt => some .UInt
  | .ULong => some .ULong
  | _ => none

/-- A record is a struct-tag record: a short definition record of class STRTAG. -/
def isStructTag (s : sym.Symbol) : Bool :=
  match s.Body with
  | .Def body =>
    match body.Class with
    | .STRTAG => true
    | _ => false
  | _ => false

/-- A record is a member record of a struct: a short definition record of
class MOS or FIELD, or a long one of class MOS. -/
def isStructMember (s : sym.Symbol) : Bool :=
  match s.Body with
  | .Def body =>
    match body.Class with
    | .MOS | .FIELD => true
    | _ => false
  | .Def2 body =>
    match body.Class with
    | .MOS => true
    | _ => false
  | _ => false

/-- A record is the end-of-aggregate sentinel: a long definition record of
class EOS. -/
def isEndOfAggregate (s : sym.Symbol) : Bool :=
  match s.Body with
  | .Def2 body =>
    match body.Class with
    | .EOS => true
    | _ => false
  | _ => false

/-- The field of a member record, written from the spec (section 4.7): offset
from the record's address/value field, size, sanitized name, and the type as
the type resolver gives it in the parser state `p`. -/
def memberField (p : parser) (s : sym.Symbol) : Except Panic c.Field :=
  match s.Body with
  | .Def body =>
    match parseType p body.Typ [] "" with
    | .error e => .error e
    | .ok ty => .ok { Offset := s.Value, Size := body.Size, Var := .mk ty (validName body.Name) }
  | .Def2 body =>
    match parseType p body.Typ body.Dims body.Tag with
    | .error e => .error e
    | .ok ty => .ok { Offset := s.Value, Size := body.Size, Var := .mk ty (validName body.Name) }
  | _ => .error .unsupportedSymbol

/-- The fields of a member range, in order. -/
def memberFields (p : parser) : List sym.Symbol → Except Panic (List c.Field)
  | [] => .ok []
  | s :: ms =>
    match memberField p s with
    | .error e => .error e
    | .ok fd =>
      match memberFields p ms with
      | .error e => .error e
      | .ok fs => .ok (fd :: fs)

/-- The parser state with the fields `fs` appended to the struct object `t`. -/
def parser.appendStructFields (p : parser) (t : Nat) (fs : List c.Field) : parser :=
  match p.structHeap[t]? with
  | none => p
  | some st =>
    { p with structHeap := p.structHeap.set t { st with Fields := st.Fields ++ fs } }

/-- Two parser states have the same struct objects and the same three tag
tables. -/
def sameStructs (q p : parser) : Prop :=
  q.structs = p.structs ∧ q.structHeap = p.structHeap
    ∧ q.unions = p.unions ∧ q.enums = p.enums

/-- The list is empty or starts with a struct-tag record. -/
def stopsAtStructTag (ys : List sym.Symbol) : Prop :=
  ∀ y ∈ ys.head?, isStructTag y = true

/-- The tag under which the prescan registers a tag record named `name`, given
the map `unique` of the tags of its kind registered so far. -/
def scanTag (unique : List (String × Bool)) (name : String) : String :=
  if (unique.lookup (validName name)).getD false then duplicatePrefix ++ validName name
  else validName name

/-- The value of an upper-case hexadecimal digit: its position among the
sixteen digits (16 for any other character). -/
def upperHexValue (d : Char) : Nat :=
  "0123456789ABCDEF".data.indexOf d

/-- The number a string of upper-case hexadecimal digits denotes, most
significant digit first. -/
def readHex (ds : List Char) : Nat :=
  ds.foldl (fun acc d => 16 * acc + upperHexValue d) 0

/-- A record is a definition record that the struct member loop does not
accept: a short definition record of a class other than MOS and FIELD, or a
long one of a class other than MOS and EOS (a long record of class EOS is the
sentinel). -/
def isOtherDefinition (s : sym.Symbol) : Bool :=
  match s.Body with
  | .Def body =>
    match body.Class with
    | .MOS | .FIELD => false
    | _ => true
  | .Def2 body =>
    match body.Class with
    | .MOS | .EOS => false
    | _ => true
  | _ => false

/-- A record is a definition record, short or long. -/
def isDefinition (s : sym.Symbol) : Bool :=
  match s.Body with
  | .Def _ => true
  | .Def2 _ => true
  | _ => false

/-- The result of a member parser with one more record counted as consumed. -/
def oneMore : Except Panic (Nat × parser) → Except Panic (Nat × parser)
  | .error e => .error e
  | .ok (n, p) => .ok (n + 1, p)

/-- The sanitized tags of the struct-tag records of a stream, in encounter
order. -/
def structTagNames : List sym.Symbol → List String
  | [] => []
  | s :: syms =>
    match s.Body with
    | .Def body =>
      match body.Class with
      | .STRTAG => validName body.Name :: structTagNames syms
      | _ => structTagNames syms
    | _ => structTagNames syms

/-- The reference registration of tags: a tag is registered as it is when no
earlier record was registered under it, and with the duplicate prefix when one
was. `earlier` holds the tags registered so far. -/
def registerTags : List String → List String → List String
  | [], _ => []
  | name :: names, earlier =>
    let tag := if earlier.contains name then duplicatePrefix ++ name else name
    tag :: registerTags names (tag :: earlier)

/-- The struct table that binds the tags of a list to consecutive struct
objects, the first tag to the object `start`; a later binding of a tag comes
before an earlier one. -/
def bindTags : List String → Nat → List (String × Nat)
  | [], _ => []
  | tag :: tags, start => bindTags tags (start + 1) ++ [(tag, start)]

/-- The invariant of the tag prescan: every tag marked in one of the three
maps of the scan is a key of the table of its kind. -/
def scanInv (u : uniqueTags) (p : parser) : Prop :=
  (∀ k, (u.uniqueStruct.lookup k).getD false = true → (p.structs.lookup k).isSome = true)
  ∧ (∀ k, (u.uniqueUnion.lookup k).getD false = true → (p.unions.lookup k).isSome = true)
  ∧ (∀ k, (u.uniqueEnum.lookup k).getD false = true → (p.enums.lookup k).isSome = true)

/-- Every key of the three tag tables of `p` is a key of the same table of `q`. -/
def keysLe (p q : parser) : Prop :=
  (∀ k, (p.structs.lookup k).isSome = true → (q.structs.lookup k).isSome = true)
  ∧ (∀ k, (p.unions.lookup k).isSome = true → (q.unions.lookup k).isSome = true)
  ∧ (∀ k, (p.enums.lookup k).isSome = true → (q.enums.lookup k).isSome = true)

/-- A record is an enum member record: a short definition record of class MOE. -/
def isEnumMember (s : sym.Symbol) : Bool :=
  match s.Body with
  | .Def body =>
    match body.Class with
    | .MOE => true
    | _ => false
  | _ => false

/-- A record is an enum-tag record: a short definition record of class ENTAG. -/
def isEnumTag (s : sym.Symbol) : Bool :=
  match s.Body with
  | .Def body =>
    match body.Class with
    | .ENTAG => true
    | _ => false
  | _ => false

/-- The enum member record `s` can be given the name `name`: its sanitized name
is `name`, or becomes `name` by the upper-case duplicate prefix. -/
def canBeNamed (name : String) (s : sym.Symbol) : Bool :=
  match s.Body with
  | .Def body =>
    match body.Class with
    | .MOE =>
      validName body.Name == name || duplicatePrefixUpper ++ validName body.Name == name
    | _ => false
  | _ => false

/-- The map lookup `p.uniqueEnumMember[name]`. -/
def enumSeen (p : parser) (name : String) : Bool :=
  (p.uniqueEnumMember.lookup name).getD false

/-- The enum side of `q` is the one of `p`: same enum objects, same enum table,
same map of enum member names. -/
def enumSame (q p : parser) : Prop :=
  q.enumHeap = p.enumHeap ∧ q.uniqueEnumMember = p.uniqueEnumMember ∧ q.enums = p.enums

/-- The enum side of `q` extends the one of `p`: every member name marked in `p`
is marked in `q`, the enum table is the same, and every enum object of `p` is
in `q` with the same members and possibly more behind them. -/
def enumExt (p q : parser) : Prop :=
  (∀ name, enumSeen p name = true → enumSeen q name = true)
  ∧ q.enums = p.enums
  ∧ ∀ (r : Nat) (E : c.EnumType), p.enumHeap[r]? = some E →
      ∃ (E2 : c.EnumType) (Y : List c.EnumMember),
        q.enumHeap[r]? = some E2 ∧ E2.Members = E.Members ++ Y

/-- The list is empty or starts with an enum-tag record. -/
def stopsAtEnumTag (ys : List sym.Symbol) : Prop :=
  ∀ y ∈ ys.head?, isEnumTag y = true

/-- The record `x`, if it is a struct-tag record, has a sanitized tag that is
not `T` and that the duplicate prefix does not turn into `T`. -/
def foreignTag (T : String) (x : sym.Symbol) : Bool :=
  match x.Body with
  | .Def body =>
    match body.Class with
    | .STRTAG => validName body.Name != T && duplicatePrefix ++ validName body.Name != T
    | _ => true
  | _ => true

/-- The record `x` is a struct-tag record of the sanitized tag `D`. -/
def hasStructTag (D : String) (x : sym.Symbol) : Bool :=
  match x.Body with
  | .Def body =>
    match body.Class with
    | .STRTAG => validName body.Name == D
    | _ => false
  | _ => false

/-- Every struct object bound in the struct table carries its key as tag. -/
def structsTagged (p : parser) : Prop :=
  ∀ (k : String) (r : Nat), p.structs.lookup k = some r →
    ∃ st : c.StructType, p.structHeap[r]? = some st ∧ st.Tag = k

/-- The struct object `t` of `p`, if there is one, has a tag other than `T` and
`D`. -/
def otherObject (T D : String) (p : parser) (t : Nat) : Prop :=
  ∀ st : c.StructType, p.structHeap[t]? = some st → st.Tag ≠ T ∧ st.Tag ≠ D

/-- The struct object bound to the key `D` in `p`, if there is one, has a
field. -/
def boundHasFields (D : String) (p : parser) : Prop :=
  ∀ (t : Nat) (st : c.StructType), p.structs.lookup D = some t →
    p.structHeap[t]? = some st → 0 < st.Fields.length

/-- From `p` to `q` every struct object is still there under its tag, the
struct objects tagged `T` or `D` are as they were, the struct table binds these
two keys as before, and the union and enum tables are the same. -/
def structFrame (T D : String) (p q : parser) : Prop :=
  (∀ (r : Nat) (st : c.StructType), p.structHeap[r]? = some st →
      ∃ st2 : c.StructType, q.structHeap[r]? = some st2 ∧ st2.Tag = st.Tag
        ∧ ((st.Tag = T ∨ st.Tag = D) → st2 = st))
  ∧ q.structs.lookup T = p.structs.lookup T
  ∧ q.structs.lookup D = p.structs.lookup D
  ∧ q.unions = p.unions ∧ q.enums = p.enums

/-- Every binding of `extra` has as key the duplicate prefix followed by the
sanitized tag of a struct-tag record of `xs`. -/
def duplicateKeys (xs : List sym.Symbol) (extra : List (String × Nat)) : Prop :=
  ∀ e ∈ extra, ∃ x ∈ xs, ∃ body : sym.Def,
    x.Body = .Def body ∧ body.Class = .STRTAG
      ∧ e.1 = duplicatePrefix ++ validName body.Name

/-! ## Type resolver: modifier order (C1, C2) -/

theorem parseModsLoop_eq_reference (mods : List sym.Mod) (dims : List Nat) :
    ∀ (k : Nat) (t : c.CType) (j : Nat), k ≤ mods.length →
      parseModsLoop mods dims k t j
        = ofReference (applyModsReference (mods.take k).reverse t (dims.drop j)) := by
  intro k
  induction k with
  | zero => intro t j _; simp [parseModsLoop, applyModsReference, ofReference]
  | succ i ih =>
    intro t j hk
    have hi : i < mods.length := hk
    have htake : (mods.take (i + 1)).reverse = mods[i] :: (mods.take i).reverse := by
      rw [List.take_succ, List.getElem?_eq_getElem hi]
      simp
    rw [htake]
    unfold parseModsLoop
    rw [List.getElem?_eq_getElem hi]
    cases hm : mods[i] with
    | Pointer => simp only [applyModsReference]; exact ih _ _ (Nat.le_of_lt hi)
    | Function => simp only [applyModsReference]; exact ih _ _ (Nat.le_of_lt hi)
    | Array =>
      by_cases hj : j < dims.length
      · rw [List.drop_eq_getElem_cons hj, List.getElem?_eq_getElem hj]
        simp only [applyModsReference]
        exact ih _ _ (Nat.le_of_lt hi)
      · have hnone : dims[j]? = none := List.getElem?_eq_none (Nat.le_of_not_lt hj)
        have hdrop : dims.drop j = [] := List.drop_of_length_le (Nat.le_of_not_lt hj)
        rw [hnone, hdrop]
        simp [applyModsReference, ofReference]

theorem parseMods_eq_ofReference (t : c.CType) (mods : List sym.Mod) (dims : List Nat) :
    parseMods t mods dims = ofReference (parseModsReference t mods dims) := by
  unfold parseMods parseModsReference
  rw [parseModsLoop_eq_reference mods dims mods.length t 0 (Nat.le_refl _)]
  simp

theorem applyModsReference_isSome :
    ∀ (ms : List sym.Mod) (t : c.CType) (ds : List Nat),
      ms.count .Array ≤ ds.length → ∃ r, applyModsReference ms t ds = some r := by
  intro ms
  induction ms with
  | nil => intro t ds _; exact ⟨t, rfl⟩
  | cons m ms ih =>
    intro t ds h
    cases m with
    | Pointer =>
      simp only [applyModsReference]
      exact ih _ _ (by simpa using h)
    | Function =>
      simp only [applyModsReference]
      exact ih _ _ (by simpa using h)
    | Array =>
      cases ds with
      | nil => simp at h
      | cons d ds =>
        simp only [applyModsReference]
        exact ih _ _ (by simpa using h)

/-- C1 (counterexample): base int with modifier list [pointer, array] and
dimensions [3] does not resolve to Array(Pointer(Int), 3). -/
theorem C1_counterexample :
    parseType newParser ⟨.Int, [.Pointer, .Array]⟩ [3] ""
      ≠ .ok (.Array (.Pointer .Int) 3) := by
  intro h
  have h2 : parseType newParser ⟨.Int, [.Pointer, .Array]⟩ [3] ""
      = .ok (.Pointer (.Array .Int 3)) := rfl
  rw [h2] at h
  cases h

/-- C1 (amended): for every parser state and tag, base int with modifier list
[pointer, array] and dimensions [3] resolves to Pointer(Array(Int, 3)), a
pointer to an array of 3 ints; Array(Pointer(Int), 3), an array of 3 pointers
to int, is what the modifier list [array, pointer] resolves to. -/
theorem C1_parseType_pointer_array (p : parser) (tag : String) :
    parseType p ⟨.Int, [.Pointer, .Array]⟩ [3] tag = .ok (.Pointer (.Array .Int 3))
    ∧ parseType p ⟨.Int, [.Array, .Pointer]⟩ [3] tag = .ok (.Array (.Pointer .Int) 3) :=
  ⟨rfl, rfl⟩

/-- C2: when dims has at least as many entries as mods has array modifiers, the
reference fold over the modifiers from last to first is defined and parseMods
returns its result. -/
theorem C2_parseMods_refines_reference (t : c.CType) (mods : List sym.Mod)
    (dims : List Nat) (h : mods.count .Array ≤ dims.length) :
    ∃ r, parseModsReference t mods dims = some r ∧ parseMods t mods dims = .ok r := by
  obtain ⟨r, hr⟩ := applyModsReference_isSome mods.reverse t dims (by simpa using h)
  refine ⟨r, hr, ?_⟩
  rw [parseMods_eq_ofReference]
  unfold parseModsReference
  rw [hr]
  rfl

/-- C2 (witness): the modifiers [array, pointer, function, array] with
dimensions [3, 5]. -/
theorem C2_parseMods_refines_reference_witness :
    [sym.Mod.Array, .Pointer, .Function, .Array].count .Array ≤ [3, 5].length
    ∧ ∃ r, parseModsReference .Int [.Array, .Pointer, .Function, .Array] [3, 5] = some r
        ∧ parseMods .Int [.Array, .Pointer, .Function, .Array] [3, 5] = .ok r :=
  ⟨by decide, C2_parseMods_refines_reference .Int _ [3, 5] (by decide)⟩

/-! ## Frame lemmas: the overlay store and the type tables -/

theorem parseBase_setOverlay (p : parser) (r : OverlayRef) (o : Overlay) (base : sym.Base)
    (tag : String) : parseBase (p.setOverlay r o) base tag = parseBase p base tag := by
  cases r <;> rfl

theorem parseType_setOverlay (p : parser) (r : OverlayRef) (o : Overlay) (t : sym.SymType)
    (dims : List Nat) (tag : String) :
    parseType (p.setOverlay r o) t dims tag = parseType p t dims tag := by
  unfold parseType
  rw [parseBase_setOverlay]

theorem parseType_setCur (p : parser) (o : Overlay) (t : sym.SymType)
    (dims : List Nat) (tag : String) :
    parseType (p.setCur o) t dims tag = parseType p t dims tag :=
  parseType_setOverlay p p.curOverlay o t dims tag

theorem cur_setCur (p : parser) (o o2 : Overlay) (h : p.cur = some o) :
    (p.setCur o2).cur = some o2 := by
  unfold parser.cur parser.setCur at *
  cases hr : p.curOverlay with
  | default => simp [parser.setOverlay, parser.getOverlay, hr]
  | created i =>
    rw [hr] at h
    simp only [parser.getOverlay] at h
    have hi : i < p.overlays.length := by
      by_contra hcon
      rw [List.getElem?_eq_none (Nat.le_of_not_lt hcon)] at h
      cases h
    simp [parser.setOverlay, parser.getOverlay, hr, hi]

/-! ## Top-level declaration registration (C3, C4) -/

/-- What `parseDef` does for a definition whose type is not a function type. -/
theorem parseDef_var (p : parser) (o : Overlay) (addr size : Nat) (cls : sym.Class)
    (t : sym.SymType) (dims : List Nat) (tag name : String) (sc : c.StorageClass)
    (ct : c.CType) (hcur : p.cur = some o) (hc : parseClass cls = .ok sc)
    (ht : parseType p t dims tag = .ok ct) (hn : ct.asFuncType = none) :
    parseDef p addr size cls t dims tag name
      = .ok (p.setCur { o with
          vars := o.vars ++ [{ Addr := addr, Size := size, StorageClass := sc,
                               Var := .mk ct (declName o addr name) }],
          varNames := (declName o addr name, o.vars.length) :: o.varNames }) := by
  unfold parseDef
  simp only [hcur, hc, ht, hn]

/-- What `parseDef` does for a definition whose type is a function type. -/
theorem parseDef_func (p : parser) (o : Overlay) (addr size : Nat) (cls : sym.Class)
    (t : sym.SymType) (dims : List Nat) (tag name : String) (sc : c.StorageClass)
    (ct : c.CType) (ft : c.FuncType) (hcur : p.cur = some o) (hc : parseClass cls = .ok sc)
    (ht : parseType p t dims tag = .ok ct) (hn : ct.asFuncType = some ft) :
    parseDef p addr size cls t dims tag name
      = .ok (p.setCur { o with
          funcs := o.funcs ++ [{ Addr := addr, Size := size,
                                 Var := .mk ft.toType (declName o addr name),
                                 LineStart := 0, LineEnd := 0, Blocks := [] }],
          funcNames := (declName o addr name, o.funcs.length) :: o.funcNames }) := by
  unfold parseDef
  simp only [hcur, hc, ht, hn]

/-- C3: two non-function definitions with the same raw name, of storage classes
sc1 and sc2 (Extern or Static for the classes EXT and STAT that parseDecls
passes to parseDef), in an overlay that holds no declaration named
N = validName(name), append two VarDecls in encounter order: the first named N
at a1, the second named uniqueName(N, a2) at a2; the function list is
unchanged. -/
theorem C3_parseDef_same_name_twice (p : parser) (o : Overlay) (name : String)
    (a1 a2 size1 size2 : Nat) (cls1 cls2 : sym.Class) (t1 t2 : sym.SymType)
    (dims1 dims2 : List Nat) (tag1 tag2 : String) (sc1 sc2 : c.StorageClass)
    (ct1 ct2 : c.CType)
    (hcur : p.cur = some o)
    (hv : o.varNames.lookup (validName name) = none)
    (hf : o.funcNames.lookup (validName name) = none)
    (hs1 : parseClass cls1 = .ok sc1) (hs2 : parseClass cls2 = .ok sc2)
    (ht1 : parseType p t1 dims1 tag1 = .ok ct1) (hn1 : ct1.asFuncType = none)
    (ht2 : parseType p t2 dims2 tag2 = .ok ct2) (hn2 : ct2.asFuncType = none) :
    ∃ p1 p2 o2,
      parseDef p a1 size1 cls1 t1 dims1 tag1 name = .ok p1
      ∧ parseDef p1 a2 size2 cls2 t2 dims2 tag2 name = .ok p2
      ∧ p2.cur = some o2
      ∧ o2.vars = o.vars ++
          [{ Addr := a1, Size := size1, StorageClass := sc1,
             Var := .mk ct1 (validName name) },
           { Addr := a2, Size := size2, StorageClass := sc2,
             Var := .mk ct2 (uniqueName (validName name) a2) }]
      ∧ o2.funcs = o.funcs := by
  have h1 := parseDef_var p o a1 size1 cls1 t1 dims1 tag1 name sc1 ct1 hcur hs1 ht1 hn1
  have hname : declName o a1 name = validName name := by
    simp [declName, hv, hf]
  rw [hname] at h1
  have hcur1 := cur_setCur p o ({ o with
      vars := o.vars ++ [{ Addr := a1, Size := size1, StorageClass := sc1,
                           Var := .mk ct1 (validName name) }],
      varNames := (validName name, o.vars.length) :: o.varNames } : Overlay) hcur
  have h2 := parseDef_var _ _ a2 size2 cls2 t2 dims2 tag2 name sc2 ct2
    hcur1 hs2 (by rw [parseType_setCur]; exact ht2) hn2
  have hname2 : declName ({ o with
      vars := o.vars ++ [{ Addr := a1, Size := size1, StorageClass := sc1,
                           Var := .mk ct1 (validName name) }],
      varNames := (validName name, o.vars.length) :: o.varNames } : Overlay) a2 name
      = uniqueName (validName name) a2 := by
    simp [declName]
  rw [hname2] at h2
  exact ⟨_, _, _, h1, h2, cur_setCur _ _ _ hcur1, by simp, rfl⟩

/-- C3 (witness): two Extern int variables named bar at 0x20 and 0x30 in the
default overlay of a fresh parser are declared as bar and bar_addr_00000030. -/
theorem C3_parseDef_same_name_twice_witness :
    ∃ p1 p2 o2,
      parseDef newParser 0x20 4 .EXT ⟨.Int, []⟩ [] "" "bar" = .ok p1
      ∧ parseDef p1 0x30 4 .EXT ⟨.Int, []⟩ [] "" "bar" = .ok p2
      ∧ p2.cur = some o2
      ∧ o2.vars =
          [{ Addr := 0x20, Size := 4, StorageClass := .Extern,
             Var := .mk .Int "bar" },
           { Addr := 0x30, Size := 4, StorageClass := .Extern,
             Var := .mk .Int "bar_addr_00000030" }]
      ∧ o2.funcs = [] :=
  C3_parseDef_same_name_twice newParser (emptyOverlay 0 0 0) "bar" 0x20 0x30 4 4 .EXT .EXT
    ⟨.Int, []⟩ ⟨.Int, []⟩ [] [] "" "" .Extern .Extern .Int .Int
    rfl rfl rfl rfl rfl rfl rfl rfl rfl

/-- C4 (failing input): on the stream of a variable foo at 0x10, a function foo
at 0x20 and a variable foo at 0x20 the main pass completes, and the default
overlay then holds the variables foo and foo_addr_00000020 and the function
foo_addr_00000020: one name is used by a variable and by a function. -/
theorem C4_var_and_func_share_name :
    ∃ p, parseDecls newParser
        [ ⟨0x10, .Def ⟨.EXT, ⟨.Int, []⟩, 4, "foo"⟩⟩,
          ⟨0x20, .Def ⟨.EXT, ⟨.Int, [.Function]⟩, 0, "foo"⟩⟩,
          ⟨0x20, .Def ⟨.EXT, ⟨.Int, []⟩, 4, "foo"⟩⟩ ] = .ok p
      ∧ p.Overlay.vars.map (fun v => v.Var.Name) = ["foo", "foo_addr_00000020"]
      ∧ p.Overlay.funcs.map (fun f => f.Var.Name) = ["foo_addr_00000020"] :=
  ⟨_, rfl, rfl, rfl⟩

/-! ## Function body parser (C7, C8, C9, C10) -/

theorem skipFuncDuplicate_eq_findIdx :
    ∀ (syms : List sym.Symbol) (n : Nat), (∃ s ∈ syms, isFuncEnd s = true) →
      skipFuncDuplicate syms n = some (n + syms.findIdx isFuncEnd + 1) := by
  intro syms
  induction syms with
  | nil => intro n h; obtain ⟨s, hs, _⟩ := h; cases hs
  | cons s syms ih =>
    intro n h
    rw [List.findIdx_cons]
    cases hb : s.Body with
    | FuncEnd line => simp [skipFuncDuplicate, isFuncEnd, hb]
    | _ =>
      have hne : isFuncEnd s = false := by simp [isFuncEnd, hb]
      have hex : ∃ s2 ∈ syms, isFuncEnd s2 = true := by
        obtain ⟨s2, hs2, hfe⟩ := h
        rcases List.mem_cons.1 hs2 with heq | hmem
        · rw [heq, hne] at hfe; cases hfe
        · exact ⟨s2, hmem, hfe⟩
      simp only [skipFuncDuplicate, hb, hne, cond_false]
      rw [ih (n + 1) hex]
      congr 1
      omega

/-- C7: when the resolved FuncDecl already has a non-zero start line and the
remaining records contain a function-end record, parseFunc returns the index of
the first function-end record plus one and the parser state it was given. -/
theorem C7_parseFunc_duplicate (p : parser) (o : Overlay) (addr : Nat)
    (body : sym.FuncStart) (syms : List sym.Symbol) (i : Nat) (f : c.FuncDecl)
    (ft : c.FuncType)
    (hcur : p.cur = some o)
    (hres : resolveFunc o addr body.Name = .ok i)
    (hf : o.funcs[i]? = some f)
    (hty : f.Var.Typ.asFuncType = some ft)
    (hline : f.LineStart ≠ 0)
    (hend : ∃ s ∈ syms, isFuncEnd s = true) :
    parseFunc p addr body syms = .ok (syms.findIdx isFuncEnd + 1, p) := by
  unfold parseFunc
  simp only [hcur, hres, hf, hty, hline, ne_eq, not_false_eq_true, if_true]
  rw [skipFuncDuplicate_eq_findIdx syms 0 hend]
  simp

/-- C7 (witness): a function f at 0x100 whose start line is already 5; the
records that follow the repeated function-start are a block-start and two
function-end records. -/
theorem C7_parseFunc_duplicate_witness :
    parseFunc
        { newParser with Overlay := { emptyOverlay 0 0 0 with
            funcs := [⟨0x100, 0, .mk (.Function .Int [] false) "f", 5, 9, []⟩],
            funcNames := [("f", 0)] } }
        0x100 ⟨7, "f"⟩ [⟨0, .BlockStart 1⟩, ⟨0, .FuncEnd 9⟩, ⟨0, .FuncEnd 10⟩]
      = .ok (2,
        { newParser with Overlay := { emptyOverlay 0 0 0 with
            funcs := [⟨0x100, 0, .mk (.Function .Int [] false) "f", 5, 9, []⟩],
            funcNames := [("f", 0)] } }) :=
  C7_parseFunc_duplicate _
    { emptyOverlay 0 0 0 with
      funcs := [⟨0x100, 0, .mk (.Function .Int [] false) "f", 5, 9, []⟩],
      funcNames := [("f", 0)] }
    0x100 ⟨7, "f"⟩ [⟨0, .BlockStart 1⟩, ⟨0, .FuncEnd 9⟩, ⟨0, .FuncEnd 10⟩] 0
    ⟨0x100, 0, .mk (.Function .Int [] false) "f", 5, 9, []⟩ ⟨.Int, [], false⟩
    rfl rfl rfl rfl (by decide) ⟨⟨0, .FuncEnd 9⟩, by simp, rfl⟩

/-- C8 (failing input): after a variable foo at 0x10 and a function foo at 0x20
have been registered, the function table holds the function under
uniqueName(validName(foo), 0x20) only, and target resolution for the
function-start record of foo at 0x20 fails with the unknown-function error. -/
theorem C8_resolution_fails_on_unique_entry :
    ∃ p o, parseDecls newParser
        [ ⟨0x10, .Def ⟨.EXT, ⟨.Int, []⟩, 4, "foo"⟩⟩,
          ⟨0x20, .Def ⟨.EXT, ⟨.Int, [.Function]⟩, 0, "foo"⟩⟩ ] = .ok p
      ∧ p.cur = some o
      ∧ o.funcNames.lookup (uniqueName (validName "foo") 0x20) = some 0
      ∧ resolveFunc o 0x20 "foo" = .error (.unknownFunction "foo")
      ∧ parseFunc p 0x20 ⟨1, "foo"⟩ [⟨0, .FuncEnd 2⟩] = .error (.unknownFunction "foo") :=
  ⟨_, _, rfl, rfl, rfl, rfl, rfl⟩

/-- C9 (failing input): in the body block-start, block-end, local x,
function-end, the local that follows the block-end of the outermost block is
appended to that block and the parameter list stays empty. -/
theorem C9_local_after_outermost_block_end :
    ∃ p, parseDecls newParser
        [ ⟨0x100, .Def ⟨.EXT, ⟨.Int, [.Function]⟩, 0, "f"⟩⟩,
          ⟨0x100, .FuncStart ⟨1, "f"⟩⟩,
          ⟨0, .BlockStart 2⟩,
          ⟨0, .BlockEnd 3⟩,
          ⟨0, .Def ⟨.AUTO, ⟨.Int, []⟩, 4, "x"⟩⟩,
          ⟨0, .FuncEnd 4⟩ ] = .ok p
      ∧ p.Overlay.funcs =
          [⟨0x100, 0, .mk (.Function .Int [] false) "f", 1, 4, [⟨2, 3, [.mk .Int "x"]⟩]⟩] :=
  ⟨_, rfl, rfl⟩

theorem parseType_scalar (p : parser) (t : sym.SymType) (dims : List Nat) (tag : String)
    (ct : c.CType) (hmods : t.Mods = []) (hsc : scalarOf t.Base = some ct) :
    parseType p t dims tag = .ok ct := by
  unfold parseType parseMods
  rw [hmods]
  cases hb : t.Base <;> rw [hb] at hsc <;> simp [scalarOf] at hsc <;>
    simp [parseBase, parseModsLoop, hsc]

theorem toType_of_asFuncType (t : c.CType) (ft : c.FuncType)
    (h : t.asFuncType = some ft) : ft.toType = t := by
  cases t <;> simp [c.CType.asFuncType] at h
  subst h
  rfl

theorem var_mk_eta (v : c.Var) : c.Var.mk v.Typ v.Name = v := by
  cases v
  rfl

/-- C10 (counterexample): a function f at 0x100 whose body was parsed once
behind a function-start record of line 0 still has start line 0; parsing the
body [BlockStart, Def(AUTO, x, int), BlockEnd, FuncEnd(42)] for it returns 4 and
leaves the FuncDecl with two Blocks, not exactly one. -/
theorem C10_counterexample :
    ∃ p o f, parseDecls newParser
        [ ⟨0x100, .Def ⟨.EXT, ⟨.Int, [.Function]⟩, 0, "f"⟩⟩,
          ⟨0x100, .FuncStart ⟨0, "f"⟩⟩,
          ⟨0, .BlockStart 1⟩,
          ⟨0, .Def ⟨.AUTO, ⟨.Int, []⟩, 4, "x"⟩⟩,
          ⟨0, .BlockEnd 2⟩,
          ⟨0, .FuncEnd 3⟩ ] = .ok p
      ∧ p.cur = some o
      ∧ resolveFunc o 0x100 "f" = .ok 0
      ∧ o.funcs[0]? = some f
      ∧ f.Addr = 0x100 ∧ f.LineStart = 0
      ∧ ∃ p2 o2 f2, parseFunc p 0x100 ⟨5, "f"⟩
            [ ⟨0, .BlockStart 1⟩,
              ⟨0, .Def ⟨.AUTO, ⟨.Int, []⟩, 4, "x"⟩⟩,
              ⟨0, .BlockEnd 2⟩,
              ⟨0, .FuncEnd 42⟩ ] = .ok (4, p2)
          ∧ p2.cur = some o2
          ∧ o2.funcs[0]? = some f2
          ∧ f2.Blocks.length = 2 :=
  ⟨_, _, _, rfl, rfl, rfl, rfl, rfl, rfl, _, _, _, rfl, rfl, rfl, rfl⟩

/-- C10 (amended): for a function-start record that resolves to a FuncDecl with
start line 0, the body [BlockStart(l1), Def(local class, x, scalar type),
BlockEnd(l2), FuncEnd(e)] makes parseFunc return 4; afterwards the FuncDecl has
start line s, end line e, and its block list is the one it had before followed
by exactly one new Block with start line l1, end line l2 and the single local
x; its address, size, name and type (so its parameter list) are unchanged. -/
theorem C10_parseFunc_single_block (p : parser) (o : Overlay) (addr s l1 l2 e : Nat)
    (name x : String) (cls : sym.Class) (t : sym.SymType) (size v1 v2 v3 v4 : Nat)
    (ct : c.CType) (i : Nat) (f : c.FuncDecl) (ft : c.FuncType)
    (hcur : p.cur = some o)
    (hres : resolveFunc o addr name = .ok i)
    (hf : o.funcs[i]? = some f)
    (hty : f.Var.Typ.asFuncType = some ft)
    (hline : f.LineStart = 0)
    (hcls : isLocalClass cls = true)
    (hmods : t.Mods = [])
    (hsc : scalarOf t.Base = some ct) :
    ∃ p2 o2, parseFunc p addr ⟨s, name⟩
          [ ⟨v1, .BlockStart l1⟩, ⟨v2, .Def ⟨cls, t, size, x⟩⟩,
            ⟨v3, .BlockEnd l2⟩, ⟨v4, .FuncEnd e⟩ ] = .ok (4, p2)
      ∧ p2.cur = some o2
      ∧ o2.funcs[i]? = some { f with
          LineStart := s, LineEnd := e,
          Blocks := f.Blocks ++ [⟨l1, l2, [.mk ct x]⟩] } := by
  have hi : i < o.funcs.length := by
    by_contra hcon
    rw [List.getElem?_eq_none (Nat.le_of_not_lt hcon)] at hf
    cases hf
  have hpt := parseType_scalar p t [] "" ct hmods hsc
  have hft := toType_of_asFuncType _ _ hty
  have hrun : parseFunc p addr ⟨s, name⟩
      [ ⟨v1, .BlockStart l1⟩, ⟨v2, .Def ⟨cls, t, size, x⟩⟩,
        ⟨v3, .BlockEnd l2⟩, ⟨v4, .FuncEnd e⟩ ]
      = .ok (4, p.setCur { o with funcs := o.funcs.set i { f with
          LineStart := s, LineEnd := e,
          Blocks := f.Blocks ++ [⟨l1, l2, [.mk ct x]⟩] } }) := by
    unfold parseFunc
    simp only [hcur, hres, hf, hty, hline, ne_eq, not_true_eq_false, if_false]
    simp [parseFuncBody, hcls, hpt, funcState.addVar, addLocal, blockStack.empty,
      hft, var_mk_eta]
  refine ⟨_, _, hrun, cur_setCur p o _ hcur, ?_⟩
  simp [hi]

/-- C10 (witness): scenario B, the function f at 0x100 as parseDef registers it,
with the body [BlockStart(1), Def(AUTO, x, int), BlockEnd(2), FuncEnd(42)]. -/
theorem C10_parseFunc_single_block_witness :
    ∃ p2 o2, parseFunc
          { newParser with Overlay := { emptyOverlay 0 0 0 with
              funcs := [⟨0x100, 0, .mk (.Function .Int [] false) "f", 0, 0, []⟩],
              funcNames := [("f", 0)] } }
          0x100 ⟨7, "f"⟩
          [ ⟨0, .BlockStart 1⟩, ⟨0, .Def ⟨.AUTO, ⟨.Int, []⟩, 4, "x"⟩⟩,
            ⟨0, .BlockEnd 2⟩, ⟨0, .FuncEnd 42⟩ ] = .ok (4, p2)
      ∧ p2.cur = some o2
      ∧ o2.funcs[0]? = some
          ⟨0x100, 0, .mk (.Function .Int [] false) "f", 7, 42, [⟨1, 2, [.mk .Int "x"]⟩]⟩ :=
  C10_parseFunc_single_block _
    { emptyOverlay 0 0 0 with
      funcs := [⟨0x100, 0, .mk (.Function .Int [] false) "f", 0, 0, []⟩],
      funcNames := [("f", 0)] }
    0x100 7 1 2 42 "f" "x" .AUTO ⟨.Int, []⟩ 4 0 0 0 0 .Int 0
    ⟨0x100, 0, .mk (.Function .Int [] false) "f", 0, 0, []⟩ ⟨.Int, [], false⟩
    rfl rfl rfl rfl rfl rfl rfl rfl

/-! ## Aggregate member parsers (C5, C6) -/

/-- C6 (failing input): two union-tag records U, the first with the member a
and the second with the member b. When parseClassUNTAG starts on the second
record the union keyed U already has the field a; the parser appends b to that
same union, and the union keyed _duplicate_U stays without fields. -/
theorem C6_union_duplicate_appends_to_existing :
    ∃ p, parseTypes newParser
        [ ⟨0, .Def ⟨.UNTAG, ⟨.Union, []⟩, 4, "U"⟩⟩,
          ⟨0, .Def ⟨.MOU, ⟨.Int, []⟩, 4, "a"⟩⟩,
          ⟨0, .Def2 ⟨.EOS, ⟨.Null, []⟩, 4, [], "", ".eos"⟩⟩,
          ⟨0, .Def ⟨.UNTAG, ⟨.Union, []⟩, 4, "U"⟩⟩,
          ⟨0, .Def ⟨.MOU, ⟨.Int, []⟩, 4, "b"⟩⟩,
          ⟨0, .Def2 ⟨.EOS, ⟨.Null, []⟩, 4, [], "", ".eos"⟩⟩ ] = .ok p
      ∧ (p.unionFields "U").map (fun fs => fs.map fun fd => fd.Var.Name) = some ["a", "b"]
      ∧ (p.unionFields "_duplicate_U").map (fun fs => fs.map fun fd => fd.Var.Name)
          = some [] :=
  ⟨_, rfl, rfl, rfl⟩

/-- The struct parser on the same shape of input (the sibling path of C6): the
second member list goes to the struct keyed _duplicate_S. -/
theorem struct_duplicate_uses_shadow :
    ∃ p, parseTypes newParser
        [ ⟨0, .Def ⟨.STRTAG, ⟨.Struct, []⟩, 4, "S"⟩⟩,
          ⟨0, .Def ⟨.MOS, ⟨.Int, []⟩, 4, "a"⟩⟩,
          ⟨0, .Def2 ⟨.EOS, ⟨.Null, []⟩, 4, [], "", ".eos"⟩⟩,
          ⟨0, .Def ⟨.STRTAG, ⟨.Struct, []⟩, 4, "S"⟩⟩,
          ⟨0, .Def ⟨.MOS, ⟨.Int, []⟩, 4, "b"⟩⟩,
          ⟨0, .Def2 ⟨.EOS, ⟨.Null, []⟩, 4, [], "", ".eos"⟩⟩ ] = .ok p
      ∧ (p.structFields "S").map (fun fs => fs.map fun fd => fd.Var.Name) = some ["a"]
      ∧ (p.structFields "_duplicate_S").map (fun fs => fs.map fun fd => fd.Var.Name)
          = some ["b"] :=
  ⟨_, rfl, rfl, rfl⟩

/-- C5 (counterexample): three streams with exactly two struct-tag records of
one sanitized tag. First, two records S, the first with an empty member list
and the second with the member b: the struct keyed S holds b, which is not in
the first member range, and the struct keyed _duplicate_S holds no field.
Second, two records X with the members a and b before two records _duplicate_X
with the members c and d: the struct keyed _duplicate_X holds b, not c. Third,
two records S, with the member a and with no member, before a record
_duplicate_S with the member z: the struct keyed _duplicate_S holds z, which is
not in the second member range. -/
theorem C5_counterexample :
    (∃ p, parseTypes newParser
        [ ⟨0, .Def ⟨.STRTAG, ⟨.Struct, []⟩, 0, "S"⟩⟩,
          ⟨0, .Def2 ⟨.EOS, ⟨.Null, []⟩, 0, [], "", ".eos"⟩⟩,
          ⟨0, .Def ⟨.STRTAG, ⟨.Struct, []⟩, 4, "S"⟩⟩,
          ⟨0, .Def ⟨.MOS, ⟨.Int, []⟩, 4, "b"⟩⟩,
          ⟨0, .Def2 ⟨.EOS, ⟨.Null, []⟩, 4, [], "", ".eos"⟩⟩ ] = .ok p
      ∧ (p.structFields "S").map (fun fs => fs.map fun fd => fd.Var.Name) = some ["b"]
      ∧ (p.structFields "_duplicate_S").map (fun fs => fs.map fun fd => fd.Var.Name)
          = some [])
    ∧ (∃ p, parseTypes newParser
        [ ⟨0, .Def ⟨.STRTAG, ⟨.Struct, []⟩, 4, "X"⟩⟩,
          ⟨0, .Def ⟨.MOS, ⟨.Int, []⟩, 4, "a"⟩⟩,
          ⟨0, .Def2 ⟨.EOS, ⟨.Null, []⟩, 4, [], "", ".eos"⟩⟩,
          ⟨0, .Def ⟨.STRTAG, ⟨.Struct, []⟩, 4, "X"⟩⟩,
          ⟨0, .Def ⟨.MOS, ⟨.Int, []⟩, 4, "b"⟩⟩,
          ⟨0, .Def2 ⟨.EOS, ⟨.Null, []⟩, 4, [], "", ".eos"⟩⟩,
          ⟨0, .Def ⟨.STRTAG, ⟨.Struct, []⟩, 4, "_duplicate_X"⟩⟩,
          ⟨0, .Def ⟨.MOS, ⟨.Int, []⟩, 4, "c"⟩⟩,
          ⟨0, .Def2 ⟨.EOS, ⟨.Null, []⟩, 4, [], "", ".eos"⟩⟩,
          ⟨0, .Def ⟨.STRTAG, ⟨.Struct, []⟩, 4, "_duplicate_X"⟩⟩,
          ⟨0, .Def ⟨.MOS, ⟨.Int, []⟩, 4, "d"⟩⟩,
          ⟨0, .Def2 ⟨.EOS, ⟨.Null, []⟩, 4, [], "", ".eos"⟩⟩ ] = .ok p
      ∧ (p.structFields "_duplicate_X").map (fun fs => fs.map fun fd => fd.Var.Name)
          = some ["b"])
    ∧ (∃ p, parseTypes newParser
        [ ⟨0, .Def ⟨.STRTAG, ⟨.Struct, []⟩, 4, "S"⟩⟩,
          ⟨0, .Def ⟨.MOS, ⟨.Int, []⟩, 4, "a"⟩⟩,
          ⟨0, .Def2 ⟨.EOS, ⟨.Null, []⟩, 4, [], "", ".eos"⟩⟩,
          ⟨0, .Def ⟨.STRTAG, ⟨.Struct, []⟩, 0, "S"⟩⟩,
          ⟨0, .Def2 ⟨.EOS, ⟨.Null, []⟩, 0, [], "", ".eos"⟩⟩,
          ⟨0, .Def ⟨.STRTAG, ⟨.Struct, []⟩, 4, "_duplicate_S"⟩⟩,
          ⟨0, .Def ⟨.MOS, ⟨.Int, []⟩, 4, "z"⟩⟩,
          ⟨0, .Def2 ⟨.EOS, ⟨.Null, []⟩, 4, [], "", ".eos"⟩⟩ ] = .ok p
      ∧ (p.structFields "S").map (fun fs => fs.map fun fd => fd.Var.Name) = some ["a"]
      ∧ (p.structFields "_duplicate_S").map (fun fs => fs.map fun fd => fd.Var.Name)
          = some ["z"]) :=
  ⟨⟨_, rfl, rfl, rfl⟩, ⟨_, rfl, rfl⟩, ⟨_, rfl, rfl, rfl⟩⟩

theorem parseBase_congr (p q : parser) (hs : q.structs = p.structs)
    (hu : q.unions = p.unions) (he : q.enums = p.enums) (ht : q.types = p.types)
    (base : sym.Base) (tag : String) : parseBase q base tag = parseBase p base tag := by
  unfold parseBase
  rw [hs, hu, he, ht]

theorem parseType_congr (p q : parser) (hs : q.structs = p.structs)
    (hu : q.unions = p.unions) (he : q.enums = p.enums) (ht : q.types = p.types)
    (t : sym.SymType) (dims : List Nat) (tag : String) :
    parseType q t dims tag = parseType p t dims tag := by
  unfold parseType
  rw [parseBase_congr p q hs hu he ht]

theorem memberField_congr (p q : parser) (hs : q.structs = p.structs)
    (hu : q.unions = p.unions) (he : q.enums = p.enums) (ht : q.types = p.types)
    (s : sym.Symbol) : memberField q s = memberField p s := by
  unfold memberField
  cases s.Body <;> simp only [parseType_congr p q hs hu he ht]

theorem memberFields_congr (p q : parser) (hs : q.structs = p.structs)
    (hu : q.unions = p.unions) (he : q.enums = p.enums) (ht : q.types = p.types)
    (ms : List sym.Symbol) : memberFields q ms = memberFields p ms := by
  induction ms with
  | nil => rfl
  | cons s ms ih => simp only [memberFields, ih, memberField_congr p q hs hu he ht]

theorem memberFields_length (p : parser) :
    ∀ (ms : List sym.Symbol) (fs : List c.Field),
      memberFields p ms = .ok fs → fs.length = ms.length := by
  intro ms
  induction ms with
  | nil => intro fs h; simp [memberFields] at h; subst h; rfl
  | cons s ms ih =>
    intro fs h
    simp only [memberFields] at h
    cases h1 : memberField p s with
    | error e => rw [h1] at h; cases h
    | ok fd =>
      rw [h1] at h
      cases h2 : memberFields p ms with
      | error e => rw [h2] at h; cases h
      | ok fs2 =>
        rw [h2] at h
        simp only [Except.ok.injEq] at h
        subst h
        simp [ih fs2 h2]

theorem getElem?_of_lt_heap {α : Type} (l : List α) (t : Nat) (h : t < l.length) :
    ∃ a, l[t]? = some a :=
  ⟨l[t], List.getElem?_eq_getElem h⟩

theorem appendStructFields_nil (p : parser) (t : Nat) : p.appendStructFields t [] = p := by
  unfold parser.appendStructFields
  cases h : p.structHeap[t]? with
  | none => rfl
  | some st =>
    have hlt : t < p.structHeap.length := by
      by_contra hcon
      rw [List.getElem?_eq_none (Nat.le_of_not_lt hcon)] at h
      cases h
    have hst : p.structHeap[t] = st := by
      rw [List.getElem?_eq_getElem hlt] at h
      exact Option.some.inj h
    have hset : p.structHeap.set t { st with Fields := st.Fields ++ [] } = p.structHeap := by
      have hfs : ({ st with Fields := st.Fields ++ [] } : c.StructType) = st := by simp
      rw [hfs]
      apply List.ext_getElem?
      intro i
      by_cases hi : t = i
      · subst hi
        rw [List.getElem?_set_self hlt, h]
      · rw [List.getElem?_set_ne hi]
    simp only [hset]

theorem addStructField_eq (p : parser) (t : Nat) (fd : c.Field) (h : t < p.structHeap.length) :
    p.addStructField t fd = .ok (p.appendStructFields t [fd]) := by
  obtain ⟨st, hst⟩ := getElem?_of_lt_heap _ _ h
  simp [parser.addStructField, parser.appendStructFields, hst]

theorem appendStructFields_append (p : parser) (t : Nat) (fs1 fs2 : List c.Field) :
    (p.appendStructFields t fs1).appendStructFields t fs2
      = p.appendStructFields t (fs1 ++ fs2) := by
  unfold parser.appendStructFields
  cases h : p.structHeap[t]? with
  | none => simp [h]
  | some st =>
    have hlt : t < p.structHeap.length := by
      by_contra hcon
      rw [List.getElem?_eq_none (Nat.le_of_not_lt hcon)] at h
      cases h
    simp [hlt, List.append_assoc]

theorem appendStructFields_tables (p : parser) (t : Nat) (fs : List c.Field) :
    (p.appendStructFields t fs).structs = p.structs
    ∧ (p.appendStructFields t fs).unions = p.unions
    ∧ (p.appendStructFields t fs).enums = p.enums
    ∧ (p.appendStructFields t fs).types = p.types
    ∧ (p.appendStructFields t fs).structHeap.length = p.structHeap.length := by
  unfold parser.appendStructFields
  cases h : p.structHeap[t]? <;> simp

/-- The member loop of the struct parser on a member range closed by the
sentinel: it consumes the range and the sentinel and appends the fields of the
range to the struct object. -/
theorem parseStructMembers_range (t : Nat) (eos : sym.Symbol) (rest : List sym.Symbol)
    (heos : isEndOfAggregate eos = true) :
    ∀ (mem : List sym.Symbol) (n : Nat) (p : parser),
      (∀ s ∈ mem, isStructMember s = true) → t < p.structHeap.length →
      parseStructMembers t (mem ++ eos :: rest) n p
        = match memberFields p mem with
          | .error e => .error e
          | .ok fs => .ok (n + mem.length + 1, p.appendStructFields t fs) := by
  intro mem
  induction mem with
  | nil =>
    intro n p _ _
    simp only [List.nil_append, memberFields, List.length_nil, Nat.add_zero,
      appendStructFields_nil]
    unfold parseStructMembers
    unfold isEndOfAggregate at heos
    split at heos
    · rename_i body hb
      split at heos
      · rename_i hc
        simp [hb, hc]
      · cases heos
    · cases heos
  | cons s mem ih =>
    intro n p hmem ht
    have hs : isStructMember s = true := hmem s (List.mem_cons_self _ _)
    have hmem2 : ∀ s2 ∈ mem, isStructMember s2 = true :=
      fun s2 h2 => hmem s2 (List.mem_cons_of_mem _ h2)
    have step : ∀ (fd : c.Field),
        (match p.addStructField t fd with
          | .error e => (.error e : Except Panic (Nat × parser))
          | .ok p1 => parseStructMembers t (mem ++ eos :: rest) (n + 1) p1)
        = match (match memberFields p mem with
                  | .error e => (.error e : Except Panic (List c.Field))
                  | .ok fs => .ok (fd :: fs)) with
          | .error e => .error e
          | .ok fs => .ok (n + (s :: mem).length + 1, p.appendStructFields t fs) := by
      intro fd
      rw [addStructField_eq p t fd ht]
      obtain ⟨h1, h2, h3, h4, h5⟩ := appendStructFields_tables p t [fd]
      simp only []
      rw [ih (n + 1) _ hmem2 (by rw [h5]; exact ht), memberFields_congr p _ h1 h2 h3 h4]
      cases memberFields p mem with
      | error e => rfl
      | ok fs =>
        simp only [appendStructFields_append, List.length_cons, List.singleton_append]
        congr 2
        omega
    rw [List.cons_append]
    unfold parseStructMembers
    simp only [memberFields, memberField]
    cases hb : s.Body with
    | Def body =>
      cases hc : body.Class <;> simp [isStructMember, hb, hc] at hs
      all_goals
        simp only [hc]
        cases hpt : parseType p body.Typ [] "" with
        | error e => rfl
        | ok ty => simp only []; exact step _
    | Def2 body =>
      cases hc : body.Class <;> simp [isStructMember, hb, hc] at hs
      simp only [hc]
      cases hpt : parseType p body.Typ body.Dims body.Tag with
      | error e => rfl
      | ok ty => simp only []; exact step _
    | _ => simp [isStructMember, hb] at hs

theorem sameStructs_refl (p : parser) : sameStructs p p :=
  ⟨rfl, rfl, rfl, rfl⟩

theorem sameStructs_trans {r q p : parser} (h1 : sameStructs r q) (h2 : sameStructs q p) :
    sameStructs r p :=
  ⟨h1.1.trans h2.1, h1.2.1.trans h2.2.1, h1.2.2.1.trans h2.2.2.1, h1.2.2.2.trans h2.2.2.2⟩

theorem addUnionField_same (p p1 : parser) (t : Nat) (fd : c.Field)
    (h : p.addUnionField t fd = .ok p1) : sameStructs p1 p := by
  unfold parser.addUnionField at h
  split at h
  · cases h
  · cases h
    exact ⟨rfl, rfl, rfl, rfl⟩

theorem addEnumMember_same (p p1 : parser) (t : Nat) (m : c.EnumMember)
    (h : p.addEnumMember t m = .ok p1) : sameStructs p1 p := by
  unfold parser.addEnumMember at h
  split at h
  · cases h
  · cases h
    exact ⟨rfl, rfl, rfl, rfl⟩

theorem parseClassTPDEF_same (p p1 : parser) (t : sym.SymType) (dims : List Nat)
    (tag name : String) (h : parseClassTPDEF p t dims tag name = .ok p1) :
    sameStructs p1 p := by
  unfold parseClassTPDEF at h
  split at h
  · cases h
  · cases h
    exact ⟨rfl, rfl, rfl, rfl⟩

theorem not_ok_of_structTag_union (t : Nat) (y : sym.Symbol) (rest : List sym.Symbol)
    (n : Nat) (p : parser) (hy : isStructTag y = true) :
    parseUnionMembers t (y :: rest) n p = .error .unsupportedClass := by
  unfold parseUnionMembers
  cases hb : y.Body with
  | Def body =>
    cases hc : body.Class <;> simp [isStructTag, hb, hc] at hy
    simp [hc]
  | _ => simp [isStructTag, hb] at hy

theorem not_ok_of_structTag_enum (t : Nat) (y : sym.Symbol) (rest : List sym.Symbol)
    (n : Nat) (p : parser) (hy : isStructTag y = true) :
    parseEnumMembers t (y :: rest) n p = .error .unsupportedClass := by
  unfold parseEnumMembers
  cases hb : y.Body with
  | Def body =>
    cases hc : body.Class <;> simp [isStructTag, hb, hc] at hy
    simp [hc]
  | _ => simp [isStructTag, hb] at hy

/-- A union member loop that returns has stopped before the next struct-tag
record and has left the struct objects and the tag tables alone. -/
theorem parseUnionMembers_stops (t : Nat) :
    ∀ (xs ys : List sym.Symbol) (n : Nat) (p : parser) (m : Nat) (p2 : parser),
      stopsAtStructTag ys → parseUnionMembers t (xs ++ ys) n p = .ok (m, p2) →
      m ≤ n + xs.length ∧ sameStructs p2 p := by
  intro xs
  induction xs with
  | nil =>
    intro ys n p m p2 hstop h
    cases ys with
    | nil => simp [parseUnionMembers] at h
    | cons y rest =>
      rw [List.nil_append, not_ok_of_structTag_union t y rest n p (hstop y rfl)] at h
      cases h
  | cons x xs ih =>
    intro ys n p m p2 hstop h
    rw [List.cons_append] at h
    unfold parseUnionMembers at h
    have cont : ∀ (p1 : parser), sameStructs p1 p →
        parseUnionMembers t (xs ++ ys) (n + 1) p1 = .ok (m, p2) →
        m ≤ n + (x :: xs).length ∧ sameStructs p2 p := by
      intro p1 hs1 h1
      obtain ⟨hm, hs⟩ := ih ys (n + 1) p1 m p2 hstop h1
      exact ⟨by simp only [List.length_cons]; omega, sameStructs_trans hs hs1⟩
    split at h
    · split at h
      · split at h
        · cases h
        · split at h
          · cases h
          · rename_i p1 hadd
            exact cont p1 (addUnionField_same _ _ _ _ hadd) h
      · cases h
    · split at h
      · split at h
        · cases h
        · split at h
          · cases h
          · rename_i p1 hadd
            exact cont p1 (addUnionField_same _ _ _ _ hadd) h
      · cases h
        exact ⟨by simp only [List.length_cons]; omega, sameStructs_refl _⟩
      · cases h
    · exact cont p (sameStructs_refl p) h

/-- An enum member loop that returns has stopped before the next struct-tag
record and has left the struct objects and the tag tables alone. -/
theorem parseEnumMembers_stops (t : Nat) :
    ∀ (xs ys : List sym.Symbol) (n : Nat) (p : parser) (m : Nat) (p2 : parser),
      stopsAtStructTag ys → parseEnumMembers t (xs ++ ys) n p = .ok (m, p2) →
      m ≤ n + xs.length ∧ sameStructs p2 p := by
  intro xs
  induction xs with
  | nil =>
    intro ys n p m p2 hstop h
    cases ys with
    | nil => simp [parseEnumMembers] at h
    | cons y rest =>
      rw [List.nil_append, not_ok_of_structTag_enum t y rest n p (hstop y rfl)] at h
      cases h
  | cons x xs ih =>
    intro ys n p m p2 hstop h
    rw [List.cons_append] at h
    unfold parseEnumMembers at h
    have cont : ∀ (p1 : parser), sameStructs p1 p →
        parseEnumMembers t (xs ++ ys) (n + 1) p1 = .ok (m, p2) →
        m ≤ n + (x :: xs).length ∧ sameStructs p2 p := by
      intro p1 hs1 h1
      obtain ⟨hm, hs⟩ := ih ys (n + 1) p1 m p2 hstop h1
      exact ⟨by simp only [List.length_cons]; omega, sameStructs_trans hs hs1⟩
    split at h
    · split at h
      · simp only [] at h
        split at h
        · cases h
        · rename_i p1 hadd
          exact cont p1 (sameStructs_trans (addEnumMember_same _ _ _ _ hadd)
            ⟨rfl, rfl, rfl, rfl⟩) h
      · cases h
    · split at h
      · cases h
        exact ⟨by simp only [List.length_cons]; omega, sameStructs_refl _⟩
      · cases h
    · exact cont p (sameStructs_refl p) h

theorem parseTypesLoop_skip :
    ∀ (xs rest : List sym.Symbol) (p : parser),
      parseTypesLoop (xs ++ rest) xs.length p = parseTypesLoop rest 0 p := by
  intro xs
  induction xs with
  | nil => intro rest p; rfl
  | cons x xs ih =>
    intro rest p
    simp only [List.cons_append, List.length_cons, parseTypesLoop]
    exact ih rest p

theorem parseClassUNTAG_stops (p : parser) (body : sym.Def) (xs ys : List sym.Symbol)
    (n : Nat) (p1 : parser) (hstop : stopsAtStructTag ys)
    (h : parseClassUNTAG p body (xs ++ ys) = .ok (n, p1)) :
    n ≤ xs.length ∧ sameStructs p1 p := by
  unfold parseClassUNTAG at h
  split at h
  · cases h
  · simp only [] at h
    split at h
    · cases h
    · have := parseUnionMembers_stops _ xs ys 0 p n p1 hstop h
      simpa using this

theorem parseClassENTAG_stops (p : parser) (body : sym.Def) (xs ys : List sym.Symbol)
    (n : Nat) (p1 : parser) (hstop : stopsAtStructTag ys)
    (h : parseClassENTAG p body (xs ++ ys) = .ok (n, p1)) :
    n ≤ xs.length ∧ sameStructs p1 p := by
  unfold parseClassENTAG at h
  split at h
  · cases h
  · simp only [] at h
    split at h
    · cases h
    · have := parseEnumMembers_stops _ xs ys 0 p n p1 hstop h
      simpa using this

/-- The type pass over records none of which is a struct-tag record, up to the
end of the stream or to the next struct-tag record: it arrives there with no
record left to skip, and with the struct objects and the tag tables as they
were. -/
theorem parseTypesLoop_noStructTag :
    ∀ (xs : List sym.Symbol), (∀ x ∈ xs, isStructTag x = false) →
    ∀ (ys : List sym.Symbol) (skip : Nat) (p pf : parser),
      stopsAtStructTag ys → skip ≤ xs.length →
      parseTypesLoop (xs ++ ys) skip p = .ok pf →
      ∃ q, sameStructs q p ∧ parseTypesLoop ys 0 q = .ok pf := by
  intro xs
  induction xs with
  | nil =>
    intro _ ys skip p pf _ hskip h
    have h0 : skip = 0 := by simpa using hskip
    subst h0
    exact ⟨p, sameStructs_refl p, h⟩
  | cons x xs ih =>
    intro hxs ys skip p pf hstop hskip h
    have hx : isStructTag x = false := hxs x (List.mem_cons_self _ _)
    have hxs2 : ∀ x2 ∈ xs, isStructTag x2 = false :=
      fun x2 h2 => hxs x2 (List.mem_cons_of_mem _ h2)
    have cont : ∀ (k : Nat) (p1 : parser), k ≤ xs.length → sameStructs p1 p →
        parseTypesLoop (xs ++ ys) k p1 = .ok pf →
        ∃ q, sameStructs q p ∧ parseTypesLoop ys 0 q = .ok pf := by
      intro k p1 hk hs1 h1
      obtain ⟨q, hq, hrun⟩ := ih hxs2 ys k p1 pf hstop hk h1
      exact ⟨q, sameStructs_trans hq hs1, hrun⟩
    rw [List.cons_append] at h
    cases skip with
    | succ k =>
      simp only [parseTypesLoop] at h
      exact cont k p (by simpa using hskip) (sameStructs_refl p) h
    | zero =>
      unfold parseTypesLoop at h
      split at h
      · rename_i body hb
        split at h
        · rename_i hc
          simp [isStructTag, hb, hc] at hx
        · split at h
          · cases h
          · rename_i n p1 hsub
            obtain ⟨hn, hs1⟩ := parseClassUNTAG_stops p body xs ys n p1 hstop hsub
            exact cont n p1 hn hs1 h
        · split at h
          · cases h
          · rename_i p1 hsub
            exact cont 0 p1 (Nat.zero_le _) (parseClassTPDEF_same _ _ _ _ _ _ hsub) h
        · split at h
          · cases h
          · rename_i n p1 hsub
            obtain ⟨hn, hs1⟩ := parseClassENTAG_stops p body xs ys n p1 hstop hsub
            exact cont n p1 hn hs1 h
        · exact cont 0 p (Nat.zero_le _) (sameStructs_refl p) h
      · split at h
        · split at h
          · cases h
          · rename_i p1 hsub
            exact cont 0 p1 (Nat.zero_le _) (parseClassTPDEF_same _ _ _ _ _ _ hsub) h
        · exact cont 0 p (Nat.zero_le _) (sameStructs_refl p) h
      · exact cont 0 p (Nat.zero_le _) (sameStructs_refl p) h

/-- The tag prescan over records none of which is a struct-tag record leaves the
struct objects, the struct table and the struct map of the scan alone. -/
theorem initTaggedTypesLoop_noStructTag :
    ∀ (xs : List sym.Symbol), (∀ x ∈ xs, isStructTag x = false) →
    ∀ (ys : List sym.Symbol) (u : uniqueTags) (p : parser),
      ∃ u2 p2, initTaggedTypesLoop (xs ++ ys) u p = initTaggedTypesLoop ys u2 p2
        ∧ u2.uniqueStruct = u.uniqueStruct ∧ p2.structs = p.structs
        ∧ p2.structHeap = p.structHeap := by
  intro xs
  induction xs with
  | nil => intro _ ys u p; exact ⟨u, p, rfl, rfl, rfl, rfl⟩
  | cons x xs ih =>
    intro hxs ys u p
    have hx : isStructTag x = false := hxs x (List.mem_cons_self _ _)
    have hxs2 : ∀ x2 ∈ xs, isStructTag x2 = false :=
      fun x2 h2 => hxs x2 (List.mem_cons_of_mem _ h2)
    have cont : ∀ (u1 : uniqueTags) (p1 : parser),
        u1.uniqueStruct = u.uniqueStruct → p1.structs = p.structs →
        p1.structHeap = p.structHeap →
        ∃ u2 p2, initTaggedTypesLoop (xs ++ ys) u1 p1 = initTaggedTypesLoop ys u2 p2
          ∧ u2.uniqueStruct = u.uniqueStruct ∧ p2.structs = p.structs
          ∧ p2.structHeap = p.structHeap := by
      intro u1 p1 h1 h2 h3
      obtain ⟨u2, p2, hrun, g1, g2, g3⟩ := ih hxs2 ys u1 p1
      exact ⟨u2, p2, hrun, g1.trans h1, g2.trans h2, g3.trans h3⟩
    rw [List.cons_append]
    simp only [initTaggedTypesLoop]
    cases hb : x.Body with
    | Def body =>
      cases hc : body.Class <;> simp [isStructTag, hb, hc] at hx <;>
        simp only [hc] <;> exact cont _ _ rfl rfl rfl
    | _ => exact cont _ _ rfl rfl rfl

theorem initTaggedTypesLoop_structTag (v : Nat) (b : sym.Def) (hb : b.Class = .STRTAG)
    (ys : List sym.Symbol) (u : uniqueTags) (p : parser) :
    ∃ u2 p2, initTaggedTypesLoop (⟨v, .Def b⟩ :: ys) u p = initTaggedTypesLoop ys u2 p2
      ∧ u2.uniqueStruct = (scanTag u.uniqueStruct b.Name, true) :: u.uniqueStruct
      ∧ p2.structs = (scanTag u.uniqueStruct b.Name, p.structHeap.length) :: p.structs
      ∧ p2.structHeap
          = p.structHeap ++ [⟨b.Size, scanTag u.uniqueStruct b.Name, []⟩] := by
  refine ⟨{ u with uniqueStruct := (scanTag u.uniqueStruct b.Name, true) :: u.uniqueStruct },
    { (p.newStruct (scanTag u.uniqueStruct b.Name) b.Size) with
      structTags := (p.newStruct (scanTag u.uniqueStruct b.Name) b.Size).structTags
        ++ [scanTag u.uniqueStruct b.Name] }, ?_, rfl, rfl, rfl⟩
  simp only [initTaggedTypesLoop, hb]
  rfl

theorem duplicatePrefix_append_ne (t : String) : duplicatePrefix ++ t ≠ t := by
  intro h
  have hl := congrArg String.length h
  rw [String.length_append] at hl
  have : duplicatePrefix.length = 11 := by decide
  omega

/-- The struct table and the struct objects after the tag prescan of a stream
with exactly two struct-tag records, of the same sanitized tag. -/
theorem initTaggedTypes_two_structTags (pre mid post : List sym.Symbol) (v1 v2 : Nat)
    (b1 b2 : sym.Def) (hb1 : b1.Class = .STRTAG) (hb2 : b2.Class = .STRTAG)
    (hT : validName b2.Name = validName b1.Name)
    (hpre : ∀ x ∈ pre, isStructTag x = false)
    (hmid : ∀ x ∈ mid, isStructTag x = false)
    (hpost : ∀ x ∈ post, isStructTag x = false) :
    (initTaggedTypes newParser
        (pre ++ ⟨v1, .Def b1⟩ :: (mid ++ ⟨v2, .Def b2⟩ :: post))).structs
      = [(duplicatePrefix ++ validName b1.Name, 2), (validName b1.Name, 1),
          ("__vtbl_ptr_type", 0)]
    ∧ (initTaggedTypes newParser
        (pre ++ ⟨v1, .Def b1⟩ :: (mid ++ ⟨v2, .Def b2⟩ :: post))).structHeap
      = [⟨0, "__vtbl_ptr_type", []⟩, ⟨b1.Size, validName b1.Name, []⟩,
          ⟨b2.Size, duplicatePrefix ++ validName b1.Name, []⟩] := by
  unfold initTaggedTypes
  simp only []
  obtain ⟨u1, p1, e1, a1, a2, a3⟩ := initTaggedTypesLoop_noStructTag pre hpre
    (⟨v1, .Def b1⟩ :: (mid ++ ⟨v2, .Def b2⟩ :: post))
    { uniqueStruct := [], uniqueUnion := [], uniqueEnum := [] }
    { (newParser.newStruct "__vtbl_ptr_type" 0) with
      structTags := (newParser.newStruct "__vtbl_ptr_type" 0).structTags ++ ["__vtbl_ptr_type"],
      types := ("bool", .Decl 0 0 .Typedef (.mk .Int "bool"))
        :: (newParser.newStruct "__vtbl_ptr_type" 0).types }
  obtain ⟨u2, p2, e2, c1, c2, c3⟩ := initTaggedTypesLoop_structTag v1 b1 hb1
    (mid ++ ⟨v2, .Def b2⟩ :: post) u1 p1
  obtain ⟨u3, p3, e3, d1, d2, d3⟩ := initTaggedTypesLoop_noStructTag mid hmid
    (⟨v2, .Def b2⟩ :: post) u2 p2
  obtain ⟨u4, p4, e4, f1, f2, f3⟩ := initTaggedTypesLoop_structTag v2 b2 hb2 post u3 p3
  obtain ⟨u5, p5, e5, _, g2, g3⟩ := initTaggedTypesLoop_noStructTag post hpost [] u4 p4
  rw [List.append_nil] at e5
  have e6 : initTaggedTypesLoop [] u5 p5 = p5 := rfl
  rw [e1, e2, e3, e4, e5, e6, g2, g3, f2, f3, d2, d3, c2, c3, a2, a3]
  have hu1 : scanTag u1.uniqueStruct b1.Name = validName b1.Name := by
    rw [a1]
    simp [scanTag]
  have hu3 : scanTag u3.uniqueStruct b2.Name = duplicatePrefix ++ validName b1.Name := by
    rw [d1, c1, hu1]
    simp [scanTag, hT]
  rw [hu1, hu3]
  simp [parser.newStruct, newParser]

theorem parseClassSTRTAG_first (q : parser) (b : sym.Def) (t : Nat) (st : c.StructType)
    (mem rest : List sym.Symbol) (eos : sym.Symbol) (pr : Nat × parser)
    (hl : q.structs.lookup (validName b.Name) = some t)
    (hh : q.structHeap[t]? = some st) (hf : st.Fields = [])
    (hmem : ∀ s ∈ mem, isStructMember s = true) (heos : isEndOfAggregate eos = true)
    (h : parseClassSTRTAG q b (mem ++ eos :: rest) = .ok pr) :
    ∃ fs, memberFields q mem = .ok fs ∧ pr = (mem.length + 1, q.appendStructFields t fs) := by
  have hlt : t < q.structHeap.length := by
    by_contra hcon
    rw [List.getElem?_eq_none (Nat.le_of_not_lt hcon)] at hh
    cases hh
  unfold parseClassSTRTAG at h
  split at h
  · cases h
  · simp only [hl, hh, hf, List.length_nil, gt_iff_lt, Nat.lt_irrefl, if_false] at h
    rw [parseStructMembers_range t eos rest heos mem 0 q hmem hlt] at h
    cases hm : memberFields q mem with
    | error e => rw [hm] at h; cases h
    | ok fs =>
      rw [hm] at h
      simp only [Except.ok.injEq] at h
      exact ⟨fs, rfl, by rw [← h]; simp⟩

theorem parseClassSTRTAG_duplicate (q : parser) (b : sym.Def) (t : Nat) (st : c.StructType)
    (mem rest : List sym.Symbol) (eos : sym.Symbol) (pr : Nat × parser)
    (hl : q.structs.lookup (validName b.Name) = some t)
    (hh : q.structHeap[t]? = some st) (hf : 0 < st.Fields.length)
    (hmem : ∀ s ∈ mem, isStructMember s = true) (heos : isEndOfAggregate eos = true)
    (h : parseClassSTRTAG q b (mem ++ eos :: rest) = .ok pr) :
    ∃ fs, memberFields (q.newStruct (duplicatePrefix ++ validName b.Name) b.Size) mem = .ok fs
      ∧ pr = (mem.length + 1,
          (q.newStruct (duplicatePrefix ++ validName b.Name) b.Size).appendStructFields
            q.structHeap.length fs) := by
  unfold parseClassSTRTAG at h
  split at h
  · cases h
  · simp only [hl, hh, hf, gt_iff_lt, if_true] at h
    rw [parseStructMembers_range _ eos rest heos mem 0 _ hmem
      (by simp [parser.newStruct])] at h
    cases hm : memberFields (q.newStruct (duplicatePrefix ++ validName b.Name) b.Size) mem with
    | error e => rw [hm] at h; cases h
    | ok fs =>
      rw [hm] at h
      simp only [Except.ok.injEq] at h
      exact ⟨fs, rfl, by rw [← h]; simp⟩

/-- One struct-tag record at the head of the type pass: the pass goes on behind
the sentinel of its member range with the state the struct parser returned. -/
theorem parseTypesLoop_structTag (v : Nat) (b : sym.Def) (hb : b.Class = .STRTAG)
    (syms : List sym.Symbol) (q pf : parser)
    (h : parseTypesLoop (⟨v, .Def b⟩ :: syms) 0 q = .ok pf) :
    ∃ n p1, parseClassSTRTAG q b syms = .ok (n, p1) ∧ parseTypesLoop syms n p1 = .ok pf := by
  simp only [parseTypesLoop, hb] at h
  split at h
  · cases h
  · rename_i n p1 hsub
    exact ⟨n, p1, hsub, h⟩

theorem isStructTag_of_member (s : sym.Symbol) (h : isStructMember s = true) :
    isStructTag s = false := by
  unfold isStructMember at h
  unfold isStructTag
  cases hb : s.Body with
  | Def body =>
    rw [hb] at h
    cases hc : body.Class <;> simp [hc] at h <;> simp [hc]
  | _ => rfl

theorem isStructTag_of_sentinel (s : sym.Symbol) (h : isEndOfAggregate s = true) :
    isStructTag s = false := by
  unfold isEndOfAggregate at h
  unfold isStructTag
  cases hb : s.Body with
  | Def body => rw [hb] at h; simp at h
  | _ => rfl

theorem parseTypesLoop_skip_range (mem rest : List sym.Symbol) (eos : sym.Symbol)
    (p : parser) :
    parseTypesLoop (mem ++ eos :: rest) (mem.length + 1) p = parseTypesLoop rest 0 p := by
  have h := parseTypesLoop_skip (mem ++ [eos]) rest p
  simpa using h

/-! ## Main pass: overlays (C11) -/

/-- C11: the main pass of a fresh parser on [Overlay(id, len), SetOverlay(id),
Def(EXT, name, scalar type), Name1(name, addr)] yields exactly one created
overlay, with ID id and length len, whose variable list is the one VarDecl
named validName(name), whose function list is empty and whose symbol list is
the one Symbol (addr, name); the default overlay stays empty. -/
theorem C11_scenario_A (id len oaddr vaddr size addr : Nat) (name : String)
    (t : sym.SymType) (ct : c.CType)
    (hmods : t.Mods = []) (hsc : scalarOf t.Base = some ct) :
    ∃ p, parseDecls newParser
        [ ⟨oaddr, .Overlay ⟨len, id⟩⟩,
          ⟨id, .SetOverlay⟩,
          ⟨vaddr, .Def ⟨.EXT, t, size, name⟩⟩,
          ⟨addr, .Name1 name⟩ ] = .ok p
      ∧ p.overlays =
          [{ Addr := oaddr, ID := id, Length := len,
             vars := [⟨vaddr, size, .Extern, .mk ct (validName name)⟩],
             funcs := [],
             varNames := [(validName name, 0)],
             funcNames := [],
             symbols := [⟨addr, name⟩],
             lines := [] }]
      ∧ p.Overlay = emptyOverlay 0 0 0 := by
  have hpt : ∀ q : parser, parseType q t [] "" = .ok ct :=
    fun q => parseType_scalar q t [] "" ct hmods hsc
  have hnf : ct.asFuncType = none := by
    cases hb : t.Base <;> rw [hb] at hsc <;> simp [scalarOf] at hsc <;>
      subst hsc <;> rfl
  refine ⟨{ newParser with
      overlays :=
        [{ Addr := oaddr, ID := id, Length := len,
           vars := [⟨vaddr, size, .Extern, .mk ct (validName name)⟩],
           funcs := [],
           varNames := [(validName name, 0)],
           funcNames := [],
           symbols := [⟨addr, name⟩],
           lines := [] }],
      overlayIDs := [(id, 0)],
      curOverlay := .created 0 }, ?_, rfl, rfl⟩
  simp [parseDecls, parseDeclsLoop, parseOverlay, parseDef, parser.cur, parser.getOverlay,
    parser.setCur, parser.setOverlay, parser.addSymbol, newParser, emptyOverlay, declName,
    parseClass, hpt, hnf]

/-- C11 (witness): scenario A of the spec, overlay 1 of length 100, the Extern
int variable foo and the symbol foo at 0x10. -/
theorem C11_scenario_A_witness :
    ∃ p, parseDecls newParser
        [ ⟨0, .Overlay ⟨100, 1⟩⟩,
          ⟨1, .SetOverlay⟩,
          ⟨0x10, .Def ⟨.EXT, ⟨.Int, []⟩, 4, "foo"⟩⟩,
          ⟨0x10, .Name1 "foo"⟩ ] = .ok p
      ∧ p.overlays =
          [{ Addr := 0, ID := 1, Length := 100,
             vars := [⟨0x10, 4, .Extern, .mk .Int "foo"⟩],
             funcs := [],
             varNames := [("foo", 0)],
             funcNames := [],
             symbols := [⟨0x10, "foo"⟩],
             lines := [] }]
      ∧ p.Overlay = emptyOverlay 0 0 0 :=
  C11_scenario_A 1 100 0 0x10 4 0x10 "foo" ⟨.Int, []⟩ .Int rfl rfl

/-! ## Name sanitizer and disambiguator (C16, C17, C18, C19) -/

theorem validRune_eq (r : Char) :
    validRune r = if r.isAlphanum then r else '_' := by
  have h : (('a' ≤ r ∧ r ≤ 'z') ∨ ('A' ≤ r ∧ r ≤ 'Z') ∨ ('0' ≤ r ∧ r ≤ '9'))
      ↔ r.isAlphanum = true := by
    simp only [Char.isAlphanum, Char.isAlpha, Char.isUpper, Char.isLower, Char.isDigit,
      Bool.or_eq_true, Bool.and_eq_true, decide_eq_true_eq, Char.le_def, UInt32.le_def,
      Fin.le_def]
    constructor
    · rintro (⟨h1, h2⟩ | ⟨h1, h2⟩ | ⟨h1, h2⟩)
      · exact Or.inl (Or.inr ⟨h1, h2⟩)
      · exact Or.inl (Or.inl ⟨h1, h2⟩)
      · exact Or.inr ⟨h1, h2⟩
    · rintro ((⟨h1, h2⟩ | ⟨h1, h2⟩) | ⟨h1, h2⟩)
      · exact Or.inr (Or.inl ⟨h1, h2⟩)
      · exact Or.inl ⟨h1, h2⟩
      · exact Or.inr (Or.inr ⟨h1, h2⟩)
  unfold validRune
  by_cases hr : r.isAlphanum = true
  · rw [if_pos (h.2 hr), if_pos hr]
  · rw [if_neg (fun hc => hr (h.1 hc)), if_neg hr]

/-- C16: validName keeps the ASCII letters and digits and replaces every other
character by an underscore, so every character of its result is an ASCII
letter, an ASCII digit or an underscore. -/
theorem C16_validName_charset (x : String) :
    (validName x).data = x.data.map (fun r => if r.isAlphanum then r else '_')
    ∧ ∀ r ∈ (validName x).data, r.isAlphanum = true ∨ r = '_' := by
  have h1 : (validName x).data = x.data.map (fun r => if r.isAlphanum then r else '_') := by
    unfold validName
    exact List.map_congr_left (fun r _ => validRune_eq r)
  refine ⟨h1, ?_⟩
  intro r hr
  rw [h1] at hr
  obtain ⟨a, _, ha⟩ := List.mem_map.1 hr
  by_cases hc : a.isAlphanum = true
  · rw [if_pos hc] at ha
    exact Or.inl (ha ▸ hc)
  · rw [if_neg hc] at ha
    exact Or.inr ha.symm

theorem validRune_idem (r : Char) : validRune (validRune r) = validRune r := by
  rw [validRune_eq r]
  by_cases hc : r.isAlphanum = true
  · rw [if_pos hc, validRune_eq, if_pos hc]
  · rw [if_neg hc]
    rfl

/-- C17: validName is idempotent. -/
theorem C17_validName_idempotent (x : String) : validName (validName x) = validName x := by
  unfold validName
  simp only [List.map_map]
  congr 1
  apply List.map_congr_left
  intro r _
  exact validRune_idem r

theorem utf8Size_validRune_le (r : Char) : (validRune r).utf8Size ≤ r.utf8Size := by
  unfold validRune
  split
  · exact Nat.le_refl _
  · exact r.utf8Size_pos

theorem utf8ByteSize_go_map_validRune (cs : List Char) :
    String.utf8ByteSize.go (cs.map validRune) ≤ String.utf8ByteSize.go cs := by
  induction cs with
  | nil => exact Nat.le_refl _
  | cons r cs ih =>
    simp only [List.map_cons, String.utf8ByteSize.go]
    exact Nat.add_le_add ih (utf8Size_validRune_le r)

/-- C18 (counterexample): the string of the single character U+00E9 is two
bytes long (Go's len), its sanitized name is the one-byte string of an
underscore. -/
theorem C18_counterexample :
    "é".utf8ByteSize = 2 ∧ validName "é" = "_" ∧ (validName "é").utf8ByteSize = 1 := by
  decide

/-- C18 (amended): validName x has as many characters (runes) as x, and its
byte length is at most the byte length of x. -/
theorem C18_validName_length (x : String) :
    (validName x).length = x.length
    ∧ (validName x).utf8ByteSize ≤ x.utf8ByteSize := by
  cases x with
  | mk cs => exact ⟨List.length_map cs validRune, utf8ByteSize_go_map_validRune cs⟩

theorem hexDigit_spec (d : Nat) (h : d < 16) :
    hexDigit d ∈ "0123456789ABCDEF".data ∧ upperHexValue (hexDigit d) = d := by
  interval_cases d <;> decide

/-- C19: for a 32-bit address, uniqueName(name, addr) is name, the separator
_addr_ and exactly eight upper-case hexadecimal digits that denote addr, so its
length is the length of name plus 14. -/
theorem C19_uniqueName_format (name : String) (addr : Nat) (h : addr < 2 ^ 32) :
    ∃ ds : List Char,
      uniqueName name addr = name ++ "_addr_" ++ String.mk ds
      ∧ ds.length = 8
      ∧ (∀ d ∈ ds, d ∈ "0123456789ABCDEF".data)
      ∧ readHex ds = addr
      ∧ (uniqueName name addr).length = name.length + 14 := by
  have hd : ∀ k, addr / 16 ^ k % 16 < 16 := fun k => Nat.mod_lt _ (by decide)
  refine ⟨hex08 addr, rfl, rfl, ?_, ?_, ?_⟩
  · intro d hmem
    simp only [hex08, List.map_cons, List.map_nil, List.mem_cons, List.mem_singleton,
      List.not_mem_nil, or_false] at hmem
    rcases hmem with h1 | h1 | h1 | h1 | h1 | h1 | h1 | h1 <;>
      (rw [h1]; exact (hexDigit_spec _ (hd _)).1)
  · simp only [readHex, hex08, List.map_cons, List.map_nil, List.foldl_cons, List.foldl_nil,
      (hexDigit_spec _ (hd 7)).2, (hexDigit_spec _ (hd 6)).2, (hexDigit_spec _ (hd 5)).2,
      (hexDigit_spec _ (hd 4)).2, (hexDigit_spec _ (hd 3)).2, (hexDigit_spec _ (hd 2)).2,
      (hexDigit_spec _ (hd 1)).2, (hexDigit_spec _ (hd 0)).2]
    norm_num at h ⊢
    omega
  · unfold uniqueName
    rw [String.length_append, String.length_append]
    rfl

/-- C19 (witness): the name bar at address 0x30. -/
theorem C19_uniqueName_format_witness :
    (0x30 : Nat) < 2 ^ 32
    ∧ ∃ ds : List Char,
      uniqueName "bar" 0x30 = "bar" ++ "_addr_" ++ String.mk ds
      ∧ ds.length = 8
      ∧ (∀ d ∈ ds, d ∈ "0123456789ABCDEF".data)
      ∧ readHex ds = 0x30
      ∧ (uniqueName "bar" 0x30).length = "bar".length + 14 :=
  ⟨by decide, C19_uniqueName_format "bar" 0x30 (by decide)⟩

/-- The example of C19 evaluated: the unique name of bar at 0x30. -/
theorem uniqueName_bar : uniqueName "bar" 0x30 = "bar_addr_00000030" := by
  decide

/-! ## Name-deduplicated lists (C20) -/

theorem any_name_iff (vs : List c.Var) (v : c.Var) :
    vs.any (fun w => w.Name == v.Name) = true ↔ v.Name ∈ vs.map (fun w => w.Name) := by
  simp only [List.any_eq_true, beq_iff_eq, List.mem_map]

theorem nodup_names_append (vs : List c.Var) (v : c.Var)
    (hnd : (vs.map (fun w => w.Name)).Nodup) (hnot : v.Name ∉ vs.map (fun w => w.Name)) :
    ((vs ++ [v]).map (fun w => w.Name)).Nodup := by
  rw [List.map_append, List.map_singleton]
  refine List.Nodup.append hnd (List.nodup_singleton _) ?_
  intro a ha hb
  rw [List.mem_singleton] at hb
  exact hnot (hb ▸ ha)

/-- C20: addLocal and addParam keep the list name-deduplicated. When the names
of the list are pairwise distinct they still are afterwards; if a variable of
the new name is already present the block (function type) is unchanged,
otherwise the list is the old list with the new variable appended at the end. -/
theorem C20_addLocal_addParam_dedup (block : c.Block) (t : c.FuncType) (v : c.Var)
    (hl : (block.Locals.map (fun w => w.Name)).Nodup)
    (hp : (t.Params.map (fun w => w.Name)).Nodup) :
    (((addLocal block v).Locals.map (fun w => w.Name)).Nodup
      ∧ (v.Name ∈ block.Locals.map (fun w => w.Name) → addLocal block v = block)
      ∧ (v.Name ∉ block.Locals.map (fun w => w.Name) →
          addLocal block v = { block with Locals := block.Locals ++ [v] }))
    ∧ (((addParam t v).Params.map (fun w => w.Name)).Nodup
      ∧ (v.Name ∈ t.Params.map (fun w => w.Name) → addParam t v = t)
      ∧ (v.Name ∉ t.Params.map (fun w => w.Name) →
          addParam t v = { t with Params := t.Params ++ [v] })) := by
  constructor
  · by_cases hin : v.Name ∈ block.Locals.map (fun w => w.Name)
    · have hany := (any_name_iff block.Locals v).2 hin
      have heq : addLocal block v = block := by simp only [addLocal, hany, if_true]
      exact ⟨by rw [heq]; exact hl, fun _ => heq, fun hnot => absurd hin hnot⟩
    · have hany : ¬ (block.Locals.any (fun w => w.Name == v.Name) = true) :=
        fun h => hin ((any_name_iff block.Locals v).1 h)
      have heq : addLocal block v = { block with Locals := block.Locals ++ [v] } := by
        simp [addLocal, hany]
      refine ⟨?_, fun h => absurd h hin, fun _ => heq⟩
      rw [heq]
      exact nodup_names_append _ _ hl hin
  · by_cases hin : v.Name ∈ t.Params.map (fun w => w.Name)
    · have hany := (any_name_iff t.Params v).2 hin
      have heq : addParam t v = t := by simp only [addParam, hany, if_true]
      exact ⟨by rw [heq]; exact hp, fun _ => heq, fun hnot => absurd hin hnot⟩
    · have hany : ¬ (t.Params.any (fun w => w.Name == v.Name) = true) :=
        fun h => hin ((any_name_iff t.Params v).1 h)
      have heq : addParam t v = { t with Params := t.Params ++ [v] } := by
        simp [addParam, hany]
      refine ⟨?_, fun h => absurd h hin, fun _ => heq⟩
      rw [heq]
      exact nodup_names_append _ _ hp hin

/-- C20 (witness): a block with the locals a and b and a function type with
the parameter a, to which a second variable a is added. -/
theorem C20_addLocal_addParam_dedup_witness :
    (((addLocal ⟨1, 2, [.mk .Int "a", .mk .Char "b"]⟩ (.mk .Long "a")).Locals.map
          (fun w => w.Name)).Nodup
      ∧ ((c.Var.mk .Long "a").Name ∈ [c.Var.mk .Int "a", .mk .Char "b"].map (fun w => w.Name) →
          addLocal ⟨1, 2, [.mk .Int "a", .mk .Char "b"]⟩ (.mk .Long "a")
            = ⟨1, 2, [.mk .Int "a", .mk .Char "b"]⟩)
      ∧ ((c.Var.mk .Long "a").Name ∉ [c.Var.mk .Int "a", .mk .Char "b"].map (fun w => w.Name) →
          addLocal ⟨1, 2, [.mk .Int "a", .mk .Char "b"]⟩ (.mk .Long "a")
            = ⟨1, 2, [.mk .Int "a", .mk .Char "b"] ++ [.mk .Long "a"]⟩))
    ∧ (((addParam ⟨.Void, [.mk .Int "a"], false⟩ (.mk .Long "a")).Params.map
          (fun w => w.Name)).Nodup
      ∧ ((c.Var.mk .Long "a").Name ∈ [c.Var.mk .Int "a"].map (fun w => w.Name) →
          addParam ⟨.Void, [.mk .Int "a"], false⟩ (.mk .Long "a")
            = ⟨.Void, [.mk .Int "a"], false⟩)
      ∧ ((c.Var.mk .Long "a").Name ∉ [c.Var.mk .Int "a"].map (fun w => w.Name) →
          addParam ⟨.Void, [.mk .Int "a"], false⟩ (.mk .Long "a")
            = ⟨.Void, [.mk .Int "a"] ++ [.mk .Long "a"], false⟩)) :=
  C20_addLocal_addParam_dedup ⟨1, 2, [.mk .Int "a", .mk .Char "b"]⟩
    ⟨.Void, [.mk .Int "a"], false⟩ (.mk .Long "a") (by decide) (by decide)

/-! ## Struct member parser: other record kinds (C13) -/

/-- C13 (counterexample): in the member range [symbol name record, sentinel] of
the struct S the parser skips the record that is not a definition record and
returns 2 consumed records. -/
theorem C13_counterexample :
    ∃ p, parseClassSTRTAG
        (initTaggedTypes newParser [⟨0, .Def ⟨.STRTAG, ⟨.Struct, []⟩, 4, "S"⟩⟩])
        ⟨.STRTAG, ⟨.Struct, []⟩, 4, "S"⟩
        [ ⟨0x10, .Name1 "x"⟩,
          ⟨0, .Def2 ⟨.EOS, ⟨.Null, []⟩, 4, [], "", ".eos"⟩⟩ ] = .ok (2, p) :=
  ⟨_, rfl⟩

theorem parseStructMembers_other_definition (t : Nat) (bad : sym.Symbol)
    (rest : List sym.Symbol) (hbad : isOtherDefinition bad = true) :
    ∀ (xs : List sym.Symbol) (n : Nat) (p : parser),
      (∀ x ∈ xs, isEndOfAggregate x = false) →
      ∃ e, parseStructMembers t (xs ++ bad :: rest) n p = .error e := by
  intro xs
  induction xs with
  | nil =>
    intro n p _
    rw [List.nil_append]
    unfold parseStructMembers
    cases hb : bad.Body with
    | Def body =>
      cases hc : body.Class <;> simp [isOtherDefinition, hb, hc] at hbad <;>
        simp only [hc] <;> exact ⟨_, rfl⟩
    | Def2 body =>
      cases hc : body.Class <;> simp [isOtherDefinition, hb, hc] at hbad <;>
        simp only [hc] <;> exact ⟨_, rfl⟩
    | _ => simp [isOtherDefinition, hb] at hbad
  | cons x xs ih =>
    intro n p hxs
    have hx : isEndOfAggregate x = false := hxs x (List.mem_cons_self _ _)
    have hxs2 : ∀ x2 ∈ xs, isEndOfAggregate x2 = false :=
      fun x2 h2 => hxs x2 (List.mem_cons_of_mem _ h2)
    have field : ∀ (r : Except Panic c.CType) (fd : c.CType → c.Field),
        ∃ e : Panic, (match r with
          | .error e2 => (.error e2 : Except Panic (Nat × parser))
          | .ok ty =>
            match p.addStructField t (fd ty) with
            | .error e2 => .error e2
            | .ok p1 => parseStructMembers t (xs ++ bad :: rest) (n + 1) p1) = .error e := by
      intro r fd
      cases r with
      | error e => exact ⟨e, rfl⟩
      | ok ty =>
        simp only []
        cases hadd : p.addStructField t (fd ty) with
        | error e => exact ⟨e, rfl⟩
        | ok p1 => exact ih (n + 1) p1 hxs2
    rw [List.cons_append]
    unfold parseStructMembers
    cases hb : x.Body with
    | Def body =>
      cases hc : body.Class <;> simp only [hc]
      case MOS => exact field _ (fun ty => ⟨x.Value, body.Size, .mk ty (validName body.Name)⟩)
      case FIELD => exact field _ (fun ty => ⟨x.Value, body.Size, .mk ty (validName body.Name)⟩)
      all_goals exact ⟨_, rfl⟩
    | Def2 body =>
      cases hc : body.Class <;> simp only [hc]
      case MOS => exact field _ (fun ty => ⟨x.Value, body.Size, .mk ty (validName body.Name)⟩)
      case EOS => simp [isEndOfAggregate, hb, hc] at hx
      all_goals exact ⟨_, rfl⟩
    | _ => exact ih (n + 1) p hxs2

theorem parseStructMembers_succ (t : Nat) :
    ∀ (xs : List sym.Symbol) (n : Nat) (p : parser),
      parseStructMembers t xs (n + 1) p = oneMore (parseStructMembers t xs n p) := by
  intro xs
  induction xs with
  | nil => intro n p; rfl
  | cons x xs ih =>
    intro n p
    have field : ∀ (r : Except Panic c.CType) (fd : c.CType → c.Field),
        (match r with
          | .error e2 => (.error e2 : Except Panic (Nat × parser))
          | .ok ty =>
            match p.addStructField t (fd ty) with
            | .error e2 => .error e2
            | .ok p1 => parseStructMembers t xs (n + 1 + 1) p1)
        = oneMore (match r with
          | .error e2 => (.error e2 : Except Panic (Nat × parser))
          | .ok ty =>
            match p.addStructField t (fd ty) with
            | .error e2 => .error e2
            | .ok p1 => parseStructMembers t xs (n + 1) p1) := by
      intro r fd
      cases r with
      | error e => rfl
      | ok ty =>
        simp only []
        cases hadd : p.addStructField t (fd ty) with
        | error e => rfl
        | ok p1 => exact ih (n + 1) p1
    unfold parseStructMembers
    cases hb : x.Body with
    | Def body =>
      cases hc : body.Class <;> simp only [hc]
      case MOS => exact field _ (fun ty => ⟨x.Value, body.Size, .mk ty (validName body.Name)⟩)
      case FIELD => exact field _ (fun ty => ⟨x.Value, body.Size, .mk ty (validName body.Name)⟩)
      all_goals rfl
    | Def2 body =>
      cases hc : body.Class <;> simp only [hc]
      case MOS => exact field _ (fun ty => ⟨x.Value, body.Size, .mk ty (validName body.Name)⟩)
      all_goals rfl
    | _ => exact ih (n + 1) p

theorem parseStructMembers_skip (t : Nat) (s : sym.Symbol) (rest : List sym.Symbol)
    (hs : isDefinition s = false) :
    ∀ (xs : List sym.Symbol) (n : Nat) (p : parser),
      (∀ x ∈ xs, isEndOfAggregate x = false) →
      parseStructMembers t (xs ++ s :: rest) n p
        = oneMore (parseStructMembers t (xs ++ rest) n p) := by
  intro xs
  induction xs with
  | nil =>
    intro n p _
    rw [List.nil_append, List.nil_append, ← parseStructMembers_succ]
    cases hb : s.Body <;> simp [isDefinition, hb] at hs <;>
      simp only [parseStructMembers, hb]
  | cons x xs ih =>
    intro n p hxs
    have hx : isEndOfAggregate x = false := hxs x (List.mem_cons_self _ _)
    have hxs2 : ∀ x2 ∈ xs, isEndOfAggregate x2 = false :=
      fun x2 h2 => hxs x2 (List.mem_cons_of_mem _ h2)
    have field : ∀ (r : Except Panic c.CType) (fd : c.CType → c.Field),
        (match r with
          | .error e2 => (.error e2 : Except Panic (Nat × parser))
          | .ok ty =>
            match p.addStructField t (fd ty) with
            | .error e2 => .error e2
            | .ok p1 => parseStructMembers t (xs ++ s :: rest) (n + 1) p1)
        = oneMore (match r with
          | .error e2 => (.error e2 : Except Panic (Nat × parser))
          | .ok ty =>
            match p.addStructField t (fd ty) with
            | .error e2 => .error e2
            | .ok p1 => parseStructMembers t (xs ++ rest) (n + 1) p1) := by
      intro r fd
      cases r with
      | error e => rfl
      | ok ty =>
        simp only []
        cases hadd : p.addStructField t (fd ty) with
        | error e => rfl
        | ok p1 => exact ih (n + 1) p1 hxs2
    rw [List.cons_append, List.cons_append]
    unfold parseStructMembers
    cases hb : x.Body with
    | Def body =>
      cases hc : body.Class <;> simp only [hc]
      case MOS => exact field _ (fun ty => ⟨x.Value, body.Size, .mk ty (validName body.Name)⟩)
      case FIELD => exact field _ (fun ty => ⟨x.Value, body.Size, .mk ty (validName body.Name)⟩)
      all_goals rfl
    | Def2 body =>
      cases hc : body.Class <;> simp only [hc]
      case MOS => exact field _ (fun ty => ⟨x.Value, body.Size, .mk ty (validName body.Name)⟩)
      case EOS => simp [isEndOfAggregate, hb, hc] at hx
      all_goals rfl
    | _ => exact ih (n + 1) p hxs2

/-- C13 (amended): in a member range handed to parseClassSTRTAG, take a record
that comes before the first sentinel. When it is a definition record, short or
long, of a kind other than a member-of-struct definition or a short field
definition, the parser fails with a fatal error. When it is not a definition
record at all, the parser skips it: the result is the one for the range
without that record, with one more record counted as consumed. -/
theorem C13_other_definition_is_fatal (p : parser) (body : sym.Def)
    (xs : List sym.Symbol) (s : sym.Symbol) (rest : List sym.Symbol)
    (hxs : ∀ x ∈ xs, isEndOfAggregate x = false) :
    (isOtherDefinition s = true →
      ∃ e, parseClassSTRTAG p body (xs ++ s :: rest) = .error e)
    ∧ (isDefinition s = false →
      parseClassSTRTAG p body (xs ++ s :: rest)
        = oneMore (parseClassSTRTAG p body (xs ++ rest))) := by
  constructor
  · intro hbad
    unfold parseClassSTRTAG
    split
    · exact ⟨_, rfl⟩
    · simp only []
      split
      · exact ⟨_, rfl⟩
      · split
        · exact ⟨_, rfl⟩
        · split
          · exact parseStructMembers_other_definition _ s rest hbad xs 0 _ hxs
          · exact parseStructMembers_other_definition _ s rest hbad xs 0 _ hxs
  · intro hs
    unfold parseClassSTRTAG
    split
    · rfl
    · simp only []
      split
      · rfl
      · split
        · rfl
        · split
          · exact parseStructMembers_skip _ s rest hs xs 0 _ hxs
          · exact parseStructMembers_skip _ s rest hs xs 0 _ hxs

/-- C13 (witness): the struct S with the member a before the record in
question. A long field definition there is fatal; a symbol name record there is
skipped and counted. -/
theorem C13_other_definition_is_fatal_witness :
    (∃ e, parseClassSTRTAG
        (initTaggedTypes newParser [⟨0, .Def ⟨.STRTAG, ⟨.Struct, []⟩, 4, "S"⟩⟩])
        ⟨.STRTAG, ⟨.Struct, []⟩, 4, "S"⟩
        ([⟨0, .Def ⟨.MOS, ⟨.Int, []⟩, 4, "a"⟩⟩]
          ++ ⟨0, .Def2 ⟨.FIELD, ⟨.Int, []⟩, 4, [], "", "f"⟩⟩
          :: [⟨0, .Def2 ⟨.EOS, ⟨.Null, []⟩, 4, [], "", ".eos"⟩⟩]) = .error e)
    ∧ parseClassSTRTAG
        (initTaggedTypes newParser [⟨0, .Def ⟨.STRTAG, ⟨.Struct, []⟩, 4, "S"⟩⟩])
        ⟨.STRTAG, ⟨.Struct, []⟩, 4, "S"⟩
        ([⟨0, .Def ⟨.MOS, ⟨.Int, []⟩, 4, "a"⟩⟩]
          ++ ⟨0x10, .Name1 "x"⟩
          :: [⟨0, .Def2 ⟨.EOS, ⟨.Null, []⟩, 4, [], "", ".eos"⟩⟩])
      = oneMore (parseClassSTRTAG
        (initTaggedTypes newParser [⟨0, .Def ⟨.STRTAG, ⟨.Struct, []⟩, 4, "S"⟩⟩])
        ⟨.STRTAG, ⟨.Struct, []⟩, 4, "S"⟩
        ([⟨0, .Def ⟨.MOS, ⟨.Int, []⟩, 4, "a"⟩⟩]
          ++ [⟨0, .Def2 ⟨.EOS, ⟨.Null, []⟩, 4, [], "", ".eos"⟩⟩])) :=
  ⟨(C13_other_definition_is_fatal _ ⟨.STRTAG, ⟨.Struct, []⟩, 4, "S"⟩
      [⟨0, .Def ⟨.MOS, ⟨.Int, []⟩, 4, "a"⟩⟩]
      ⟨0, .Def2 ⟨.FIELD, ⟨.Int, []⟩, 4, [], "", "f"⟩⟩
      [⟨0, .Def2 ⟨.EOS, ⟨.Null, []⟩, 4, [], "", ".eos"⟩⟩] (by decide)).1 rfl,
   (C13_other_definition_is_fatal _ ⟨.STRTAG, ⟨.Struct, []⟩, 4, "S"⟩
      [⟨0, .Def ⟨.MOS, ⟨.Int, []⟩, 4, "a"⟩⟩]
      ⟨0x10, .Name1 "x"⟩
      [⟨0, .Def2 ⟨.EOS, ⟨.Null, []⟩, 4, [], "", ".eos"⟩⟩] (by decide)).2 rfl⟩

/-! ## Tag prescan (C14, C15) -/

/-- C14 (counterexample): in the stream of the struct-tag records X, X and
_duplicate_X the third record is registered under _duplicate__duplicate_X,
although no earlier struct-tag record has the sanitized tag _duplicate_X. -/
theorem C14_counterexample :
    validName "_duplicate_X" = "_duplicate_X"
    ∧ (initTaggedTypes newParser
        [ ⟨0, .Def ⟨.STRTAG, ⟨.Struct, []⟩, 4, "X"⟩⟩,
          ⟨0, .Def ⟨.STRTAG, ⟨.Struct, []⟩, 4, "X"⟩⟩,
          ⟨0, .Def ⟨.STRTAG, ⟨.Struct, []⟩, 4, "_duplicate_X"⟩⟩ ]).structTags
      = ["__vtbl_ptr_type", "X", "_duplicate_X", "_duplicate__duplicate_X"] := by
  decide

theorem lookup_true_iff (m : List (String × Bool)) (h : ∀ e ∈ m, e.2 = true) (k : String) :
    (m.lookup k).getD false = (m.map Prod.fst).contains k := by
  induction m with
  | nil => rfl
  | cons e m ih =>
    obtain ⟨k2, b⟩ := e
    have hb : b = true := h (k2, b) (List.mem_cons_self _ _)
    have ih2 := ih (fun e he => h e (List.mem_cons_of_mem _ he))
    subst hb
    by_cases hk : k = k2
    · subst hk
      simp [List.lookup]
    · have hne : (k == k2) = false := by simpa using hk
      simp only [List.lookup, hne, List.map_cons, List.contains_cons, Bool.false_or]
      exact ih2

theorem initTaggedTypesLoop_structs :
    ∀ (syms : List sym.Symbol) (u : uniqueTags) (p : parser),
      (∀ e ∈ u.uniqueStruct, e.2 = true) →
      (initTaggedTypesLoop syms u p).structTags
          = p.structTags ++ registerTags (structTagNames syms) (u.uniqueStruct.map Prod.fst)
      ∧ (initTaggedTypesLoop syms u p).structs
          = bindTags (registerTags (structTagNames syms) (u.uniqueStruct.map Prod.fst))
              p.structHeap.length ++ p.structs
      ∧ (initTaggedTypesLoop syms u p).structHeap.map (fun st => st.Tag)
          = p.structHeap.map (fun st => st.Tag)
            ++ registerTags (structTagNames syms) (u.uniqueStruct.map Prod.fst) := by
  intro syms
  induction syms with
  | nil => intro u p _; simp [initTaggedTypesLoop, structTagNames, registerTags, bindTags]
  | cons s syms ih =>
    intro u p hu
    cases hb : s.Body with
    | Def body =>
      cases hc : body.Class
      case STRTAG =>
        have hlk := lookup_true_iff u.uniqueStruct hu (validName body.Name)
        have hstep : initTaggedTypesLoop (s :: syms) u p
            = initTaggedTypesLoop syms
                { u with uniqueStruct :=
                    (scanTag u.uniqueStruct body.Name, true) :: u.uniqueStruct }
                { (p.newStruct (scanTag u.uniqueStruct body.Name) body.Size) with
                  structTags := p.structTags ++ [scanTag u.uniqueStruct body.Name] } := by
          simp only [initTaggedTypesLoop, hb, hc]
          rfl
        have hnames : structTagNames (s :: syms) = validName body.Name :: structTagNames syms := by
          simp only [structTagNames, hb, hc]
        obtain ⟨h1, h2, h3⟩ := ih
          { u with uniqueStruct := (scanTag u.uniqueStruct body.Name, true) :: u.uniqueStruct }
          { (p.newStruct (scanTag u.uniqueStruct body.Name) body.Size) with
            structTags := p.structTags ++ [scanTag u.uniqueStruct body.Name] }
          (by
            intro e he
            rcases List.mem_cons.1 he with h | h
            · rw [h]
            · exact hu e h)
        rw [hstep, hnames, h1, h2, h3]
        simp [registerTags, bindTags, parser.newStruct, scanTag, hlk, List.append_assoc]
      all_goals
        simp only [initTaggedTypesLoop, structTagNames, hb, hc]
        exact ih _ _ hu
    | _ =>
      have hstep : initTaggedTypesLoop (s :: syms) u p = initTaggedTypesLoop syms u p := by
        simp only [initTaggedTypesLoop, hb]
      have hnames : structTagNames (s :: syms) = structTagNames syms := by
        simp only [structTagNames, hb]
      rw [hstep, hnames]
      exact ih _ _ hu

/-- C14 (amended): the tag prescan registers each struct-tag record under
validName(name) when no earlier struct-tag record of the stream was registered
under that tag, and under _duplicate_ + validName(name) when one was. The
struct tag order list is __vtbl_ptr_type followed by exactly these registered
tags, in encounter order; the struct table binds each of them to its own
struct object (a later record of a tag rebinding it), and the struct objects
carry these tags. -/
theorem C14_prescan_struct_tags (syms : List sym.Symbol) :
    (initTaggedTypes newParser syms).structTags
        = "__vtbl_ptr_type" :: registerTags (structTagNames syms) []
    ∧ (initTaggedTypes newParser syms).structs
        = bindTags ("__vtbl_ptr_type" :: registerTags (structTagNames syms) []) 0
    ∧ (initTaggedTypes newParser syms).structHeap.map (fun st => st.Tag)
        = "__vtbl_ptr_type" :: registerTags (structTagNames syms) [] := by
  unfold initTaggedTypes
  simp only []
  obtain ⟨h1, h2, h3⟩ := initTaggedTypesLoop_structs syms
    { uniqueStruct := [], uniqueUnion := [], uniqueEnum := [] }
    { (newParser.newStruct "__vtbl_ptr_type" 0) with
      structTags := (newParser.newStruct "__vtbl_ptr_type" 0).structTags ++ ["__vtbl_ptr_type"],
      types := ("bool", .Decl 0 0 .Typedef (.mk .Int "bool"))
        :: (newParser.newStruct "__vtbl_ptr_type" 0).types }
    (by intro e he; cases he)
  rw [h1, h2, h3]
  simp [parser.newStruct, newParser, bindTags]

theorem lookup_cons_isSome {β : Type} (k a : String) (b : β) (m : List (String × β)) :
    (((a, b) :: m).lookup k).isSome = true ↔ k = a ∨ (m.lookup k).isSome = true := by
  by_cases h : k = a
  · subst h
    simp [List.lookup]
  · have hne : (k == a) = false := by simpa using h
    simp [List.lookup, hne, h]

theorem getD_lookup_cons (k a : String) (m : List (String × Bool)) :
    (((a, true) :: m).lookup k).getD false = true
      ↔ k = a ∨ (m.lookup k).getD false = true := by
  by_cases h : k = a
  · subst h
    simp [List.lookup]
  · have hne : (k == a) = false := by simpa using h
    simp [List.lookup, hne, h]

theorem keysLe_refl (p : parser) : keysLe p p :=
  ⟨fun _ h => h, fun _ h => h, fun _ h => h⟩

theorem keysLe_trans {p q r : parser} (h1 : keysLe p q) (h2 : keysLe q r) : keysLe p r :=
  ⟨fun k h => h2.1 k (h1.1 k h), fun k h => h2.2.1 k (h1.2.1 k h),
    fun k h => h2.2.2 k (h1.2.2 k h)⟩

/-- The prescan loop keeps every key of the tag tables and makes the sanitized
name of every tag record it visits a key of the table of its kind. -/
theorem initTaggedTypesLoop_keys :
    ∀ (syms : List sym.Symbol) (u : uniqueTags) (p : parser), scanInv u p →
      keysLe p (initTaggedTypesLoop syms u p)
      ∧ ∀ s ∈ syms, ∀ body, s.Body = .Def body →
          (body.Class = .STRTAG →
            ((initTaggedTypesLoop syms u p).structs.lookup (validName body.Name)).isSome = true)
          ∧ (body.Class = .UNTAG →
            ((initTaggedTypesLoop syms u p).unions.lookup (validName body.Name)).isSome = true)
          ∧ (body.Class = .ENTAG →
            ((initTaggedTypesLoop syms u p).enums.lookup (validName body.Name)).isSome = true) := by
  intro syms
  induction syms with
  | nil =>
    intro u p _
    exact ⟨keysLe_refl p, fun s hs => by cases hs⟩
  | cons s0 syms ih =>
    intro u p hinv
    -- the step taken on the record s0, as a state (u1, p1)
    have key : ∀ (u1 : uniqueTags) (p1 : parser),
        initTaggedTypesLoop (s0 :: syms) u p = initTaggedTypesLoop syms u1 p1 →
        scanInv u1 p1 → keysLe p p1 →
        (∀ body, s0.Body = .Def body →
          (body.Class = .STRTAG → (p1.structs.lookup (validName body.Name)).isSome = true)
          ∧ (body.Class = .UNTAG → (p1.unions.lookup (validName body.Name)).isSome = true)
          ∧ (body.Class = .ENTAG → (p1.enums.lookup (validName body.Name)).isSome = true)) →
        keysLe p (initTaggedTypesLoop (s0 :: syms) u p)
        ∧ ∀ s ∈ s0 :: syms, ∀ body, s.Body = .Def body →
          (body.Class = .STRTAG →
            ((initTaggedTypesLoop (s0 :: syms) u p).structs.lookup
              (validName body.Name)).isSome = true)
          ∧ (body.Class = .UNTAG →
            ((initTaggedTypesLoop (s0 :: syms) u p).unions.lookup
              (validName body.Name)).isSome = true)
          ∧ (body.Class = .ENTAG →
            ((initTaggedTypesLoop (s0 :: syms) u p).enums.lookup
              (validName body.Name)).isSome = true) := by
      intro u1 p1 hstep hinv1 hle hhead
      obtain ⟨hmono, hmem⟩ := ih u1 p1 hinv1
      rw [hstep]
      refine ⟨keysLe_trans hle hmono, ?_⟩
      intro s hs body hb
      rcases List.mem_cons.1 hs with h | h
      · subst h
        obtain ⟨g1, g2, g3⟩ := hhead body hb
        exact ⟨fun hc => hmono.1 _ (g1 hc), fun hc => hmono.2.1 _ (g2 hc),
          fun hc => hmono.2.2 _ (g3 hc)⟩
      · exact hmem s h body hb
    cases hb : s0.Body with
    | Def body0 =>
      cases hc : body0.Class
      case STRTAG =>
        refine key
          { u with uniqueStruct := (scanTag u.uniqueStruct body0.Name, true) :: u.uniqueStruct }
          { (p.newStruct (scanTag u.uniqueStruct body0.Name) body0.Size) with
            structTags := p.structTags ++ [scanTag u.uniqueStruct body0.Name] }
          (by simp only [initTaggedTypesLoop, hb, hc]; rfl) ?_ ?_ ?_
        · refine ⟨?_, hinv.2.1, hinv.2.2⟩
          intro k hk
          rcases (getD_lookup_cons k _ _).1 hk with h | h
          · exact (lookup_cons_isSome k _ _ _).2 (Or.inl h)
          · exact (lookup_cons_isSome k _ _ _).2 (Or.inr (hinv.1 k h))
        · exact ⟨fun k h => (lookup_cons_isSome k _ _ _).2 (Or.inr h), fun _ h => h,
            fun _ h => h⟩
        · intro body hb2
          rw [hb] at hb2
          cases hb2
          refine ⟨fun _ => ?_, (fun h => absurd (hc.symm.trans h) (by decide)),
            (fun h => absurd (hc.symm.trans h) (by decide))⟩
          by_cases hd : (u.uniqueStruct.lookup (validName body0.Name)).getD false = true
          · exact (lookup_cons_isSome _ _ _ _).2 (Or.inr (hinv.1 _ hd))
          · exact (lookup_cons_isSome _ _ _ _).2 (Or.inl (by simp [scanTag, hd]))
      case UNTAG =>
        refine key
          { u with uniqueUnion := (scanTag u.uniqueUnion body0.Name, true) :: u.uniqueUnion }
          { (p.newUnion (scanTag u.uniqueUnion body0.Name) body0.Size) with
            unionTags := p.unionTags ++ [scanTag u.uniqueUnion body0.Name] }
          (by simp only [initTaggedTypesLoop, hb, hc]; rfl) ?_ ?_ ?_
        · refine ⟨hinv.1, ?_, hinv.2.2⟩
          intro k hk
          rcases (getD_lookup_cons k _ _).1 hk with h | h
          · exact (lookup_cons_isSome k _ _ _).2 (Or.inl h)
          · exact (lookup_cons_isSome k _ _ _).2 (Or.inr (hinv.2.1 k h))
        · exact ⟨fun _ h => h, fun k h => (lookup_cons_isSome k _ _ _).2 (Or.inr h),
            fun _ h => h⟩
        · intro body hb2
          rw [hb] at hb2
          cases hb2
          refine ⟨(fun h => absurd (hc.symm.trans h) (by decide)), fun _ => ?_,
            (fun h => absurd (hc.symm.trans h) (by decide))⟩
          by_cases hd : (u.uniqueUnion.lookup (validName body0.Name)).getD false = true
          · exact (lookup_cons_isSome _ _ _ _).2 (Or.inr (hinv.2.1 _ hd))
          · exact (lookup_cons_isSome _ _ _ _).2 (Or.inl (by simp [scanTag, hd]))
      case ENTAG =>
        refine key
          { u with uniqueEnum := (scanTag u.uniqueEnum body0.Name, true) :: u.uniqueEnum }
          { (p.newEnum (scanTag u.uniqueEnum body0.Name)) with
            enumTags := p.enumTags ++ [scanTag u.uniqueEnum body0.Name] }
          (by simp only [initTaggedTypesLoop, hb, hc]; rfl) ?_ ?_ ?_
        · refine ⟨hinv.1, hinv.2.1, ?_⟩
          intro k hk
          rcases (getD_lookup_cons k _ _).1 hk with h | h
          · exact (lookup_cons_isSome k _ _ _).2 (Or.inl h)
          · exact (lookup_cons_isSome k _ _ _).2 (Or.inr (hinv.2.2 k h))
        · exact ⟨fun _ h => h, fun _ h => h,
            fun k h => (lookup_cons_isSome k _ _ _).2 (Or.inr h)⟩
        · intro body hb2
          rw [hb] at hb2
          cases hb2
          refine ⟨(fun h => absurd (hc.symm.trans h) (by decide)), (fun h => absurd (hc.symm.trans h) (by decide)),
            fun _ => ?_⟩
          by_cases hd : (u.uniqueEnum.lookup (validName body0.Name)).getD false = true
          · exact (lookup_cons_isSome _ _ _ _).2 (Or.inr (hinv.2.2 _ hd))
          · exact (lookup_cons_isSome _ _ _ _).2 (Or.inl (by simp [scanTag, hd]))
      all_goals
        refine key u p (by simp only [initTaggedTypesLoop, hb, hc]) hinv (keysLe_refl p) ?_
        intro body hb2
        rw [hb] at hb2
        cases hb2
        exact ⟨(fun h => absurd (hc.symm.trans h) (by decide)), (fun h => absurd (hc.symm.trans h) (by decide)),
          (fun h => absurd (hc.symm.trans h) (by decide))⟩
    | _ =>
      refine key u p (by simp only [initTaggedTypesLoop, hb]) hinv (keysLe_refl p) ?_
      intro body hb2
      rw [hb] at hb2
      cases hb2

theorem isSome_lookup {β : Type} (m : List (String × β)) (k : String)
    (h : (m.lookup k).isSome = true) : ∃ r, m.lookup k = some r := by
  cases hm : m.lookup k with
  | none => rw [hm] at h; cases h
  | some r => exact ⟨r, rfl⟩

/-- C15: after the tag prescan of a fresh parser, the sanitized name of every
struct-tag (union-tag, enum-tag) definition record of the stream, at any
position, is a key of the struct (union, enum) table, and parseBase resolves
the base kind struct (union, enum) with that tag to the type bound to it. -/
theorem C15_prescan_resolves_tags (syms : List sym.Symbol) (s : sym.Symbol)
    (body : sym.Def) (hs : s ∈ syms) (hb : s.Body = .Def body) :
    (body.Class = .STRTAG → ∃ r,
        (initTaggedTypes newParser syms).structs.lookup (validName body.Name) = some r
        ∧ parseBase (initTaggedTypes newParser syms) .Struct body.Name = .ok (.Struct r))
    ∧ (body.Class = .UNTAG → ∃ r,
        (initTaggedTypes newParser syms).unions.lookup (validName body.Name) = some r
        ∧ parseBase (initTaggedTypes newParser syms) .Union body.Name = .ok (.Union r))
    ∧ (body.Class = .ENTAG → ∃ r,
        (initTaggedTypes newParser syms).enums.lookup (validName body.Name) = some r
        ∧ parseBase (initTaggedTypes newParser syms) .Enum body.Name = .ok (.Enum r)) := by
  have hkeys := (initTaggedTypesLoop_keys syms
    { uniqueStruct := [], uniqueUnion := [], uniqueEnum := [] }
    { (newParser.newStruct "__vtbl_ptr_type" 0) with
      structTags := (newParser.newStruct "__vtbl_ptr_type" 0).structTags ++ ["__vtbl_ptr_type"],
      types := ("bool", .Decl 0 0 .Typedef (.mk .Int "bool"))
        :: (newParser.newStruct "__vtbl_ptr_type" 0).types }
    ⟨fun k h => by simp at h, fun k h => by simp at h, fun k h => by simp at h⟩).2 s hs body hb
  have hinit : initTaggedTypes newParser syms = initTaggedTypesLoop syms
      { uniqueStruct := [], uniqueUnion := [], uniqueEnum := [] }
      { (newParser.newStruct "__vtbl_ptr_type" 0) with
        structTags := (newParser.newStruct "__vtbl_ptr_type" 0).structTags
          ++ ["__vtbl_ptr_type"],
        types := ("bool", .Decl 0 0 .Typedef (.mk .Int "bool"))
          :: (newParser.newStruct "__vtbl_ptr_type" 0).types } := rfl
  rw [hinit]
  refine ⟨fun hc => ?_, fun hc => ?_, fun hc => ?_⟩
  · obtain ⟨r, hr⟩ := isSome_lookup _ _ (hkeys.1 hc)
    exact ⟨r, hr, by simp only [parseBase, hr]⟩
  · obtain ⟨r, hr⟩ := isSome_lookup _ _ (hkeys.2.1 hc)
    exact ⟨r, hr, by simp only [parseBase, hr]⟩
  · obtain ⟨r, hr⟩ := isSome_lookup _ _ (hkeys.2.2 hc)
    exact ⟨r, hr, by simp only [parseBase, hr]⟩

/-- C15 (witness): a stream in which a member refers to the struct S before
the tag record of S, which is the second tag record of that name. -/
theorem C15_prescan_resolves_tags_witness :
    (⟨0, .Def ⟨.STRTAG, ⟨.Struct, []⟩, 8, "S"⟩⟩ : sym.Symbol) ∈
      [ (⟨0, .Def2 ⟨.MOS, ⟨.Struct, [.Pointer]⟩, 4, [], "S", "next"⟩⟩ : sym.Symbol),
        ⟨0, .Def ⟨.STRTAG, ⟨.Struct, []⟩, 4, "S"⟩⟩,
        ⟨0, .Def ⟨.STRTAG, ⟨.Struct, []⟩, 8, "S"⟩⟩ ]
    ∧ ((sym.Def.mk .STRTAG ⟨.Struct, []⟩ 8 "S").Class = .STRTAG → ∃ r,
        (initTaggedTypes newParser
          [ ⟨0, .Def2 ⟨.MOS, ⟨.Struct, [.Pointer]⟩, 4, [], "S", "next"⟩⟩,
            ⟨0, .Def ⟨.STRTAG, ⟨.Struct, []⟩, 4, "S"⟩⟩,
            ⟨0, .Def ⟨.STRTAG, ⟨.Struct, []⟩, 8, "S"⟩⟩ ]).structs.lookup
              (validName (sym.Def.mk .STRTAG ⟨.Struct, []⟩ 8 "S").Name) = some r
        ∧ parseBase (initTaggedTypes newParser
          [ ⟨0, .Def2 ⟨.MOS, ⟨.Struct, [.Pointer]⟩, 4, [], "S", "next"⟩⟩,
            ⟨0, .Def ⟨.STRTAG, ⟨.Struct, []⟩, 4, "S"⟩⟩,
            ⟨0, .Def ⟨.STRTAG, ⟨.Struct, []⟩, 8, "S"⟩⟩ ]) .Struct
              (sym.Def.mk .STRTAG ⟨.Struct, []⟩ 8 "S").Name = .ok (.Struct r)) :=
  ⟨by decide,
    (C15_prescan_resolves_tags
      [ ⟨0, .Def2 ⟨.MOS, ⟨.Struct, [.Pointer]⟩, 4, [], "S", "next"⟩⟩,
        ⟨0, .Def ⟨.STRTAG, ⟨.Struct, []⟩, 4, "S"⟩⟩,
        ⟨0, .Def ⟨.STRTAG, ⟨.Struct, []⟩, 8, "S"⟩⟩ ]
      ⟨0, .Def ⟨.STRTAG, ⟨.Struct, []⟩, 8, "S"⟩⟩ ⟨.STRTAG, ⟨.Struct, []⟩, 8, "S"⟩
      (by decide) rfl).1⟩

/-! ## Enum member names (C12) -/

theorem enumExt_refl (p : parser) : enumExt p p :=
  ⟨fun _ h => h, rfl, fun _ E h => ⟨E, [], h, by simp⟩⟩

theorem enumExt_trans {p q r : parser} (h1 : enumExt p q) (h2 : enumExt q r) :
    enumExt p r := by
  refine ⟨fun n h => h2.1 n (h1.1 n h), h2.2.1.trans h1.2.1, ?_⟩
  intro i E hE
  obtain ⟨E2, Y, hE2, hY⟩ := h1.2.2 i E hE
  obtain ⟨E3, Z, hE3, hZ⟩ := h2.2.2 i E2 hE2
  exact ⟨E3, Y ++ Z, hE3, by rw [hZ, hY, List.append_assoc]⟩

theorem enumExt_of_same {p q : parser} (h : enumSame q p) : enumExt p q := by
  refine ⟨fun n hn => ?_, h.2.2, fun i E hE => ⟨E, [], ?_, by simp⟩⟩
  · unfold enumSeen at *
    rw [h.2.1]
    exact hn
  · rw [h.1]
    exact hE

theorem enumSame_refl (p : parser) : enumSame p p :=
  ⟨rfl, rfl, rfl⟩

theorem enumSame_trans {r q p : parser} (h1 : enumSame r q) (h2 : enumSame q p) :
    enumSame r p :=
  ⟨h1.1.trans h2.1, h1.2.1.trans h2.2.1, h1.2.2.trans h2.2.2⟩

theorem enumSeen_of_same {p q : parser} (h : enumSame q p) (name : String) :
    enumSeen q name = enumSeen p name := by
  unfold enumSeen
  rw [h.2.1]

/-- The name the member loop of the enum parser gives a member record whose
sanitized name is `san`, in the state `p`. -/
theorem enum_member_step (t : Nat) (s : sym.Symbol) (body : sym.Def)
    (syms : List sym.Symbol) (n : Nat) (p : parser) (res : Nat × parser)
    (hb : s.Body = .Def body) (hc : body.Class = .MOE)
    (h : parseEnumMembers t (s :: syms) n p = .ok res) :
    ∃ E p1,
      p.enumHeap[t]? = some E
      ∧ parseEnumMembers t syms (n + 1) p1 = .ok res
      ∧ p1.enumHeap[t]? = some { E with Members := E.Members ++
          [⟨s.Value, if enumSeen p (validName body.Name) = true
              then duplicatePrefixUpper ++ validName body.Name else validName body.Name⟩] }
      ∧ enumSeen p1 (if enumSeen p (validName body.Name) = true
              then duplicatePrefixUpper ++ validName body.Name else validName body.Name) = true
      ∧ enumExt p p1
      ∧ ∀ name, name ≠ (if enumSeen p (validName body.Name) = true
              then duplicatePrefixUpper ++ validName body.Name else validName body.Name) →
          enumSeen p1 name = enumSeen p name := by
  simp only [parseEnumMembers, hb, hc, parser.addEnumMember] at h
  have hseen : (p.uniqueEnumMember.lookup (validName body.Name)).getD false
      = enumSeen p (validName body.Name) := rfl
  rw [hseen] at h
  generalize (if enumSeen p (validName body.Name) = true
      then duplicatePrefixUpper ++ validName body.Name else validName body.Name) = nm at h ⊢
  cases hE : p.enumHeap[t]? with
  | none => rw [hE] at h; cases h
  | some E =>
    have hlt : t < p.enumHeap.length := by
      by_contra hcon
      rw [List.getElem?_eq_none (Nat.le_of_not_lt hcon)] at hE
      cases hE
    rw [hE] at h
    simp only [] at h
    refine ⟨E, _, rfl, h, ?_, ?_, ?_, ?_⟩
    · simp [hlt]
    · simp [enumSeen, List.lookup]
    · refine ⟨fun name hn => ?_, rfl, fun r E0 hE0 => ?_⟩
      · exact (getD_lookup_cons name _ _).2 (Or.inr hn)
      · by_cases hrt : t = r
        · subst hrt
          rw [hE] at hE0
          cases hE0
          exact ⟨{ E with Members := E.Members ++ [⟨s.Value, nm⟩] }, [⟨s.Value, nm⟩],
            by simp [hlt], rfl⟩
        · exact ⟨E0, [], by simp [List.getElem?_set_ne hrt, hE0], by simp⟩
    · intro name hne
      have hne2 : (name == nm) = false := by simpa using hne
      simp only [enumSeen, List.lookup, hne2]

theorem not_ok_of_enumTag_struct (t : Nat) (y : sym.Symbol) (rest : List sym.Symbol)
    (n : Nat) (p : parser) (hy : isEnumTag y = true) :
    parseStructMembers t (y :: rest) n p = .error .unsupportedClass := by
  unfold parseStructMembers
  cases hb : y.Body with
  | Def body =>
    cases hc : body.Class <;> simp [isEnumTag, hb, hc] at hy
    simp [hc]
  | _ => simp [isEnumTag, hb] at hy

theorem not_ok_of_enumTag_union (t : Nat) (y : sym.Symbol) (rest : List sym.Symbol)
    (n : Nat) (p : parser) (hy : isEnumTag y = true) :
    parseUnionMembers t (y :: rest) n p = .error .unsupportedClass := by
  unfold parseUnionMembers
  cases hb : y.Body with
  | Def body =>
    cases hc : body.Class <;> simp [isEnumTag, hb, hc] at hy
    simp [hc]
  | _ => simp [isEnumTag, hb] at hy

theorem not_ok_of_enumTag_enum (t : Nat) (y : sym.Symbol) (rest : List sym.Symbol)
    (n : Nat) (p : parser) (hy : isEnumTag y = true) :
    parseEnumMembers t (y :: rest) n p = .error .unsupportedClass := by
  unfold parseEnumMembers
  cases hb : y.Body with
  | Def body =>
    cases hc : body.Class <;> simp [isEnumTag, hb, hc] at hy
    simp [hc]
  | _ => simp [isEnumTag, hb] at hy

theorem addStructField_enumSame (p p1 : parser) (t : Nat) (fd : c.Field)
    (h : p.addStructField t fd = .ok p1) : enumSame p1 p := by
  unfold parser.addStructField at h
  split at h
  · cases h
  · cases h
    exact ⟨rfl, rfl, rfl⟩

theorem addUnionField_enumSame (p p1 : parser) (t : Nat) (fd : c.Field)
    (h : p.addUnionField t fd = .ok p1) : enumSame p1 p := by
  unfold parser.addUnionField at h
  split at h
  · cases h
  · cases h
    exact ⟨rfl, rfl, rfl⟩

theorem parseClassTPDEF_enumSame (p p1 : parser) (t : sym.SymType) (dims : List Nat)
    (tag name : String) (h : parseClassTPDEF p t dims tag name = .ok p1) :
    enumSame p1 p := by
  unfold parseClassTPDEF at h
  split at h
  · cases h
  · cases h
    exact ⟨rfl, rfl, rfl⟩

/-- A struct member loop that returns has stopped before the next enum-tag
record and has left the enum side of the state alone. -/
theorem parseStructMembers_enumSame (t : Nat) :
    ∀ (xs ys : List sym.Symbol) (n : Nat) (p : parser) (m : Nat) (p2 : parser),
      stopsAtEnumTag ys → parseStructMembers t (xs ++ ys) n p = .ok (m, p2) →
      m ≤ n + xs.length ∧ enumSame p2 p := by
  intro xs
  induction xs with
  | nil =>
    intro ys n p m p2 hstop h
    cases ys with
    | nil => simp [parseStructMembers] at h
    | cons y rest =>
      rw [List.nil_append, not_ok_of_enumTag_struct t y rest n p (hstop y rfl)] at h
      cases h
  | cons x xs ih =>
    intro ys n p m p2 hstop h
    rw [List.cons_append] at h
    unfold parseStructMembers at h
    have cont : ∀ (p1 : parser), enumSame p1 p →
        parseStructMembers t (xs ++ ys) (n + 1) p1 = .ok (m, p2) →
        m ≤ n + (x :: xs).length ∧ enumSame p2 p := by
      intro p1 hs1 h1
      obtain ⟨hm, hs⟩ := ih ys (n + 1) p1 m p2 hstop h1
      exact ⟨by simp only [List.length_cons]; omega, enumSame_trans hs hs1⟩
    split at h
    · split at h
      · split at h
        · cases h
        · split at h
          · cases h
          · rename_i p1 hadd
            exact cont p1 (addStructField_enumSame _ _ _ _ hadd) h
      · split at h
        · cases h
        · split at h
          · cases h
          · rename_i p1 hadd
            exact cont p1 (addStructField_enumSame _ _ _ _ hadd) h
      · cases h
    · split at h
      · split at h
        · cases h
        · split at h
          · cases h
          · rename_i p1 hadd
            exact cont p1 (addStructField_enumSame _ _ _ _ hadd) h
      · cases h
        exact ⟨by simp only [List.length_cons]; omega, enumSame_refl _⟩
      · cases h
    · exact cont p (enumSame_refl p) h

/-- A union member loop that returns has stopped before the next enum-tag
record and has left the enum side of the state alone. -/
theorem parseUnionMembers_enumSame (t : Nat) :
    ∀ (xs ys : List sym.Symbol) (n : Nat) (p : parser) (m : Nat) (p2 : parser),
      stopsAtEnumTag ys → parseUnionMembers t (xs ++ ys) n p = .ok (m, p2) →
      m ≤ n + xs.length ∧ enumSame p2 p := by
  intro xs
  induction xs with
  | nil =>
    intro ys n p m p2 hstop h
    cases ys with
    | nil => simp [parseUnionMembers] at h
    | cons y rest =>
      rw [List.nil_append, not_ok_of_enumTag_union t y rest n p (hstop y rfl)] at h
      cases h
  | cons x xs ih =>
    intro ys n p m p2 hstop h
    rw [List.cons_append] at h
    unfold parseUnionMembers at h
    have cont : ∀ (p1 : parser), enumSame p1 p →
        parseUnionMembers t (xs ++ ys) (n + 1) p1 = .ok (m, p2) →
        m ≤ n + (x :: xs).length ∧ enumSame p2 p := by
      intro p1 hs1 h1
      obtain ⟨hm, hs⟩ := ih ys (n + 1) p1 m p2 hstop h1
      exact ⟨by simp only [List.length_cons]; omega, enumSame_trans hs hs1⟩
    split at h
    · split at h
      · split at h
        · cases h
        · split at h
          · cases h
          · rename_i p1 hadd
            exact cont p1 (addUnionField_enumSame _ _ _ _ hadd) h
      · cases h
    · split at h
      · split at h
        · cases h
        · split at h
          · cases h
          · rename_i p1 hadd
            exact cont p1 (addUnionField_enumSame _ _ _ _ hadd) h
      · cases h
        exact ⟨by simp only [List.length_cons]; omega, enumSame_refl _⟩
      · cases h
    · exact cont p (enumSame_refl p) h

theorem ne_assigned_of_not_canBeNamed (name : String) (s : sym.Symbol) (body : sym.Def)
    (b : Bool) (hb : s.Body = .Def body) (hc : body.Class = .MOE)
    (h : canBeNamed name s = false) :
    name ≠ (if b = true then duplicatePrefixUpper ++ validName body.Name
      else validName body.Name) := by
  simp only [canBeNamed, hb, hc, Bool.or_eq_false_iff, beq_eq_false_iff_ne, ne_eq] at h
  intro heq
  cases b with
  | true => exact h.2 (by simpa using heq.symm)
  | false => exact h.1 (by simpa using heq.symm)

/-- An enum member loop that returns has stopped before the next enum-tag
record; the enum side of the state it returns extends the one it started from,
and a name that none of the visited records can be given is marked afterwards
only if it was marked before. -/
theorem parseEnumMembers_ext (t : Nat) :
    ∀ (xs ys : List sym.Symbol) (n : Nat) (p : parser) (m : Nat) (p2 : parser),
      stopsAtEnumTag ys → parseEnumMembers t (xs ++ ys) n p = .ok (m, p2) →
      m ≤ n + xs.length ∧ enumExt p p2
      ∧ ∀ name, (∀ x ∈ xs, canBeNamed name x = false) →
          enumSeen p name = false → enumSeen p2 name = false := by
  intro xs
  induction xs with
  | nil =>
    intro ys n p m p2 hstop h
    cases ys with
    | nil => simp [parseEnumMembers] at h
    | cons y rest =>
      rw [List.nil_append, not_ok_of_enumTag_enum t y rest n p (hstop y rfl)] at h
      cases h
  | cons x xs ih =>
    intro ys n p m p2 hstop h
    rw [List.cons_append] at h
    have cont : ∀ (p1 : parser), enumExt p p1 →
        (∀ name, canBeNamed name x = false → enumSeen p name = false →
          enumSeen p1 name = false) →
        parseEnumMembers t (xs ++ ys) (n + 1) p1 = .ok (m, p2) →
        m ≤ n + (x :: xs).length ∧ enumExt p p2
        ∧ ∀ name, (∀ x2 ∈ x :: xs, canBeNamed name x2 = false) →
            enumSeen p name = false → enumSeen p2 name = false := by
      intro p1 hext hun h1
      obtain ⟨hm, hs, hu⟩ := ih ys (n + 1) p1 m p2 hstop h1
      refine ⟨by simp only [List.length_cons]; omega, enumExt_trans hext hs, ?_⟩
      intro name hall hseen
      exact hu name (fun x2 h2 => hall x2 (List.mem_cons_of_mem _ h2))
        (hun name (hall x (List.mem_cons_self _ _)) hseen)
    cases hb : x.Body with
    | Def body =>
      cases hc : body.Class
      case MOE =>
        obtain ⟨E, p1, _, h1, _, _, hext, hother⟩ :=
          enum_member_step t x body (xs ++ ys) n p (m, p2) hb hc h
        refine cont p1 hext ?_ h1
        intro name hcan hseen
        rw [hother name (ne_assigned_of_not_canBeNamed name x body _ hb hc hcan)]
        exact hseen
      all_goals simp [parseEnumMembers, hb, hc] at h
    | Def2 body =>
      cases hc : body.Class
      case EOS =>
        simp only [parseEnumMembers, hb, hc, Except.ok.injEq, Prod.mk.injEq] at h
        obtain ⟨hm, hp⟩ := h
        subst hm
        subst hp
        exact ⟨by simp only [List.length_cons]; omega, enumExt_refl _, fun _ _ hs => hs⟩
      all_goals simp [parseEnumMembers, hb, hc] at h
    | _ =>
      simp only [parseEnumMembers, hb] at h
      exact cont p (enumExt_refl p) (fun _ _ hs => hs) h

theorem parseClassSTRTAG_enumSame (p : parser) (body : sym.Def) (xs ys : List sym.Symbol)
    (n : Nat) (p1 : parser) (hstop : stopsAtEnumTag ys)
    (h : parseClassSTRTAG p body (xs ++ ys) = .ok (n, p1)) :
    n ≤ xs.length ∧ enumSame p1 p := by
  unfold parseClassSTRTAG at h
  split at h
  · cases h
  · simp only [] at h
    split at h
    · cases h
    · split at h
      · cases h
      · split at h
        · obtain ⟨hn, hs⟩ := parseStructMembers_enumSame _ xs ys 0 _ n p1 hstop h
          exact ⟨by simpa using hn, enumSame_trans hs ⟨rfl, rfl, rfl⟩⟩
        · have := parseStructMembers_enumSame _ xs ys 0 p n p1 hstop h
          simpa using this

theorem parseClassUNTAG_enumSame (p : parser) (body : sym.Def) (xs ys : List sym.Symbol)
    (n : Nat) (p1 : parser) (hstop : stopsAtEnumTag ys)
    (h : parseClassUNTAG p body (xs ++ ys) = .ok (n, p1)) :
    n ≤ xs.length ∧ enumSame p1 p := by
  unfold parseClassUNTAG at h
  split at h
  · cases h
  · simp only [] at h
    split at h
    · cases h
    · have := parseUnionMembers_enumSame _ xs ys 0 p n p1 hstop h
      simpa using this

theorem parseClassENTAG_ext (p : parser) (body : sym.Def) (xs ys : List sym.Symbol)
    (n : Nat) (p1 : parser) (hstop : stopsAtEnumTag ys)
    (h : parseClassENTAG p body (xs ++ ys) = .ok (n, p1)) :
    n ≤ xs.length ∧ enumExt p p1
    ∧ ∀ name, (∀ x ∈ xs, canBeNamed name x = false) →
        enumSeen p name = false → enumSeen p1 name = false := by
  unfold parseClassENTAG at h
  split at h
  · cases h
  · simp only [] at h
    split at h
    · cases h
    · have := parseEnumMembers_ext _ xs ys 0 p n p1 hstop h
      simpa using this

/-- The type pass up to the end of the stream or to the next enum-tag record
that it dispatches itself: it arrives there with no record left to skip, in a
state whose enum side extends the one it started from; a name that none of the
records passed can be given is marked there only if it was marked before. -/
theorem parseTypesLoop_toEnumTag :
    ∀ (xs ys : List sym.Symbol) (skip : Nat) (p pf : parser),
      stopsAtEnumTag ys → skip ≤ xs.length →
      parseTypesLoop (xs ++ ys) skip p = .ok pf →
      ∃ q, enumExt p q
        ∧ (∀ name, (∀ x ∈ xs, canBeNamed name x = false) →
            enumSeen p name = false → enumSeen q name = false)
        ∧ parseTypesLoop ys 0 q = .ok pf := by
  intro xs
  induction xs with
  | nil =>
    intro ys skip p pf _ hskip h
    have h0 : skip = 0 := by simpa using hskip
    subst h0
    exact ⟨p, enumExt_refl p, fun _ _ hs => hs, h⟩
  | cons x xs ih =>
    intro ys skip p pf hstop hskip h
    have cont : ∀ (k : Nat) (p1 : parser), k ≤ xs.length → enumExt p p1 →
        (∀ name, (∀ x2 ∈ x :: xs, canBeNamed name x2 = false) →
          enumSeen p name = false → enumSeen p1 name = false) →
        parseTypesLoop (xs ++ ys) k p1 = .ok pf →
        ∃ q, enumExt p q
          ∧ (∀ name, (∀ x2 ∈ x :: xs, canBeNamed name x2 = false) →
              enumSeen p name = false → enumSeen q name = false)
          ∧ parseTypesLoop ys 0 q = .ok pf := by
      intro k p1 hk hext hun h1
      obtain ⟨q, hq, hu, hrun⟩ := ih ys k p1 pf hstop hk h1
      refine ⟨q, enumExt_trans hext hq, ?_, hrun⟩
      intro name hall hseen
      exact hu name (fun x2 h2 => hall x2 (List.mem_cons_of_mem _ h2)) (hun name hall hseen)
    have same : ∀ (k : Nat) (p1 : parser), k ≤ xs.length → enumSame p1 p →
        parseTypesLoop (xs ++ ys) k p1 = .ok pf →
        ∃ q, enumExt p q
          ∧ (∀ name, (∀ x2 ∈ x :: xs, canBeNamed name x2 = false) →
              enumSeen p name = false → enumSeen q name = false)
          ∧ parseTypesLoop ys 0 q = .ok pf := by
      intro k p1 hk hs h1
      refine cont k p1 hk (enumExt_of_same hs) ?_ h1
      intro name _ hseen
      rw [enumSeen_of_same hs]
      exact hseen
    rw [List.cons_append] at h
    cases skip with
    | succ k =>
      simp only [parseTypesLoop] at h
      exact same k p (by simpa using hskip) (enumSame_refl p) h
    | zero =>
      unfold parseTypesLoop at h
      split at h
      · rename_i body hb
        split at h
        · split at h
          · cases h
          · rename_i n p1 hsub
            obtain ⟨hn, hs1⟩ := parseClassSTRTAG_enumSame p body xs ys n p1 hstop hsub
            exact same n p1 hn hs1 h
        · split at h
          · cases h
          · rename_i n p1 hsub
            obtain ⟨hn, hs1⟩ := parseClassUNTAG_enumSame p body xs ys n p1 hstop hsub
            exact same n p1 hn hs1 h
        · split at h
          · cases h
          · rename_i p1 hsub
            exact same 0 p1 (Nat.zero_le _) (parseClassTPDEF_enumSame _ _ _ _ _ _ hsub) h
        · split at h
          · cases h
          · rename_i n p1 hsub
            obtain ⟨hn, hext, hun⟩ := parseClassENTAG_ext p body xs ys n p1 hstop hsub
            refine cont n p1 hn hext ?_ h
            intro name hall hseen
            exact hun name (fun x2 h2 => hall x2 (List.mem_cons_of_mem _ h2)) hseen
        · exact same 0 p (Nat.zero_le _) (enumSame_refl p) h
      · split at h
        · split at h
          · cases h
          · rename_i p1 hsub
            exact same 0 p1 (Nat.zero_le _) (parseClassTPDEF_enumSame _ _ _ _ _ _ hsub) h
        · exact same 0 p (Nat.zero_le _) (enumSame_refl p) h
      · exact same 0 p (Nat.zero_le _) (enumSame_refl p) h

/-- The member loop of the enum parser over member records: it goes on behind
them, in a state whose enum side extends the one it started from. -/
theorem parseEnumMembers_prefix (t : Nat) :
    ∀ (a ys : List sym.Symbol) (n : Nat) (p : parser) (res : Nat × parser),
      (∀ s ∈ a, isEnumMember s = true) →
      parseEnumMembers t (a ++ ys) n p = .ok res →
      ∃ q, parseEnumMembers t ys (n + a.length) q = .ok res ∧ enumExt p q
        ∧ ∀ name, (∀ x ∈ a, canBeNamed name x = false) →
            enumSeen p name = false → enumSeen q name = false := by
  intro a
  induction a with
  | nil =>
    intro ys n p res _ h
    exact ⟨p, h, enumExt_refl p, fun _ _ hs => hs⟩
  | cons s a ih =>
    intro ys n p res ha h
    have hs : isEnumMember s = true := ha s (List.mem_cons_self _ _)
    have ha2 : ∀ s2 ∈ a, isEnumMember s2 = true :=
      fun s2 h2 => ha s2 (List.mem_cons_of_mem _ h2)
    rw [List.cons_append] at h
    cases hb : s.Body with
    | Def body =>
      cases hc : body.Class <;> simp [isEnumMember, hb, hc] at hs
      obtain ⟨E, p1, _, h1, _, _, hext, hother⟩ :=
        enum_member_step t s body (a ++ ys) n p res hb hc h
      obtain ⟨q, hq, hqext, hun⟩ := ih ys (n + 1) p1 res ha2 h1
      refine ⟨q, ?_, enumExt_trans hext hqext, ?_⟩
      · rw [List.length_cons, ← hq]
        congr 1
        omega
      · intro name hall hseen
        refine hun name (fun x h2 => hall x (List.mem_cons_of_mem _ h2)) ?_
        rw [hother name (ne_assigned_of_not_canBeNamed name s body _ hb hc
          (hall s (List.mem_cons_self _ _)))]
        exact hseen
    | _ => simp [isEnumMember, hb] at hs

/-- An enum member record behind member records in the member loop: it is
appended to the enum object of the loop under its sanitized name when that name
is not marked and none of the records before it can be given it, and under the
prefixed name when the name is marked. -/
theorem parseEnumMembers_member (t : Nat) (cs : List sym.Symbol) (v : Nat) (b : sym.Def)
    (rest : List sym.Symbol) (k : Nat) (q : parser) (res : Nat × parser)
    (hc : ∀ s ∈ cs, isEnumMember s = true) (hb : b.Class = .MOE)
    (h : parseEnumMembers t (cs ++ ⟨v, .Def b⟩ :: rest) k q = .ok res) :
    ∃ (E : c.EnumType) (q2 : parser) (nm : String),
      q2.enumHeap[t]? = some { E with Members := E.Members ++ [⟨v, nm⟩] }
      ∧ (enumSeen q (validName b.Name) = true → nm = duplicatePrefixUpper ++ validName b.Name)
      ∧ ((∀ x ∈ cs, canBeNamed (validName b.Name) x = false) →
          enumSeen q (validName b.Name) = false → nm = validName b.Name)
      ∧ enumSeen q2 nm = true
      ∧ enumExt q q2
      ∧ parseEnumMembers t rest (k + cs.length + 1) q2 = .ok res := by
  obtain ⟨qc, hrun, hext, hun⟩ := parseEnumMembers_prefix t cs _ k q res hc h
  obtain ⟨E, q2, _, h2, hheap, hseen2, hext2, _⟩ :=
    enum_member_step t ⟨v, .Def b⟩ b rest (k + cs.length) qc res rfl hb hrun
  refine ⟨E, q2, _, hheap, ?_, ?_, hseen2, enumExt_trans hext hext2, h2⟩
  · intro hs
    rw [if_pos (hext.1 _ hs)]
  · intro hall hs
    rw [if_neg (by rw [hun _ hall hs]; exact Bool.false_ne_true)]

/-- From a state inside a member loop to the end of the pass: the enum side of
the final state extends the one of that state. -/
theorem enumExt_to_end (t : Nat) (front rest : List sym.Symbol) (k n : Nat)
    (q p1 pf : parser) (hk : k = front.length)
    (h1 : parseEnumMembers t rest k q = .ok (n, p1))
    (h2 : parseTypesLoop (front ++ rest) n p1 = .ok pf) :
    enumExt q pf := by
  have hstop : stopsAtEnumTag [] := fun y hy => by cases hy
  obtain ⟨hn, hext, _⟩ := parseEnumMembers_ext t rest [] k q n p1 hstop
    (by rw [List.append_nil]; exact h1)
  obtain ⟨q3, hext3, _, hrun⟩ := parseTypesLoop_toEnumTag (front ++ rest) [] n p1 pf hstop
    (by rw [List.length_append]; omega) (by rw [List.append_nil]; exact h2)
  simp only [parseTypesLoop, Except.ok.injEq] at hrun
  subst hrun
  exact enumExt_trans hext hext3

/-- An enum-tag record at the head of the type pass: the pass runs the member
loop of the enum bound to its sanitized name and goes on with the state and the
count that loop returns. -/
theorem parseTypesLoop_enumTag (v : Nat) (b : sym.Def) (hb : b.Class = .ENTAG)
    (syms : List sym.Symbol) (q pf : parser)
    (h : parseTypesLoop (⟨v, .Def b⟩ :: syms) 0 q = .ok pf) :
    ∃ t n p1, q.enums.lookup (validName b.Name) = some t
      ∧ parseEnumMembers t syms 0 q = .ok (n, p1)
      ∧ parseTypesLoop syms n p1 = .ok pf := by
  simp only [parseTypesLoop, hb] at h
  split at h
  · cases h
  · rename_i n p1 hsub
    unfold parseClassENTAG at hsub
    split at hsub
    · cases hsub
    · simp only [] at hsub
      split at hsub
      · cases hsub
      · rename_i t ht
        exact ⟨t, n, p1, ht, hsub, h⟩

theorem initTaggedTypesLoop_uniqueEnumMember :
    ∀ (syms : List sym.Symbol) (u : uniqueTags) (p : parser),
      (initTaggedTypesLoop syms u p).uniqueEnumMember = p.uniqueEnumMember := by
  intro syms
  induction syms with
  | nil => intro u p; rfl
  | cons s syms ih =>
    intro u p
    cases hb : s.Body with
    | Def body =>
      cases hc : body.Class <;> simp only [initTaggedTypesLoop, hb, hc] <;> exact ih _ _
    | _ =>
      simp only [initTaggedTypesLoop, hb]
      exact ih _ _

theorem enumSeen_initTaggedTypes (syms : List sym.Symbol) (name : String) :
    enumSeen (initTaggedTypes newParser syms) name = false := by
  unfold enumSeen initTaggedTypes
  simp only []
  rw [initTaggedTypesLoop_uniqueEnumMember]
  rfl

theorem member_of_enumExt {q pf : parser} (hext : enumExt q pf) (t : Nat) (E : c.EnumType)
    (m : c.EnumMember)
    (h : q.enumHeap[t]? = some { E with Members := E.Members ++ [m] }) :
    ∃ E2, pf.enumHeap[t]? = some E2 ∧ m ∈ E2.Members := by
  obtain ⟨E2, Y, hE2, hY⟩ := hext.2.2 t _ h
  refine ⟨E2, hE2, ?_⟩
  rw [hY]
  simp

/-- C12: two enum member records of the same sanitized name N in one type pass
of a fresh parser that completes, the second in the member range of the same
enum-tag record as the first or in the member range of a later enum-tag record,
where no enum member record before the first can be named N. In the final state
the enum of the first record has the member (N, v1) and the enum of the second
record has the member (_DUPLICATE_ + N, v2). -/
theorem C12_enum_member_collision (pre a w rest : List sym.Symbol) (vt1 v1 v2 : Nat)
    (bt1 bt2 b1 b2 : sym.Def) (pf : parser)
    (hbt1 : bt1.Class = .ENTAG) (hb1 : b1.Class = .MOE) (hb2 : b2.Class = .MOE)
    (hname : validName b2.Name = validName b1.Name)
    (ha : ∀ s ∈ a, isEnumMember s = true)
    (hw : (bt2 = bt1 ∧ ∀ s ∈ w, isEnumMember s = true)
      ∨ ∃ mid vt2 cs, w = mid ++ ⟨vt2, .Def bt2⟩ :: cs ∧ bt2.Class = .ENTAG
          ∧ ∀ s ∈ cs, isEnumMember s = true)
    (hpre : ∀ x ∈ pre, canBeNamed (validName b1.Name) x = false)
    (hna : ∀ x ∈ a, canBeNamed (validName b1.Name) x = false)
    (hrun : parseTypes newParser
      (pre ++ ⟨vt1, .Def bt1⟩ :: (a ++ ⟨v1, .Def b1⟩ :: (w ++ ⟨v2, .Def b2⟩ :: rest)))
        = .ok pf) :
    ∃ t1 t2 E1 E2,
      pf.enums.lookup (validName bt1.Name) = some t1
      ∧ pf.enums.lookup (validName bt2.Name) = some t2
      ∧ pf.enumHeap[t1]? = some E1 ∧ pf.enumHeap[t2]? = some E2
      ∧ (⟨v1, validName b1.Name⟩ : c.EnumMember) ∈ E1.Members
      ∧ (⟨v2, duplicatePrefixUpper ++ validName b1.Name⟩ : c.EnumMember) ∈ E2.Members := by
  unfold parseTypes at hrun
  have hP0 := enumSeen_initTaggedTypes
    (pre ++ ⟨vt1, .Def bt1⟩ :: (a ++ ⟨v1, .Def b1⟩ :: (w ++ ⟨v2, .Def b2⟩ :: rest)))
    (validName b1.Name)
  generalize initTaggedTypes newParser
    (pre ++ ⟨vt1, .Def bt1⟩ :: (a ++ ⟨v1, .Def b1⟩ :: (w ++ ⟨v2, .Def b2⟩ :: rest)))
      = P0 at hrun hP0
  -- up to the first enum-tag record
  obtain ⟨q0, hext0, hun0, hrun0⟩ := parseTypesLoop_toEnumTag pre _ 0 P0 pf
    (by intro y hy; cases hy; simp [isEnumTag, hbt1]) (Nat.zero_le _) hrun
  have hq0 : enumSeen q0 (validName b1.Name) = false := hun0 _ hpre hP0
  obtain ⟨t1, n1, p1, hl1, hloop1, hcont1⟩ := parseTypesLoop_enumTag vt1 bt1 hbt1 _ q0 pf hrun0
  -- the first member record
  obtain ⟨E1, q1, nm1, hheap1, _, hnm1, hseen1, hext1, hloop1⟩ :=
    parseEnumMembers_member t1 a v1 b1 _ 0 q0 (n1, p1) ha hb1 hloop1
  have hnm1eq := hnm1 hna hq0
  subst hnm1eq
  rcases hw with ⟨hsame, hwm⟩ | ⟨mid, vt2, cs, hwshape, hbt2, hcs⟩
  · -- the second member record in the same member range
    subst hsame
    obtain ⟨E2, q2, nm2, hheap2, hnm2, _, _, hext2, hloop2⟩ :=
      parseEnumMembers_member t1 w v2 b2 rest _ q1 (n1, p1) hwm hb2 hloop1
    have hnm2eq := hnm2 (by rw [hname]; exact hseen1)
    rw [hname] at hnm2eq
    subst hnm2eq
    have hend : enumExt q2 pf := by
      refine enumExt_to_end t1 (a ++ ⟨v1, .Def b1⟩ :: (w ++ [⟨v2, .Def b2⟩])) rest _ n1 q2 p1 pf
        ?_ hloop2 ?_
      · simp only [List.length_append, List.length_cons, List.length_nil]
        omega
      · simpa using hcont1
    obtain ⟨F1, hF1, hm1⟩ := member_of_enumExt (enumExt_trans hext2 hend) t1 E1 _ hheap1
    obtain ⟨F2, hF2, hm2⟩ := member_of_enumExt hend t1 E2 _ hheap2
    have henums : pf.enums = q0.enums :=
      (enumExt_trans hext1 (enumExt_trans hext2 hend)).2.1
    exact ⟨t1, t1, F1, F2, by rw [henums]; exact hl1, by rw [henums]; exact hl1, hF1, hF2,
      hm1, hm2⟩
  · -- the second member record in the member range of a later enum-tag record
    subst hwshape
    have hstop2 : stopsAtEnumTag
        ((⟨vt2, .Def bt2⟩ : sym.Symbol) :: (cs ++ ⟨v2, .Def b2⟩ :: rest)) := by
      intro y hy
      cases hy
      simp [isEnumTag, hbt2]
    have hloop1b : parseEnumMembers t1
        (mid ++ (⟨vt2, .Def bt2⟩ : sym.Symbol) :: (cs ++ ⟨v2, .Def b2⟩ :: rest))
        (0 + a.length + 1) q1 = .ok (n1, p1) := by
      simpa using hloop1
    obtain ⟨hn1, hextm, _⟩ := parseEnumMembers_ext t1 mid _ _ q1 n1 p1 hstop2 hloop1b
    obtain ⟨q3, hext3, _, hrun3⟩ := parseTypesLoop_toEnumTag
      (a ++ ⟨v1, .Def b1⟩ :: mid) _ n1 p1 pf hstop2
      (by simp only [List.length_append, List.length_cons]; omega)
      (by simpa using hcont1)
    obtain ⟨t2, n2, p2, hl2, hloop2, hcont2⟩ :=
      parseTypesLoop_enumTag vt2 bt2 hbt2 _ q3 pf hrun3
    obtain ⟨E2, q2, nm2, hheap2, hnm2, _, _, hext2, hloop2⟩ :=
      parseEnumMembers_member t2 cs v2 b2 rest 0 q3 (n2, p2) hcs hb2 hloop2
    have hseen3 : enumSeen q3 (validName b1.Name) = true :=
      (enumExt_trans hextm hext3).1 _ hseen1
    have hnm2eq := hnm2 (by rw [hname]; exact hseen3)
    rw [hname] at hnm2eq
    subst hnm2eq
    have hend : enumExt q2 pf := by
      refine enumExt_to_end t2 (cs ++ [⟨v2, .Def b2⟩]) rest _ n2 q2 p2 pf ?_ hloop2 ?_
      · simp only [List.length_append, List.length_cons, List.length_nil]
        omega
      · simpa using hcont2
    have hfrom1 : enumExt q1 pf :=
      enumExt_trans hextm (enumExt_trans hext3 (enumExt_trans hext2 hend))
    obtain ⟨F1, hF1, hm1⟩ := member_of_enumExt hfrom1 t1 E1 _ hheap1
    obtain ⟨F2, hF2, hm2⟩ := member_of_enumExt hend t2 E2 _ hheap2
    have henums1 : pf.enums = q0.enums := (enumExt_trans hext1 hfrom1).2.1
    have henums2 : pf.enums = q3.enums := (enumExt_trans hext2 hend).2.1
    exact ⟨t1, t2, F1, F2, by rw [henums1]; exact hl1, by rw [henums2]; exact hl2, hF1, hF2,
      hm1, hm2⟩

/-- C12 (witness): enum Color with the members RED and GREEN, then enum Light
with the members RED and GREEN; the second GREEN is stored as _DUPLICATE_GREEN. -/
theorem C12_enum_member_collision_witness :
    ∃ pf, parseTypes newParser
        ([⟨0, .Def ⟨.TPDEF, ⟨.Int, []⟩, 4, "word"⟩⟩]
          ++ ⟨0, .Def ⟨.ENTAG, ⟨.Enum, []⟩, 4, "Color"⟩⟩
          :: ([⟨0, .Def ⟨.MOE, ⟨.Int, []⟩, 4, "RED"⟩⟩]
          ++ ⟨1, .Def ⟨.MOE, ⟨.Int, []⟩, 4, "GREEN"⟩⟩
          :: (([⟨0, .Def2 ⟨.EOS, ⟨.Null, []⟩, 4, [], "", ".eos"⟩⟩]
                ++ ⟨0, .Def ⟨.ENTAG, ⟨.Enum, []⟩, 4, "Light"⟩⟩
                :: [⟨5, .Def ⟨.MOE, ⟨.Int, []⟩, 4, "RED"⟩⟩])
          ++ ⟨7, .Def ⟨.MOE, ⟨.Int, []⟩, 4, "GREEN"⟩⟩
          :: [⟨0, .Def2 ⟨.EOS, ⟨.Null, []⟩, 4, [], "", ".eos"⟩⟩]))) = .ok pf
      ∧ ∃ t1 t2 E1 E2,
        pf.enums.lookup (validName "Color") = some t1
        ∧ pf.enums.lookup (validName "Light") = some t2
        ∧ pf.enumHeap[t1]? = some E1 ∧ pf.enumHeap[t2]? = some E2
        ∧ (⟨1, validName "GREEN"⟩ : c.EnumMember) ∈ E1.Members
        ∧ (⟨7, duplicatePrefixUpper ++ validName "GREEN"⟩ : c.EnumMember) ∈ E2.Members :=
  ⟨_, rfl,
    C12_enum_member_collision
      [⟨0, .Def ⟨.TPDEF, ⟨.Int, []⟩, 4, "word"⟩⟩]
      [⟨0, .Def ⟨.MOE, ⟨.Int, []⟩, 4, "RED"⟩⟩]
      (([⟨0, .Def2 ⟨.EOS, ⟨.Null, []⟩, 4, [], "", ".eos"⟩⟩] : List sym.Symbol)
        ++ ⟨0, .Def ⟨.ENTAG, ⟨.Enum, []⟩, 4, "Light"⟩⟩
        :: [⟨5, .Def ⟨.MOE, ⟨.Int, []⟩, 4, "RED"⟩⟩])
      [⟨0, .Def2 ⟨.EOS, ⟨.Null, []⟩, 4, [], "", ".eos"⟩⟩]
      0 1 7
      ⟨.ENTAG, ⟨.Enum, []⟩, 4, "Color"⟩ ⟨.ENTAG, ⟨.Enum, []⟩, 4, "Light"⟩
      ⟨.MOE, ⟨.Int, []⟩, 4, "GREEN"⟩ ⟨.MOE, ⟨.Int, []⟩, 4, "GREEN"⟩ _
      rfl rfl rfl rfl (by decide)
      (Or.inr ⟨[⟨0, .Def2 ⟨.EOS, ⟨.Null, []⟩, 4, [], "", ".eos"⟩⟩], 0,
        [⟨5, .Def ⟨.MOE, ⟨.Int, []⟩, 4, "RED"⟩⟩], rfl, rfl, by decide⟩)
      (by decide) (by decide) (by rfl)⟩

/-! ## Type resolver: array modifiers and dimensions (C21) -/

theorem applyModsReference_isNone :
    ∀ (ms : List sym.Mod) (t : c.CType) (ds : List Nat),
      ds.length < ms.count .Array → applyModsReference ms t ds = none := by
  intro ms
  induction ms with
  | nil => intro t ds h; simp at h
  | cons m ms ih =>
    intro t ds h
    cases m with
    | Pointer =>
      simp only [applyModsReference]
      exact ih _ _ (by simpa using h)
    | Function =>
      simp only [applyModsReference]
      exact ih _ _ (by simpa using h)
    | Array =>
      cases ds with
      | nil => rfl
      | cons d ds =>
        simp only [applyModsReference]
        exact ih _ _ (by simpa using h)

theorem parseMods_ok_of_le (t : c.CType) (mods : List sym.Mod) (dims : List Nat)
    (h : mods.count .Array ≤ dims.length) : ∃ r, parseMods t mods dims = .ok r := by
  obtain ⟨r, hr⟩ := applyModsReference_isSome mods.reverse t dims (by simpa using h)
  refine ⟨r, ?_⟩
  rw [parseMods_eq_ofReference]
  unfold parseModsReference
  rw [hr]
  rfl

theorem parseMods_error_of_lt (t : c.CType) (mods : List sym.Mod) (dims : List Nat)
    (h : dims.length < mods.count .Array) :
    parseMods t mods dims = .error .indexOutOfRange := by
  rw [parseMods_eq_ofReference]
  unfold parseModsReference
  rw [applyModsReference_isNone mods.reverse t dims (by simpa using h)]
  rfl

theorem parseType_error_of_array (p : parser) (ty : sym.SymType) (tag : String)
    (h : sym.Mod.Array ∈ ty.Mods) : ∃ e, parseType p ty [] tag = .error e := by
  unfold parseType
  cases parseBase p ty.Base tag with
  | error e => exact ⟨e, rfl⟩
  | ok u =>
    exact ⟨_, parseMods_error_of_lt u ty.Mods [] (List.count_pos_iff.2 h)⟩

/-- C21: parseMods fails if and only if the modifier list has more array
modifiers than dims has entries, and then with an index out of range; otherwise
it returns a type. With no dimensions it fails exactly when the list has an
array modifier, so the type resolution of a short-form definition record whose
type carries an array modifier fails, in parseDef, in parseClassTPDEF, for a
struct or union member and for a function local; a type without array
modifiers resolves whenever its base does. -/
theorem C21_parseMods_fails_iff (t : c.CType) (mods : List sym.Mod) (dims : List Nat) :
    ((∃ e, parseMods t mods dims = .error e) ↔ dims.length < mods.count .Array)
    ∧ (dims.length < mods.count .Array → parseMods t mods dims = .error .indexOutOfRange)
    ∧ (mods.count .Array ≤ dims.length → ∃ r, parseMods t mods dims = .ok r)
    ∧ ((∃ e, parseMods t mods [] = .error e) ↔ sym.Mod.Array ∈ mods)
    ∧ (∀ (p : parser) (ty : sym.SymType) (tag : String), sym.Mod.Array ∈ ty.Mods →
        (∃ e, parseType p ty [] tag = .error e)
        ∧ (∀ (addr size : Nat) (cls : sym.Class) (name : String),
            ∃ e, parseDef p addr size cls ty [] tag name = .error e)
        ∧ (∀ name : String, ∃ e, parseClassTPDEF p ty [] tag name = .error e))
    ∧ (∀ (p : parser) (v : Nat) (body : sym.Def) (syms : List sym.Symbol) (n r : Nat)
          (st : funcState), sym.Mod.Array ∈ body.Typ.Mods →
        (∃ e, parseStructMembers r (⟨v, .Def body⟩ :: syms) n p = .error e)
        ∧ (∃ e, parseUnionMembers r (⟨v, .Def body⟩ :: syms) n p = .error e)
        ∧ (∃ e, parseFuncBody p (⟨v, .Def body⟩ :: syms) n st = .error e))
    ∧ (∀ (p : parser) (ty : sym.SymType) (tag : String) (u : c.CType),
        sym.Mod.Array ∉ ty.Mods → parseBase p ty.Base tag = .ok u →
          ∃ r, parseType p ty [] tag = .ok r) := by
  have hiff : ∀ ds : List Nat,
      (∃ e, parseMods t mods ds = .error e) ↔ ds.length < mods.count .Array := by
    intro ds
    constructor
    · intro ⟨e, he⟩
      by_contra hn
      obtain ⟨r, hr⟩ := parseMods_ok_of_le t mods ds (Nat.le_of_not_lt hn)
      rw [hr] at he
      cases he
    · intro h
      exact ⟨_, parseMods_error_of_lt t mods ds h⟩
  refine ⟨hiff dims, parseMods_error_of_lt t mods dims, parseMods_ok_of_le t mods dims,
    (hiff []).trans List.count_pos_iff, ?_, ?_, ?_⟩
  · intro p ty tag h
    obtain ⟨e, he⟩ := parseType_error_of_array p ty tag h
    refine ⟨⟨e, he⟩, ?_, ?_⟩
    · intro addr size cls name
      unfold parseDef
      cases p.cur with
      | none => exact ⟨_, rfl⟩
      | some o =>
        simp only []
        cases parseClass cls with
        | error e2 => exact ⟨_, rfl⟩
        | ok sc =>
          simp only [he]
          exact ⟨_, rfl⟩
    · intro name
      unfold parseClassTPDEF
      simp only [he]
      exact ⟨_, rfl⟩
  · intro p v body syms n r st h
    obtain ⟨e, he⟩ := parseType_error_of_array p body.Typ "" h
    refine ⟨?_, ?_, ?_⟩
    · cases hc : body.Class <;> simp only [parseStructMembers, hc, he] <;> exact ⟨_, rfl⟩
    · cases hc : body.Class <;> simp only [parseUnionMembers, hc, he] <;> exact ⟨_, rfl⟩
    · simp only [parseFuncBody, he]
      split <;> exact ⟨_, rfl⟩
  · intro p ty tag u h hu
    unfold parseType
    rw [hu]
    exact parseMods_ok_of_le u ty.Mods [] (by
      rw [List.count_eq_zero.2 h]
      exact Nat.le_refl _)

/-- C21 (instances): an array of int with no dimension fails with an index out
of range and the same modifier with one dimension resolves; a pointer to a
function returning int resolves with no dimensions. -/
theorem C21_parseMods_fails_iff_witness :
    parseMods .Int [.Array] [] = .error .indexOutOfRange
    ∧ (∃ r, parseMods .Int [.Array] [3] = .ok r)
    ∧ (∃ r, parseType newParser ⟨.Int, [.Pointer, .Function]⟩ [] "" = .ok r) :=
  ⟨(C21_parseMods_fails_iff .Int [.Array] []).2.1 (by decide),
   (C21_parseMods_fails_iff .Int [.Array] [3]).2.2.1 (by decide),
   (C21_parseMods_fails_iff .Int [] []).2.2.2.2.2.2 newParser ⟨.Int, [.Pointer, .Function]⟩ ""
     .Int (by decide) rfl⟩

/-! ## Duplicate struct tags among other struct-tag records (C5) -/

theorem duplicatePrefix_append_cancel (a b : String)
    (h : duplicatePrefix ++ a = duplicatePrefix ++ b) : a = b := by
  have h2 := congrArg String.data h
  simp only [String.data_append] at h2
  exact String.ext (List.append_cancel_left h2)

theorem structFrame_refl (T D : String) (p : parser) : structFrame T D p p :=
  ⟨fun _ st h => ⟨st, h, rfl, fun _ => rfl⟩, rfl, rfl, rfl, rfl⟩

theorem structFrame_trans {T D : String} {p q r : parser} (h1 : structFrame T D p q)
    (h2 : structFrame T D q r) : structFrame T D p r := by
  refine ⟨?_, h2.2.1.trans h1.2.1, h2.2.2.1.trans h1.2.2.1, h2.2.2.2.1.trans h1.2.2.2.1,
    h2.2.2.2.2.trans h1.2.2.2.2⟩
  intro i st hst
  obtain ⟨st2, hq, ht2, hp2⟩ := h1.1 i st hst
  obtain ⟨st3, hr, ht3, hp3⟩ := h2.1 i st2 hq
  refine ⟨st3, hr, ht3.trans ht2, ?_⟩
  intro hprot
  rw [hp3 (by rw [ht2]; exact hprot), hp2 hprot]

theorem structFrame_of_same {T D : String} {p q : parser} (h : sameStructs q p) :
    structFrame T D p q := by
  refine ⟨?_, by rw [h.1], by rw [h.1], h.2.2.1, h.2.2.2⟩
  intro i st hst
  exact ⟨st, by rw [h.2.1]; exact hst, rfl, fun _ => rfl⟩

theorem structsTagged_of_same {p q : parser} (h : sameStructs q p) (hp : structsTagged p) :
    structsTagged q := by
  intro k r hl
  rw [h.1] at hl
  rw [h.2.1]
  exact hp k r hl

theorem addStructField_frame (T D : String) (p p1 : parser) (t : Nat) (fd : c.Field)
    (ho : otherObject T D p t) (hp : structsTagged p)
    (h : p.addStructField t fd = .ok p1) :
    structFrame T D p p1 ∧ structsTagged p1 ∧ otherObject T D p1 t
      ∧ p1.structs = p.structs := by
  unfold parser.addStructField at h
  cases hst : p.structHeap[t]? with
  | none => rw [hst] at h; cases h
  | some st =>
    rw [hst] at h
    simp only [Except.ok.injEq] at h
    subst h
    have hlt : t < p.structHeap.length := by
      by_contra hcon
      rw [List.getElem?_eq_none (Nat.le_of_not_lt hcon)] at hst
      cases hst
    have hobj : ∀ (i : Nat) (st0 : c.StructType), p.structHeap[i]? = some st0 →
        ∃ st2 : c.StructType,
          (p.structHeap.set t { st with Fields := st.Fields ++ [fd] })[i]? = some st2
          ∧ st2.Tag = st0.Tag ∧ ((st0.Tag = T ∨ st0.Tag = D) → st2 = st0) := by
      intro i st0 hi
      by_cases hti : t = i
      · subst hti
        rw [hst] at hi
        cases hi
        refine ⟨_, List.getElem?_set_self hlt, rfl, ?_⟩
        intro hprot
        obtain ⟨g1, g2⟩ := ho st hst
        rcases hprot with hprot | hprot
        · exact absurd hprot g1
        · exact absurd hprot g2
      · exact ⟨st0, by rw [List.getElem?_set_ne hti]; exact hi, rfl, fun _ => rfl⟩
    refine ⟨⟨hobj, rfl, rfl, rfl, rfl⟩, ?_, ?_, rfl⟩
    · intro k r hl
      obtain ⟨st0, h0, ht0⟩ := hp k r hl
      obtain ⟨st2, h2, ht2, _⟩ := hobj r st0 h0
      exact ⟨st2, h2, ht2.trans ht0⟩
    · intro st2 h2
      simp only [List.getElem?_set_self hlt, Option.some.injEq] at h2
      subst h2
      exact ho st hst

theorem newStruct_frame (T D : String) (p : parser) (tag : String) (size : Nat)
    (h1 : tag ≠ T) (h2 : tag ≠ D) (hp : structsTagged p) :
    structFrame T D p (p.newStruct tag size) ∧ structsTagged (p.newStruct tag size)
      ∧ otherObject T D (p.newStruct tag size) p.structHeap.length := by
  have hold : ∀ (i : Nat) (st0 : c.StructType), p.structHeap[i]? = some st0 →
      (p.newStruct tag size).structHeap[i]? = some st0 := by
    intro i st0 hi
    have hlt : i < p.structHeap.length := by
      by_contra hcon
      rw [List.getElem?_eq_none (Nat.le_of_not_lt hcon)] at hi
      cases hi
    simp only [parser.newStruct]
    rw [List.getElem?_append_left hlt]
    exact hi
  have hnew : (p.newStruct tag size).structHeap[p.structHeap.length]?
      = some ⟨size, tag, []⟩ := by
    simp [parser.newStruct]
  have hk1 : (T == tag) = false := by simpa using fun h => h1 h.symm
  have hk2 : (D == tag) = false := by simpa using fun h => h2 h.symm
  refine ⟨⟨fun i st0 hi => ⟨st0, hold i st0 hi, rfl, fun _ => rfl⟩, ?_, ?_, rfl, rfl⟩, ?_, ?_⟩
  · simp [parser.newStruct, List.lookup, hk1]
  · simp [parser.newStruct, List.lookup, hk2]
  · intro k r hl
    by_cases hk : k = tag
    · subst hk
      simp [parser.newStruct, List.lookup] at hl
      subst hl
      exact ⟨_, hnew, rfl⟩
    · have hne : (k == tag) = false := by simpa using hk
      simp only [parser.newStruct, List.lookup, hne] at hl
      obtain ⟨st0, h0, ht0⟩ := hp k r hl
      exact ⟨st0, hold r st0 h0, ht0⟩
  · intro st hst
    rw [hnew] at hst
    cases hst
    exact ⟨h1, h2⟩

theorem boundHasFields_of_frame {T D : String} {p q : parser} (hp : structsTagged p)
    (hf : structFrame T D p q) (h : boundHasFields D p) : boundHasFields D q := by
  intro t st hl hst
  rw [hf.2.2.1] at hl
  obtain ⟨st0, hst0, htag⟩ := hp D t hl
  obtain ⟨st2, g1, _, g3⟩ := hf.1 t st0 hst0
  rw [g3 (Or.inr htag), hst] at g1
  cases g1
  exact h t st hl hst0

theorem not_ok_of_structTag_struct (t : Nat) (y : sym.Symbol) (rest : List sym.Symbol)
    (n : Nat) (p : parser) (hy : isStructTag y = true) :
    parseStructMembers t (y :: rest) n p = .error .unsupportedClass := by
  unfold parseStructMembers
  cases hb : y.Body with
  | Def body =>
    cases hc : body.Class <;> simp [isStructTag, hb, hc] at hy
    simp [hc]
  | _ => simp [isStructTag, hb] at hy

/-- A struct member loop on a struct object tagged neither `T` nor `D`: when it
returns it has stopped before the next struct-tag record and has kept the
frame. -/
theorem parseStructMembers_frame (T D : String) (t : Nat) :
    ∀ (xs ys : List sym.Symbol) (n : Nat) (p : parser) (m : Nat) (p2 : parser),
      stopsAtStructTag ys → otherObject T D p t → structsTagged p →
      parseStructMembers t (xs ++ ys) n p = .ok (m, p2) →
      m ≤ n + xs.length ∧ structFrame T D p p2 ∧ structsTagged p2
        ∧ p2.structs = p.structs := by
  intro xs
  induction xs with
  | nil =>
    intro ys n p m p2 hstop _ _ h
    cases ys with
    | nil => simp [parseStructMembers] at h
    | cons y rest =>
      rw [List.nil_append, not_ok_of_structTag_struct t y rest n p (hstop y rfl)] at h
      cases h
  | cons x xs ih =>
    intro ys n p m p2 hstop ho hp h
    rw [List.cons_append] at h
    unfold parseStructMembers at h
    have cont : ∀ (p1 : parser), structFrame T D p p1 → structsTagged p1 → otherObject T D p1 t →
        p1.structs = p.structs →
        parseStructMembers t (xs ++ ys) (n + 1) p1 = .ok (m, p2) →
        m ≤ n + (x :: xs).length ∧ structFrame T D p p2 ∧ structsTagged p2
          ∧ p2.structs = p.structs := by
      intro p1 hf1 hp1 ho1 hs1 h1
      obtain ⟨hm, hf, hp2, hs2⟩ := ih ys (n + 1) p1 m p2 hstop ho1 hp1 h1
      exact ⟨by simp only [List.length_cons]; omega, structFrame_trans hf1 hf, hp2,
        hs2.trans hs1⟩
    have field : ∀ (r : Except Panic c.CType) (fd : c.CType → c.Field),
        (match r with
          | .error e2 => (.error e2 : Except Panic (Nat × parser))
          | .ok ty =>
            match p.addStructField t (fd ty) with
            | .error e2 => .error e2
            | .ok p1 => parseStructMembers t (xs ++ ys) (n + 1) p1) = .ok (m, p2) →
        m ≤ n + (x :: xs).length ∧ structFrame T D p p2 ∧ structsTagged p2
          ∧ p2.structs = p.structs := by
      intro r fd hr
      cases r with
      | error e => cases hr
      | ok ty =>
        simp only [] at hr
        cases hadd : p.addStructField t (fd ty) with
        | error e => rw [hadd] at hr; cases hr
        | ok p1 =>
          rw [hadd] at hr
          obtain ⟨hf1, hp1, ho1, hs1⟩ := addStructField_frame T D p p1 t _ ho hp hadd
          exact cont p1 hf1 hp1 ho1 hs1 hr
    revert h
    cases hb : x.Body with
    | Def body =>
      cases hc : body.Class <;> simp only [hc]
      case MOS => exact field _ (fun ty => ⟨x.Value, body.Size, .mk ty (validName body.Name)⟩)
      case FIELD => exact field _ (fun ty => ⟨x.Value, body.Size, .mk ty (validName body.Name)⟩)
      all_goals intro h; cases h
    | Def2 body =>
      cases hc : body.Class <;> simp only [hc]
      case MOS => exact field _ (fun ty => ⟨x.Value, body.Size, .mk ty (validName body.Name)⟩)
      case EOS =>
        intro h
        cases h
        exact ⟨by simp only [List.length_cons]; omega, structFrame_refl T D _, hp, rfl⟩
      all_goals intro h; cases h
    | _ => exact fun h => cont p (structFrame_refl T D p) hp ho rfl h

/-- The struct parser on a struct-tag record whose tag is not `T`, whose
prefixed tag is neither `T` nor `D`, and whose tag is `D` only if the struct
bound to `D` has a field: when it returns it has stopped before the next
struct-tag record and has kept the frame. -/
theorem parseClassSTRTAG_frame (T D : String) (p : parser) (body : sym.Def)
    (xs ys : List sym.Symbol) (n : Nat) (p1 : parser)
    (h1 : validName body.Name ≠ T) (h2 : validName body.Name = D → boundHasFields D p)
    (h3 : duplicatePrefix ++ validName body.Name ≠ T)
    (h4 : duplicatePrefix ++ validName body.Name ≠ D)
    (hstop : stopsAtStructTag ys) (hp : structsTagged p)
    (h : parseClassSTRTAG p body (xs ++ ys) = .ok (n, p1)) :
    n ≤ xs.length ∧ structFrame T D p p1 ∧ structsTagged p1
      ∧ ∃ extra : List (String × Nat), p1.structs = extra ++ p.structs
          ∧ ∀ e ∈ extra, e.1 = duplicatePrefix ++ validName body.Name := by
  unfold parseClassSTRTAG at h
  split at h
  · cases h
  · simp only [] at h
    split at h
    · cases h
    · rename_i t hl
      split at h
      · cases h
      · rename_i st hst
        obtain ⟨st0, hst0, htag⟩ := hp _ _ hl
        rw [hst] at hst0
        cases hst0
        split at h
        · obtain ⟨hf0, hp0, ho0⟩ := newStruct_frame T D p
            (duplicatePrefix ++ validName body.Name) body.Size h3 h4 hp
          obtain ⟨hn, hf, hp2, hs2⟩ :=
            parseStructMembers_frame T D _ xs ys 0 _ n p1 hstop ho0 hp0 h
          refine ⟨by simpa using hn, structFrame_trans hf0 hf, hp2,
            [(duplicatePrefix ++ validName body.Name, p.structHeap.length)], ?_, ?_⟩
          · rw [hs2]
            rfl
          · intro e he
            rw [List.mem_singleton.1 he]
        · rename_i hempty
          have ho : otherObject T D p t := by
            intro st2 hst2
            rw [hst] at hst2
            cases hst2
            rw [htag]
            refine ⟨h1, ?_⟩
            intro hD
            have hfull := h2 hD t st (by rw [← hD]; exact hl) hst
            exact hempty hfull
          obtain ⟨hn, hf, hp2, hs2⟩ :=
            parseStructMembers_frame T D t xs ys 0 p n p1 hstop ho hp h
          exact ⟨by simpa using hn, hf, hp2, [], by rw [hs2]; rfl, fun e he => by cases he⟩

/-- The type pass over records whose struct-tag records have a tag that is not
`T`, whose prefixed tag is neither `T` nor `D`, and that is `D` only if the
struct bound to `D` has a field, up to the end of the stream or to the next
struct-tag record that it dispatches itself: it arrives there with no record
left to skip and has kept the frame. -/
theorem parseTypesLoop_foreign (T D : String)
    (hTD : ∀ a : String, a ≠ T → duplicatePrefix ++ a ≠ T → duplicatePrefix ++ a ≠ D) :
    ∀ (xs : List sym.Symbol), (∀ x ∈ xs, foreignTag T x = true) →
    ∀ (ys : List sym.Symbol) (skip : Nat) (p pf : parser),
      stopsAtStructTag ys → skip ≤ xs.length → structsTagged p →
      ((∃ x ∈ xs, hasStructTag D x = true) → boundHasFields D p) →
      parseTypesLoop (xs ++ ys) skip p = .ok pf →
      ∃ q extra, structFrame T D p q ∧ structsTagged q
        ∧ q.structs = extra ++ p.structs ∧ duplicateKeys xs extra
        ∧ parseTypesLoop ys 0 q = .ok pf := by
  intro xs
  induction xs with
  | nil =>
    intro _ ys skip p pf _ hskip hp _ h
    have h0 : skip = 0 := by simpa using hskip
    subst h0
    exact ⟨p, [], structFrame_refl T D p, hp, rfl, (fun e he => by cases he), h⟩
  | cons x xs ih =>
    intro hxs ys skip p pf hstop hskip hp hfull h
    have hx : foreignTag T x = true := hxs x (List.mem_cons_self _ _)
    have hxs2 : ∀ x2 ∈ xs, foreignTag T x2 = true :=
      fun x2 h2 => hxs x2 (List.mem_cons_of_mem _ h2)
    have cont : ∀ (k : Nat) (p1 : parser) (extra1 : List (String × Nat)),
        k ≤ xs.length → structFrame T D p p1 → structsTagged p1 →
        p1.structs = extra1 ++ p.structs → duplicateKeys [x] extra1 →
        parseTypesLoop (xs ++ ys) k p1 = .ok pf →
        ∃ q extra, structFrame T D p q ∧ structsTagged q
          ∧ q.structs = extra ++ p.structs ∧ duplicateKeys (x :: xs) extra
          ∧ parseTypesLoop ys 0 q = .ok pf := by
      intro k p1 extra1 hk hf1 hp1 hs1 hd1 h1
      have hfull1 : (∃ x2 ∈ xs, hasStructTag D x2 = true) → boundHasFields D p1 := by
        intro ⟨x2, hx2, hx2t⟩
        exact boundHasFields_of_frame hp hf1
          (hfull ⟨x2, List.mem_cons_of_mem _ hx2, hx2t⟩)
      obtain ⟨q, extra2, hq, hpq, hsq, hdq, hrun⟩ :=
        ih hxs2 ys k p1 pf hstop hk hp1 hfull1 h1
      refine ⟨q, extra2 ++ extra1, structFrame_trans hf1 hq, hpq, ?_, ?_, hrun⟩
      · rw [hsq, hs1, List.append_assoc]
      · intro e he
        rcases List.mem_append.1 he with he | he
        · obtain ⟨y, hy, hrest⟩ := hdq e he
          exact ⟨y, List.mem_cons_of_mem _ hy, hrest⟩
        · obtain ⟨y, hy, hrest⟩ := hd1 e he
          rw [List.mem_singleton.1 hy] at hrest
          exact ⟨x, List.mem_cons_self _ _, hrest⟩
    have same : ∀ (k : Nat) (p1 : parser), k ≤ xs.length → sameStructs p1 p →
        parseTypesLoop (xs ++ ys) k p1 = .ok pf →
        ∃ q extra, structFrame T D p q ∧ structsTagged q
          ∧ q.structs = extra ++ p.structs ∧ duplicateKeys (x :: xs) extra
          ∧ parseTypesLoop ys 0 q = .ok pf :=
      fun k p1 hk hs h1 =>
        cont k p1 [] hk (structFrame_of_same hs) (structsTagged_of_same hs hp)
          (by rw [hs.1]; rfl) (fun e he => by cases he) h1
    rw [List.cons_append] at h
    cases skip with
    | succ k =>
      simp only [parseTypesLoop] at h
      exact same k p (by simpa using hskip) (sameStructs_refl p) h
    | zero =>
      unfold parseTypesLoop at h
      split at h
      · rename_i body hb
        split at h
        · rename_i hc
          split at h
          · cases h
          · rename_i n p1 hsub
            have hxD : validName body.Name = D → boundHasFields D p := by
              intro hD
              refine hfull ⟨x, List.mem_cons_self _ _, ?_⟩
              simp [hasStructTag, hb, hc, hD]
            simp only [foreignTag, hb, hc, Bool.and_eq_true, bne_iff_ne, ne_eq] at hx
            obtain ⟨hn, hf1, hp1, extra1, hs1, hk1⟩ := parseClassSTRTAG_frame T D p body
              xs ys n p1 hx.1 hxD hx.2 (hTD _ hx.1 hx.2) hstop hp hsub
            exact cont n p1 extra1 hn hf1 hp1 hs1
              (fun e he => ⟨x, List.mem_singleton.2 rfl, body, hb, hc, hk1 e he⟩) h
        · split at h
          · cases h
          · rename_i n p1 hsub
            obtain ⟨hn, hs1⟩ := parseClassUNTAG_stops p body xs ys n p1 hstop hsub
            exact same n p1 hn hs1 h
        · split at h
          · cases h
          · rename_i p1 hsub
            exact same 0 p1 (Nat.zero_le _) (parseClassTPDEF_same _ _ _ _ _ _ hsub) h
        · split at h
          · cases h
          · rename_i n p1 hsub
            obtain ⟨hn, hs1⟩ := parseClassENTAG_stops p body xs ys n p1 hstop hsub
            exact same n p1 hn hs1 h
        · exact same 0 p (Nat.zero_le _) (sameStructs_refl p) h
      · split at h
        · split at h
          · cases h
          · rename_i p1 hsub
            exact same 0 p1 (Nat.zero_le _) (parseClassTPDEF_same _ _ _ _ _ _ hsub) h
        · exact same 0 p (Nat.zero_le _) (sameStructs_refl p) h
      · exact same 0 p (Nat.zero_le _) (sameStructs_refl p) h

theorem lt_of_getElem?_some {α : Type} {l : List α} {i : Nat} {a : α}
    (h : l[i]? = some a) : i < l.length := by
  by_contra hcon
  rw [List.getElem?_eq_none (Nat.le_of_not_lt hcon)] at h
  cases h

theorem appendStructFields_self (q : parser) (t : Nat) (st : c.StructType)
    (fs : List c.Field) (h : q.structHeap[t]? = some st) :
    (q.appendStructFields t fs).structHeap[t]?
      = some { st with Fields := st.Fields ++ fs } := by
  simp only [parser.appendStructFields, h]
  exact List.getElem?_set_self (lt_of_getElem?_some h)

theorem appendStructFields_other (q : parser) (t i : Nat) (fs : List c.Field)
    (h : t ≠ i) : (q.appendStructFields t fs).structHeap[i]? = q.structHeap[i]? := by
  unfold parser.appendStructFields
  cases hst : q.structHeap[t]? with
  | none => rfl
  | some st => exact List.getElem?_set_ne h

theorem appendStructFields_tagged (q : parser) (t : Nat) (fs : List c.Field)
    (hq : structsTagged q) : structsTagged (q.appendStructFields t fs) := by
  intro k r hl
  rw [(appendStructFields_tables q t fs).1] at hl
  obtain ⟨st, hst, htag⟩ := hq k r hl
  by_cases htr : t = r
  · subst htr
    exact ⟨_, appendStructFields_self q t st fs hst, htag⟩
  · exact ⟨st, by rw [appendStructFields_other q t r fs htr]; exact hst, htag⟩

theorem newStruct_tagged (p : parser) (tag : String) (size : Nat)
    (hp : structsTagged p)
    (hf : ∀ (r : Nat) (st : c.StructType), p.structHeap[r]? = some st → st.Fields = []) :
    structsTagged (p.newStruct tag size)
      ∧ ∀ (r : Nat) (st : c.StructType),
          (p.newStruct tag size).structHeap[r]? = some st → st.Fields = [] := by
  have hnew : (p.newStruct tag size).structHeap[p.structHeap.length]?
      = some ⟨size, tag, []⟩ := by
    simp [parser.newStruct]
  have hold : ∀ (i : Nat), i < p.structHeap.length →
      (p.newStruct tag size).structHeap[i]? = p.structHeap[i]? := by
    intro i hlt
    simp only [parser.newStruct]
    exact List.getElem?_append_left hlt
  constructor
  · intro k r hl
    by_cases hk : k = tag
    · subst hk
      simp [parser.newStruct, List.lookup] at hl
      subst hl
      exact ⟨_, hnew, rfl⟩
    · have hne : (k == tag) = false := by simpa using hk
      simp only [parser.newStruct, List.lookup, hne] at hl
      obtain ⟨st0, h0, ht0⟩ := hp k r hl
      exact ⟨st0, by rw [hold r (lt_of_getElem?_some h0)]; exact h0, ht0⟩
  · intro r st hst
    by_cases hlt : r < p.structHeap.length
    · rw [hold r hlt] at hst
      exact hf r st hst
    · have hlen : (p.newStruct tag size).structHeap.length = p.structHeap.length + 1 := by
        simp [parser.newStruct]
      have hr : r = p.structHeap.length := by
        have := lt_of_getElem?_some hst
        omega
      subst hr
      rw [hnew] at hst
      cases hst
      rfl

/-- The tag prescan keeps the struct table and the struct objects in step: every
bound object carries its key as tag, and no object has a field. -/
theorem initTaggedTypesLoop_tagged :
    ∀ (syms : List sym.Symbol) (u : uniqueTags) (p : parser),
      structsTagged p →
      (∀ (r : Nat) (st : c.StructType), p.structHeap[r]? = some st → st.Fields = []) →
      structsTagged (initTaggedTypesLoop syms u p)
        ∧ ∀ (r : Nat) (st : c.StructType),
            (initTaggedTypesLoop syms u p).structHeap[r]? = some st → st.Fields = [] := by
  intro syms
  induction syms with
  | nil => intro u p hp hf; exact ⟨hp, hf⟩
  | cons s syms ih =>
    intro u p hp hf
    cases hb : s.Body with
    | Def body =>
      cases hc : body.Class <;> simp only [initTaggedTypesLoop, hb, hc]
      case STRTAG =>
        obtain ⟨g1, g2⟩ := newStruct_tagged p
          (if (u.uniqueStruct.lookup (validName body.Name)).getD false
            then duplicatePrefix ++ validName body.Name else validName body.Name)
          body.Size hp hf
        exact ih _ _ g1 g2
      all_goals exact ih _ _ hp hf
    | _ =>
      simp only [initTaggedTypesLoop, hb]
      exact ih _ _ hp hf

theorem initTaggedTypes_tagged (syms : List sym.Symbol) :
    structsTagged (initTaggedTypes newParser syms)
      ∧ ∀ (r : Nat) (st : c.StructType),
          (initTaggedTypes newParser syms).structHeap[r]? = some st → st.Fields = [] := by
  have h0 := newStruct_tagged newParser "__vtbl_ptr_type" 0
    (by intro k r hl; simp [newParser] at hl)
    (by intro r st hst; simp [newParser] at hst)
  exact initTaggedTypesLoop_tagged syms
    { uniqueStruct := [], uniqueUnion := [], uniqueEnum := [] } _ h0.1 h0.2

theorem initTaggedTypes_structKey (syms : List sym.Symbol) (s : sym.Symbol)
    (body : sym.Def) (hs : s ∈ syms) (hb : s.Body = .Def body) (hc : body.Class = .STRTAG) :
    ∃ r, (initTaggedTypes newParser syms).structs.lookup (validName body.Name) = some r := by
  have hkeys := (initTaggedTypesLoop_keys syms
    { uniqueStruct := [], uniqueUnion := [], uniqueEnum := [] }
    { (newParser.newStruct "__vtbl_ptr_type" 0) with
      structTags := (newParser.newStruct "__vtbl_ptr_type" 0).structTags ++ ["__vtbl_ptr_type"],
      types := ("bool", .Decl 0 0 .Typedef (.mk .Int "bool"))
        :: (newParser.newStruct "__vtbl_ptr_type" 0).types }
    ⟨fun k h => by simp at h, fun k h => by simp at h, fun k h => by simp at h⟩).2 s hs body hb
  exact isSome_lookup _ _ (hkeys.1 hc)

theorem hasStructTag_of_foreignTag (T : String) (x : sym.Symbol)
    (h : foreignTag T x = true) : hasStructTag T x = false := by
  unfold foreignTag at h
  unfold hasStructTag
  cases hb : x.Body with
  | Def body =>
    rw [hb] at h
    cases hc : body.Class <;> simp only [hc] at h ⊢
    simp only [Bool.and_eq_true, bne_iff_ne, ne_eq] at h
    simpa using h.1
  | _ => rfl

/-- C5 (amended): a stream with exactly two struct-tag records of the sanitized
tag T, each followed by its member records and the sentinel, the first member
list not empty, in which no other struct-tag record has a tag X with
_duplicate_X = T, in which no struct-tag record after the second member list
has the tag _duplicate_T if that list is empty, and on which the type pass of a
fresh parser completes. Afterwards the struct table binds T and _duplicate_T to
two distinct struct objects, tagged T and _duplicate_T; the first holds exactly
the fields of the first member range, in order, and the second exactly the
fields of the second member range, in order. The field types are the ones the
type resolver gives in the states q1 and q2 in which the two ranges are parsed:
their union and enum tables are those of the prescan, and their struct tables
are the one of the prescan with the bindings added for duplicates of other
struct tags passed before, and in q2 with _duplicate_T bound to the second
object. -/
theorem C5_duplicate_struct_tags (pre mem1 mid mem2 post : List sym.Symbol) (v1 v2 : Nat)
    (b1 b2 : sym.Def) (eos1 eos2 : sym.Symbol) (pf : parser)
    (hb1 : b1.Class = .STRTAG) (hb2 : b2.Class = .STRTAG)
    (hT : validName b2.Name = validName b1.Name)
    (hpre : ∀ x ∈ pre, foreignTag (validName b1.Name) x = true)
    (hmid : ∀ x ∈ mid, foreignTag (validName b1.Name) x = true)
    (hpost : ∀ x ∈ post, foreignTag (validName b1.Name) x = true)
    (hpost2 : mem2 = [] →
      ∀ x ∈ post, hasStructTag (duplicatePrefix ++ validName b1.Name) x = false)
    (hmem1 : ∀ s ∈ mem1, isStructMember s = true)
    (hmem2 : ∀ s ∈ mem2, isStructMember s = true)
    (hne : mem1 ≠ [])
    (heos1 : isEndOfAggregate eos1 = true) (heos2 : isEndOfAggregate eos2 = true)
    (hrun : parseTypes newParser
      (pre ++ ⟨v1, .Def b1⟩ :: (mem1 ++ eos1 ::
        (mid ++ ⟨v2, .Def b2⟩ :: (mem2 ++ eos2 :: post)))) = .ok pf) :
    ∃ (r1 r2 : Nat) (s1 s2 : c.StructType) (q1 q2 : parser)
        (extra1 extra2 : List (String × Nat)),
      pf.structs.lookup (validName b1.Name) = some r1
      ∧ pf.structs.lookup (duplicatePrefix ++ validName b1.Name) = some r2
      ∧ r1 ≠ r2
      ∧ pf.structHeap[r1]? = some s1 ∧ pf.structHeap[r2]? = some s2
      ∧ s1.Tag = validName b1.Name ∧ s2.Tag = duplicatePrefix ++ validName b1.Name
      ∧ memberFields q1 mem1 = .ok s1.Fields
      ∧ memberFields q2 mem2 = .ok s2.Fields
      ∧ q1.structs = extra1 ++ (initTaggedTypes newParser
          (pre ++ ⟨v1, .Def b1⟩ :: (mem1 ++ eos1 ::
            (mid ++ ⟨v2, .Def b2⟩ :: (mem2 ++ eos2 :: post))))).structs
      ∧ duplicateKeys pre extra1
      ∧ q2.structs = (duplicatePrefix ++ validName b1.Name, r2) :: (extra2 ++ q1.structs)
      ∧ duplicateKeys mid extra2
      ∧ q1.unions = q2.unions ∧ q1.enums = q2.enums
      ∧ q1.unions = (initTaggedTypes newParser
          (pre ++ ⟨v1, .Def b1⟩ :: (mem1 ++ eos1 ::
            (mid ++ ⟨v2, .Def b2⟩ :: (mem2 ++ eos2 :: post))))).unions
      ∧ q1.enums = (initTaggedTypes newParser
          (pre ++ ⟨v1, .Def b1⟩ :: (mem1 ++ eos1 ::
            (mid ++ ⟨v2, .Def b2⟩ :: (mem2 ++ eos2 :: post))))).enums := by
  -- the prescan
  obtain ⟨hJ, hE⟩ := initTaggedTypes_tagged
    (pre ++ ⟨v1, .Def b1⟩ :: (mem1 ++ eos1 ::
      (mid ++ ⟨v2, .Def b2⟩ :: (mem2 ++ eos2 :: post))))
  obtain ⟨r1, hkey⟩ := initTaggedTypes_structKey
    (pre ++ ⟨v1, .Def b1⟩ :: (mem1 ++ eos1 ::
      (mid ++ ⟨v2, .Def b2⟩ :: (mem2 ++ eos2 :: post))))
    ⟨v1, .Def b1⟩ b1 (List.mem_append_right _ (List.mem_cons_self _ _)) rfl hb1
  unfold parseTypes at hrun
  generalize initTaggedTypes newParser (pre ++ ⟨v1, .Def b1⟩ :: (mem1 ++ eos1 ::
        (mid ++ ⟨v2, .Def b2⟩ :: (mem2 ++ eos2 :: post)))) = P0 at hrun hJ hE hkey ⊢
  obtain ⟨st0, hst0, htag0⟩ := hJ _ _ hkey
  have hfld0 : st0.Fields = [] := hE _ _ hst0
  have hne12 : validName b1.Name ≠ duplicatePrefix ++ validName b1.Name :=
    fun h => duplicatePrefix_append_ne _ h.symm
  -- up to the first struct-tag record
  have hvac : ∀ (xs : List sym.Symbol) (p : parser),
      (∀ x ∈ xs, foreignTag (validName b1.Name) x = true) →
      (∃ x ∈ xs, hasStructTag (validName b1.Name) x = true) →
        boundHasFields (validName b1.Name) p := by
    intro xs p hxs ⟨x, hx, hxt⟩
    rw [hasStructTag_of_foreignTag _ x (hxs x hx)] at hxt
    cases hxt
  obtain ⟨q1, extra1, hf1, ht1, hs1, hd1, h1⟩ := parseTypesLoop_foreign (validName b1.Name)
    (validName b1.Name) (fun _ _ h => h)
    pre hpre _ 0 P0 pf (by intro y hy; cases hy; simp [isStructTag, hb1]) (Nat.zero_le _)
    hJ (hvac pre P0 hpre) hrun
  obtain ⟨n1, p1, hsub1, h1⟩ := parseTypesLoop_structTag v1 b1 hb1 _ q1 pf h1
  have hq1obj : q1.structHeap[r1]? = some st0 := by
    obtain ⟨st2, g1, _, g3⟩ := hf1.1 r1 st0 hst0
    rw [g3 (Or.inl htag0)] at g1
    exact g1
  obtain ⟨fs1, hfs1, hpr1⟩ := parseClassSTRTAG_first q1 b1 r1 st0 mem1 _ eos1 (n1, p1)
    (by rw [hf1.2.1]; exact hkey) hq1obj hfld0 hmem1 heos1 hsub1
  simp only [Prod.mk.injEq] at hpr1
  obtain ⟨hn1, hp1⟩ := hpr1
  subst hn1
  rw [parseTypesLoop_skip_range] at h1
  obtain ⟨hp1s, hp1u, hp1e, _, _⟩ := appendStructFields_tables q1 r1 fs1
  rw [← hp1] at hp1s hp1u hp1e
  have hp1obj : p1.structHeap[r1]? = some ⟨st0.Size, validName b1.Name, fs1⟩ := by
    rw [hp1, appendStructFields_self q1 r1 st0 fs1 hq1obj, hfld0, ← htag0]
    rfl
  have hp1t : structsTagged p1 := by
    rw [hp1]
    exact appendStructFields_tagged q1 r1 fs1 ht1
  -- up to the second struct-tag record
  obtain ⟨q2, extra2, hf2, ht2, hs2, hd2, h2⟩ := parseTypesLoop_foreign (validName b1.Name)
    (validName b1.Name) (fun _ _ h => h)
    mid hmid _ 0 p1 pf (by intro y hy; cases hy; simp [isStructTag, hb2]) (Nat.zero_le _)
    hp1t (hvac mid p1 hmid) h1
  obtain ⟨n2, p2, hsub2, h2⟩ := parseTypesLoop_structTag v2 b2 hb2 _ q2 pf h2
  have hq2obj : q2.structHeap[r1]? = some ⟨st0.Size, validName b1.Name, fs1⟩ := by
    obtain ⟨st2, g1, _, g3⟩ := hf2.1 r1 _ hp1obj
    rw [g3 (Or.inl rfl)] at g1
    exact g1
  have hfs1len : 0 < fs1.length := by
    rw [memberFields_length q1 mem1 fs1 hfs1]
    exact List.length_pos.2 hne
  obtain ⟨fs2, hfs2, hpr2⟩ := parseClassSTRTAG_duplicate q2 b2 r1
    ⟨st0.Size, validName b1.Name, fs1⟩ mem2 _ eos2 (n2, p2)
    (by rw [hT, hf2.2.1, hp1s, hf1.2.1]; exact hkey) hq2obj hfs1len hmem2 heos2 hsub2
  simp only [Prod.mk.injEq] at hpr2
  obtain ⟨hn2, hp2⟩ := hpr2
  subst hn2
  rw [parseTypesLoop_skip_range] at h2
  rw [hT] at hp2 hfs2
  have hr1lt : r1 < q2.structHeap.length := lt_of_getElem?_some hq2obj
  have hr12 : r1 ≠ q2.structHeap.length := Nat.ne_of_lt hr1lt
  have hnewobj : (q2.newStruct (duplicatePrefix ++ validName b1.Name) b2.Size).structHeap[
      q2.structHeap.length]? = some ⟨b2.Size, duplicatePrefix ++ validName b1.Name, []⟩ := by
    simp [parser.newStruct]
  have hp2obj2 : p2.structHeap[q2.structHeap.length]?
      = some ⟨b2.Size, duplicatePrefix ++ validName b1.Name, fs2⟩ := by
    rw [hp2, appendStructFields_self _ _ _ fs2 hnewobj]
    rfl
  have hp2obj1 : p2.structHeap[r1]? = some ⟨st0.Size, validName b1.Name, fs1⟩ := by
    rw [hp2, appendStructFields_other _ _ r1 fs2 (Ne.symm hr12)]
    simp only [parser.newStruct]
    rw [List.getElem?_append_left hr1lt]
    exact hq2obj
  have hp2s : p2.structs
      = (duplicatePrefix ++ validName b1.Name, q2.structHeap.length) :: q2.structs := by
    rw [hp2, (appendStructFields_tables _ _ fs2).1]
    rfl
  have hq2t : structsTagged (q2.newStruct (duplicatePrefix ++ validName b1.Name) b2.Size) := by
    intro k r hl
    by_cases hk : k = duplicatePrefix ++ validName b1.Name
    · subst hk
      simp [parser.newStruct, List.lookup] at hl
      subst hl
      exact ⟨_, hnewobj, rfl⟩
    · have hne : (k == duplicatePrefix ++ validName b1.Name) = false := by simpa using hk
      simp only [parser.newStruct, List.lookup, hne] at hl
      obtain ⟨st3, g1, g2⟩ := ht2 k r hl
      refine ⟨st3, ?_, g2⟩
      simp only [parser.newStruct]
      rw [List.getElem?_append_left (lt_of_getElem?_some g1)]
      exact g1
  have hp2t : structsTagged p2 := by
    rw [hp2]
    exact appendStructFields_tagged _ _ fs2 hq2t
  -- up to the end of the stream
  have hfull2 : (∃ x ∈ post, hasStructTag (duplicatePrefix ++ validName b1.Name) x = true) →
      boundHasFields (duplicatePrefix ++ validName b1.Name) p2 := by
    intro ⟨x, hx, hxt⟩
    have hmem2ne : mem2 ≠ [] := by
      intro hnil
      rw [hpost2 hnil x hx] at hxt
      cases hxt
    intro t st hl hst
    rw [hp2s] at hl
    simp only [List.lookup, beq_self_eq_true, Option.some.injEq] at hl
    subst hl
    rw [hp2obj2] at hst
    cases hst
    simp only []
    rw [memberFields_length _ mem2 fs2 hfs2]
    exact List.length_pos.2 hmem2ne
  obtain ⟨q3, _, hf3, _, _, _, h3⟩ := parseTypesLoop_foreign (validName b1.Name)
    (duplicatePrefix ++ validName b1.Name)
    (fun a ha _ hc => ha (duplicatePrefix_append_cancel _ _ hc))
    post hpost [] 0 p2 pf (by intro y hy; cases hy) (Nat.zero_le _) hp2t hfull2
    (by rw [List.append_nil]; exact h2)
  simp only [parseTypesLoop, Except.ok.injEq] at h3
  subst h3
  have hk1 : (validName b1.Name == duplicatePrefix ++ validName b1.Name) = false := by
    simpa using hne12
  refine ⟨r1, q2.structHeap.length, ⟨st0.Size, validName b1.Name, fs1⟩,
    ⟨b2.Size, duplicatePrefix ++ validName b1.Name, fs2⟩, q1,
    q2.newStruct (duplicatePrefix ++ validName b1.Name) b2.Size, extra1, extra2,
    ?_, ?_, hr12, ?_, ?_, rfl, rfl, hfs1, hfs2, hs1, hd1, ?_, hd2, ?_, ?_,
    hf1.2.2.2.1, hf1.2.2.2.2⟩
  · rw [hf3.2.1, hp2s]
    simp only [List.lookup, hk1]
    rw [hf2.2.1, hp1s, hf1.2.1]
    exact hkey
  · rw [hf3.2.2.1, hp2s]
    simp [List.lookup]
  · obtain ⟨st2, g1, _, g3⟩ := hf3.1 r1 _ hp2obj1
    rw [g3 (Or.inl rfl)] at g1
    exact g1
  · obtain ⟨st2, g1, _, g3⟩ := hf3.1 _ _ hp2obj2
    rw [g3 (Or.inr rfl)] at g1
    exact g1
  · simp only [parser.newStruct]
    rw [hs2, hp1s]
  · simp only [parser.newStruct]
    rw [hf2.2.2.2.1, hp1u]
  · simp only [parser.newStruct]
    rw [hf2.2.2.2.2, hp1e]

/-- C5 (witness): struct A with the member x, struct S with the member a, a
union U and a second struct A with the member y, a second struct S with the
members b and c, and a struct _duplicate_S with the member z behind it. -/
theorem C5_duplicate_struct_tags_witness :
    ∃ pf, parseTypes newParser
        ((([ ⟨0, .Def ⟨.STRTAG, ⟨.Struct, []⟩, 4, "A"⟩⟩,
            ⟨0, .Def ⟨.MOS, ⟨.Int, []⟩, 4, "x"⟩⟩,
            ⟨0, .Def2 ⟨.EOS, ⟨.Null, []⟩, 4, [], "", ".eos"⟩⟩ ] : List sym.Symbol))
          ++ ⟨0, .Def ⟨.STRTAG, ⟨.Struct, []⟩, 4, "S"⟩⟩
          :: ((([⟨0, .Def ⟨.MOS, ⟨.Int, []⟩, 4, "a"⟩⟩] : List sym.Symbol))
          ++ ⟨0, .Def2 ⟨.EOS, ⟨.Null, []⟩, 4, [], "", ".eos"⟩⟩
          :: ((([ ⟨0, .Def ⟨.UNTAG, ⟨.Union, []⟩, 4, "U"⟩⟩,
                  ⟨0, .Def ⟨.MOU, ⟨.Int, []⟩, 4, "u"⟩⟩,
                  ⟨0, .Def2 ⟨.EOS, ⟨.Null, []⟩, 4, [], "", ".eos"⟩⟩,
                  ⟨0, .Def ⟨.STRTAG, ⟨.Struct, []⟩, 4, "A"⟩⟩,
                  ⟨0, .Def ⟨.MOS, ⟨.Int, []⟩, 4, "y"⟩⟩,
                  ⟨0, .Def2 ⟨.EOS, ⟨.Null, []⟩, 4, [], "", ".eos"⟩⟩ ] : List sym.Symbol))
          ++ ⟨0, .Def ⟨.STRTAG, ⟨.Struct, []⟩, 8, "S"⟩⟩
          :: ((([ ⟨0, .Def ⟨.MOS, ⟨.Int, []⟩, 4, "b"⟩⟩,
                  ⟨4, .Def2 ⟨.MOS, ⟨.Struct, [.Pointer]⟩, 4, [], "S", "c"⟩⟩ ] : List sym.Symbol))
          ++ ⟨0, .Def2 ⟨.EOS, ⟨.Null, []⟩, 8, [], "", ".eos"⟩⟩
          :: [ ⟨0, .Def ⟨.STRTAG, ⟨.Struct, []⟩, 4, "_duplicate_S"⟩⟩,
               ⟨0, .Def ⟨.MOS, ⟨.Int, []⟩, 4, "z"⟩⟩,
               ⟨0, .Def2 ⟨.EOS, ⟨.Null, []⟩, 4, [], "", ".eos"⟩⟩ ])))) = .ok pf
      ∧ ∃ (r1 r2 : Nat) (s1 s2 : c.StructType) (q1 q2 : parser)
          (extra1 extra2 : List (String × Nat)),
        pf.structs.lookup (validName "S") = some r1
        ∧ pf.structs.lookup (duplicatePrefix ++ validName "S") = some r2
        ∧ r1 ≠ r2
        ∧ pf.structHeap[r1]? = some s1 ∧ pf.structHeap[r2]? = some s2
        ∧ s1.Tag = validName "S" ∧ s2.Tag = duplicatePrefix ++ validName "S"
        ∧ memberFields q1 [⟨0, .Def ⟨.MOS, ⟨.Int, []⟩, 4, "a"⟩⟩] = .ok s1.Fields
        ∧ memberFields q2
            [ ⟨0, .Def ⟨.MOS, ⟨.Int, []⟩, 4, "b"⟩⟩,
              ⟨4, .Def2 ⟨.MOS, ⟨.Struct, [.Pointer]⟩, 4, [], "S", "c"⟩⟩ ] = .ok s2.Fields
        ∧ q1.structs = extra1 ++ (initTaggedTypes newParser
            ((([ ⟨0, .Def ⟨.STRTAG, ⟨.Struct, []⟩, 4, "A"⟩⟩,
                ⟨0, .Def ⟨.MOS, ⟨.Int, []⟩, 4, "x"⟩⟩,
                ⟨0, .Def2 ⟨.EOS, ⟨.Null, []⟩, 4, [], "", ".eos"⟩⟩ ] : List sym.Symbol))
              ++ ⟨0, .Def ⟨.STRTAG, ⟨.Struct, []⟩, 4, "S"⟩⟩
              :: ((([⟨0, .Def ⟨.MOS, ⟨.Int, []⟩, 4, "a"⟩⟩] : List sym.Symbol))
              ++ ⟨0, .Def2 ⟨.EOS, ⟨.Null, []⟩, 4, [], "", ".eos"⟩⟩
              :: ((([ ⟨0, .Def ⟨.UNTAG, ⟨.Union, []⟩, 4, "U"⟩⟩,
                      ⟨0, .Def ⟨.MOU, ⟨.Int, []⟩, 4, "u"⟩⟩,
                      ⟨0, .Def2 ⟨.EOS, ⟨.Null, []⟩, 4, [], "", ".eos"⟩⟩,
                      ⟨0, .Def ⟨.STRTAG, ⟨.Struct, []⟩, 4, "A"⟩⟩,
                      ⟨0, .Def ⟨.MOS, ⟨.Int, []⟩, 4, "y"⟩⟩,
                      ⟨0, .Def2 ⟨.EOS, ⟨.Null, []⟩, 4, [], "", ".eos"⟩⟩ ] : List sym.Symbol))
              ++ ⟨0, .Def ⟨.STRTAG, ⟨.Struct, []⟩, 8, "S"⟩⟩
              :: ((([ ⟨0, .Def ⟨.MOS, ⟨.Int, []⟩, 4, "b"⟩⟩,
                      ⟨4, .Def2 ⟨.MOS, ⟨.Struct, [.Pointer]⟩, 4, [], "S", "c"⟩⟩ ] : List sym.Symbol))
              ++ ⟨0, .Def2 ⟨.EOS, ⟨.Null, []⟩, 8, [], "", ".eos"⟩⟩
              :: [ ⟨0, .Def ⟨.STRTAG, ⟨.Struct, []⟩, 4, "_duplicate_S"⟩⟩,
                   ⟨0, .Def ⟨.MOS, ⟨.Int, []⟩, 4, "z"⟩⟩,
                   ⟨0, .Def2 ⟨.EOS, ⟨.Null, []⟩, 4, [], "", ".eos"⟩⟩ ]))))).structs
        ∧ duplicateKeys
            [ ⟨0, .Def ⟨.STRTAG, ⟨.Struct, []⟩, 4, "A"⟩⟩,
              ⟨0, .Def ⟨.MOS, ⟨.Int, []⟩, 4, "x"⟩⟩,
              ⟨0, .Def2 ⟨.EOS, ⟨.Null, []⟩, 4, [], "", ".eos"⟩⟩ ] extra1
        ∧ q2.structs = (duplicatePrefix ++ validName "S", r2) :: (extra2 ++ q1.structs)
        ∧ duplicateKeys
            [ ⟨0, .Def ⟨.UNTAG, ⟨.Union, []⟩, 4, "U"⟩⟩,
              ⟨0, .Def ⟨.MOU, ⟨.Int, []⟩, 4, "u"⟩⟩,
              ⟨0, .Def2 ⟨.EOS, ⟨.Null, []⟩, 4, [], "", ".eos"⟩⟩,
              ⟨0, .Def ⟨.STRTAG, ⟨.Struct, []⟩, 4, "A"⟩⟩,
              ⟨0, .Def ⟨.MOS, ⟨.Int, []⟩, 4, "y"⟩⟩,
              ⟨0, .Def2 ⟨.EOS, ⟨.Null, []⟩, 4, [], "", ".eos"⟩⟩ ] extra2
        ∧ q1.unions = q2.unions ∧ q1.enums = q2.enums
        ∧ q1.unions = (initTaggedTypes newParser
            ((([ ⟨0, .Def ⟨.STRTAG, ⟨.Struct, []⟩, 4, "A"⟩⟩,
                ⟨0, .Def ⟨.MOS, ⟨.Int, []⟩, 4, "x"⟩⟩,
                ⟨0, .Def2 ⟨.EOS, ⟨.Null, []⟩, 4, [], "", ".eos"⟩⟩ ] : List sym.Symbol))
              ++ ⟨0, .Def ⟨.STRTAG, ⟨.Struct, []⟩, 4, "S"⟩⟩
              :: ((([⟨0, .Def ⟨.MOS, ⟨.Int, []⟩, 4, "a"⟩⟩] : List sym.Symbol))
              ++ ⟨0, .Def2 ⟨.EOS, ⟨.Null, []⟩, 4, [], "", ".eos"⟩⟩
              :: ((([ ⟨0, .Def ⟨.UNTAG, ⟨.Union, []⟩, 4, "U"⟩⟩,
                      ⟨0, .Def ⟨.MOU, ⟨.Int, []⟩, 4, "u"⟩⟩,
                      ⟨0, .Def2 ⟨.EOS, ⟨.Null, []⟩, 4, [], "", ".eos"⟩⟩,
                      ⟨0, .Def ⟨.STRTAG, ⟨.Struct, []⟩, 4, "A"⟩⟩,
                      ⟨0, .Def ⟨.MOS, ⟨.Int, []⟩, 4, "y"⟩⟩,
                      ⟨0, .Def2 ⟨.EOS, ⟨.Null, []⟩, 4, [], "", ".eos"⟩⟩ ] : List sym.Symbol))
              ++ ⟨0, .Def ⟨.STRTAG, ⟨.Struct, []⟩, 8, "S"⟩⟩
              :: ((([ ⟨0, .Def ⟨.MOS, ⟨.Int, []⟩, 4, "b"⟩⟩,
                      ⟨4, .Def2 ⟨.MOS, ⟨.Struct, [.Pointer]⟩, 4, [], "S", "c"⟩⟩ ] : List sym.Symbol))
              ++ ⟨0, .Def2 ⟨.EOS, ⟨.Null, []⟩, 8, [], "", ".eos"⟩⟩
              :: [ ⟨0, .Def ⟨.STRTAG, ⟨.Struct, []⟩, 4, "_duplicate_S"⟩⟩,
                   ⟨0, .Def ⟨.MOS, ⟨.Int, []⟩, 4, "z"⟩⟩,
                   ⟨0, .Def2 ⟨.EOS, ⟨.Null, []⟩, 4, [], "", ".eos"⟩⟩ ]))))).unions
        ∧ q1.enums = (initTaggedTypes newParser
            ((([ ⟨0, .Def ⟨.STRTAG, ⟨.Struct, []⟩, 4, "A"⟩⟩,
                ⟨0, .Def ⟨.MOS, ⟨.Int, []⟩, 4, "x"⟩⟩,
                ⟨0, .Def2 ⟨.EOS, ⟨.Null, []⟩, 4, [], "", ".eos"⟩⟩ ] : List sym.Symbol))
              ++ ⟨0, .Def ⟨.STRTAG, ⟨.Struct, []⟩, 4, "S"⟩⟩
              :: ((([⟨0, .Def ⟨.MOS, ⟨.Int, []⟩, 4, "a"⟩⟩] : List sym.Symbol))
              ++ ⟨0, .Def2 ⟨.EOS, ⟨.Null, []⟩, 4, [], "", ".eos"⟩⟩
              :: ((([ ⟨0, .Def ⟨.UNTAG, ⟨.Union, []⟩, 4, "U"⟩⟩,
                      ⟨0, .Def ⟨.MOU, ⟨.Int, []⟩, 4, "u"⟩⟩,
                      ⟨0, .Def2 ⟨.EOS, ⟨.Null, []⟩, 4, [], "", ".eos"⟩⟩,
                      ⟨0, .Def ⟨.STRTAG, ⟨.Struct, []⟩, 4, "A"⟩⟩,
                      ⟨0, .Def ⟨.MOS, ⟨.Int, []⟩, 4, "y"⟩⟩,
                      ⟨0, .Def2 ⟨.EOS, ⟨.Null, []⟩, 4, [], "", ".eos"⟩⟩ ] : List sym.Symbol))
              ++ ⟨0, .Def ⟨.STRTAG, ⟨.Struct, []⟩, 8, "S"⟩⟩
              :: ((([ ⟨0, .Def ⟨.MOS, ⟨.Int, []⟩, 4, "b"⟩⟩,
                      ⟨4, .Def2 ⟨.MOS, ⟨.Struct, [.Pointer]⟩, 4, [], "S", "c"⟩⟩ ] : List sym.Symbol))
              ++ ⟨0, .Def2 ⟨.EOS, ⟨.Null, []⟩, 8, [], "", ".eos"⟩⟩
              :: [ ⟨0, .Def ⟨.STRTAG, ⟨.Struct, []⟩, 4, "_duplicate_S"⟩⟩,
                   ⟨0, .Def ⟨.MOS, ⟨.Int, []⟩, 4, "z"⟩⟩,
                   ⟨0, .Def2 ⟨.EOS, ⟨.Null, []⟩, 4, [], "", ".eos"⟩⟩ ]))))).enums :=
  ⟨_, (by rfl),
    C5_duplicate_struct_tags
      [ ⟨0, .Def ⟨.STRTAG, ⟨.Struct, []⟩, 4, "A"⟩⟩,
        ⟨0, .Def ⟨.MOS, ⟨.Int, []⟩, 4, "x"⟩⟩,
        ⟨0, .Def2 ⟨.EOS, ⟨.Null, []⟩, 4, [], "", ".eos"⟩⟩ ]
      [⟨0, .Def ⟨.MOS, ⟨.Int, []⟩, 4, "a"⟩⟩]
      [ ⟨0, .Def ⟨.UNTAG, ⟨.Union, []⟩, 4, "U"⟩⟩,
        ⟨0, .Def ⟨.MOU, ⟨.Int, []⟩, 4, "u"⟩⟩,
        ⟨0, .Def2 ⟨.EOS, ⟨.Null, []⟩, 4, [], "", ".eos"⟩⟩,
        ⟨0, .Def ⟨.STRTAG, ⟨.Struct, []⟩, 4, "A"⟩⟩,
        ⟨0, .Def ⟨.MOS, ⟨.Int, []⟩, 4, "y"⟩⟩,
        ⟨0, .Def2 ⟨.EOS, ⟨.Null, []⟩, 4, [], "", ".eos"⟩⟩ ]
      [ ⟨0, .Def ⟨.MOS, ⟨.Int, []⟩, 4, "b"⟩⟩,
        ⟨4, .Def2 ⟨.MOS, ⟨.Struct, [.Pointer]⟩, 4, [], "S", "c"⟩⟩ ]
      [ ⟨0, .Def ⟨.STRTAG, ⟨.Struct, []⟩, 4, "_duplicate_S"⟩⟩,
        ⟨0, .Def ⟨.MOS, ⟨.Int, []⟩, 4, "z"⟩⟩,
        ⟨0, .Def2 ⟨.EOS, ⟨.Null, []⟩, 4, [], "", ".eos"⟩⟩ ]
      0 0 ⟨.STRTAG, ⟨.Struct, []⟩, 4, "S"⟩ ⟨.STRTAG, ⟨.Struct, []⟩, 8, "S"⟩
      ⟨0, .Def2 ⟨.EOS, ⟨.Null, []⟩, 4, [], "", ".eos"⟩⟩
      ⟨0, .Def2 ⟨.EOS, ⟨.Null, []⟩, 8, [], "", ".eos"⟩⟩ _
      rfl rfl rfl (by decide) (by decide) (by decide) (by decide) (by decide) (by decide)
      (by decide) rfl rfl (by rfl)⟩

end SymDump
